import Mathlib

/-!
Verification development for the lispy-style Scheme interpreter in
`src/code/code.py` (a CircuitPython port of Norvig's lispy2).

The Python program is shallowly embedded:

* Python values and expression trees share one type `Val` (code is data);
  machine integers are `Int` (Python ints are unbounded), Python `None` is
  `Val.none`, interned `Symbol`s are `Val.sym` carrying their text
  (symbols with equal text are identity-equal in the source, so text
  equality is faithful identity), and floats are abstracted by their
  source token (`Val.float`) — no claim depends on float arithmetic,
  printing, or float truthiness.
* The tokenizer regex
  `[ ]*(,@|[('`,)]|"(?:[\\].|[^\\"])*"|;.*|[^ ('"`,;)]*)(.*)`
  of `InPort.next_token` is modelled by the deterministic scanner
  `matchTok` (the regex alternatives are tried leftmost-first and each is
  greedy; inside the string alternative the unit decomposition is
  deterministic, so the scanner is exact).
* Environments are heap references (`Nat` indices into `IState.heap`),
  since `define`/`set!` mutate environments shared by closures.
* Exceptions (`SyntaxError`, `LookupError`, the arity `TypeError`, other
  host `TypeError`-like failures, and the `RuntimeWarning` ball thrown by
  `callcc`) are the `Err` type, propagated in `Except`.
* The trampolined `eval` loop and its in-frame sub-loops are one
  fuel-structural machine `run`; `fuel` is a pure modelling artifact
  (recursion-depth bound of the machine) while `stk` counts nested
  Python `eval` invocations: a tail transition of the `while True` loop
  keeps `stk`, a nested `eval(...)` call decrements it.  `expand` is the
  machine `xpand` (expansion-time evaluations receive `stk := fuel`, as
  no claim concerns their stack depth).

Omissions, each inessential to every claim and noted where relevant:
the math-module and hardware/I/O bindings of the global environment, the
`let` host macro, the `apply`/`eval`/`load` native procedures, Python
object-identity equality (`eq?`, equality of closures), and float
semantics beyond token identity.
-/

namespace LispyPy

/-- Characters that Python's `str.strip()` removes. -/
def pyWs (c : Char) : Bool :=
  c = ' ' || c = '\t' || c = '\n' || c = '\r' || c = '\x0b' || c = '\x0c'

/-- Python `str.strip()` on a list of characters. -/
def pyStrip (l : List Char) : List Char :=
  ((l.dropWhile pyWs).reverse.dropWhile pyWs).reverse

/-- The single-quote mark character. -/
def qteC : Char := Char.ofNat 39

/-- The quasiquote (back-tick) mark character. -/
def bqC : Char := Char.ofNat 96

/-- The double-quote character. -/
def dqC : Char := '"'

/-- Characters allowed in a raw token: the regex class excludes the
space, `(`, the single quote, the double quote, the back-tick, the
comma, the semicolon and `)`.  (Note: tabs and other non-space
whitespace are NOT excluded — the source regex was changed from the
usual lispy `\s` classes to literal-space classes.) -/
def rawCh (c : Char) : Bool :=
  !(c = ' ' || c = '(' || c = qteC || c = dqC || c = bqC ||
    c = ',' || c = ';' || c = ')')

/-- Scanner for the inside of the string alternative
`"(?:[\\].|[^\\"])*"`, after the opening double quote: returns the raw
inner text (escapes NOT decoded) and the remainder after the closing
quote, or `none` when no closing quote is reachable. -/
def scanStr : List Char → Option (List Char × List Char)
  | [] => Option.none
  | c :: r =>
    if c = dqC then some ([], r)
    else if c = '\\' then
      match r with
      | [] => Option.none
      | d :: r2 =>
        match scanStr r2 with
        | some (inner, rest) => some ('\\' :: d :: inner, rest)
        | Option.none => Option.none
    else
      match scanStr r with
      | some (inner, rest) => some (c :: inner, rest)
      | Option.none => Option.none

/-- One match of the tokenizer regex against a line: returns
`(group 1, group 2)`, i.e. the token text (possibly empty, possibly a
comment) and the remainder of the line. -/
def matchTok (l : List Char) : List Char × List Char :=
  let l1 := l.dropWhile (fun c => c = ' ')
  match l1 with
  | [] => ([], [])
  | c :: r =>
    if c = ',' then
      match r with
      | '@' :: r2 => ([',', '@'], r2)
      | _ => ([','], r)
    else if c = '(' || c = qteC || c = bqC || c = ')' then ([c], r)
    else if c = dqC then
      match scanStr r with
      | some (inner, rest) => (dqC :: inner ++ [dqC], rest)
      | Option.none => ([], l1)
    else if c = ';' then (l1, [])
    else (l1.takeWhile rawCh, l1.dropWhile rawCh)

/-- A token: end of file, or token text. -/
inductive Tok where
  | teof
  | tk (s : List Char)
deriving DecidableEq

/-- Input-port state: the retained current line and the remaining lines
(the file, split at newlines; `readline` at end of file is the empty
`rest`). -/
def PState := List Char × List (List Char)

/-- `InPort.next_token`: loop of refill / strip / match / skip of empty
and comment tokens.  Fuel bounds the loop (the source can loop forever
on malformed strings). -/
def nextToken : Nat → PState → Option (Tok × PState)
  | 0, _ => Option.none
  | f + 1, (line, rest) =>
    if line.isEmpty then
      match rest with
      | [] => some (.teof, ([], []))
      | l :: ls => nextToken f (l, ls)
    else
      let l' := pyStrip line
      let tr := matchTok l'
      if tr.1 ≠ [] ∧ tr.1.head? ≠ some ';' then some (.tk tr.1, (tr.2, rest))
      else nextToken f (tr.2, rest)

/-- Collect all tokens up to end of file (for tokenizer-level claims). -/
def tokenList : Nat → PState → Option (List (List Char))
  | 0, _ => Option.none
  | f + 1, s =>
    match nextToken (f + 1) s with
    | Option.none => Option.none
    | some (.teof, _) => some []
    | some (.tk t, s') =>
      match tokenList f s' with
      | some ts => some (t :: ts)
      | Option.none => Option.none

end LispyPy

namespace LispyPy

/-- The native (host) procedures installed by `add_globals` that the
claims exercise.  `add` and `appendP` are both `op.add` in the source
(`'+'` and `'append'` map to the same function).  Host bindings no
claim touches (math module, I/O ports, `apply`/`eval`/`load`, `eq?`
object identity, division, the hardware table) are omitted from the
modelled global environment. -/
inductive Prim where
  | add      -- op.add, bound to "+" and (the same function) to "append"
  | sub      -- op.sub
  | mul      -- op.mul
  | numEq    -- op.eq, bound to "="
  | equalP   -- op.eq, bound to "equal?"
  | lt       -- op.lt
  | gt       -- op.gt
  | notP     -- op.not_
  | lenP     -- len
  | consP    -- cons  = [x]+y
  | carP     -- lambda x: x[0]
  | cdrP     -- lambda x: x[1:]
  | listP    -- lambda *x: list(x)
  | nullP    -- lambda x: x == []
  | listQ    -- lambda x: isa(x, list)
  | symbolQ  -- lambda x: isa(x, Symbol)
  | booleanQ -- lambda x: isa(x, bool)
  | pairQ    -- is_pair
  | callcc   -- callcc (applied specially inside the evaluator)
deriving DecidableEq

/-- Python values = expression trees (code as data).  `float` carries
its source token (abstraction); `closure` is `Procedure(parms, exp,
env)` with the defining environment as a heap reference; `native` is a
host procedure; `contEsc` is the one-shot `throw` escape procedure of
`callcc`, identified by its ball; `eofObj` is the uninterned
`#<eof-object>` symbol. -/
inductive Val where
  | none
  | bool (b : Bool)
  | int (n : Int)
  | float (tok : List Char)
  | str (s : List Char)
  | sym (s : List Char)
  | list (xs : List Val)
  | closure (parms : Val) (body : Val) (env : Nat)
  | native (p : Prim)
  | contEsc (ball : Nat)
  | eofObj

/-- Structural syntax-error messages (the `require` messages and reader
errors of the source, as an enumeration). -/
inductive ErrMsg where
  | unexpectedClose      -- "unexpected )"
  | unexpectedEofInList  -- "unexpected EOF in list"
  | wrongLength          -- default `require` message
  | emptyListExpand      -- "Empty list can?t be expanded"  (apostrophe elided)
  | setNonSymbol         -- "can set! only a symbol"
  | defineNonSymbol      -- "can define only a symbol"
  | defmacTopLevelOnly   -- "define-macro only allowed at top level"
  | macroNotProcedure    -- "macro must be a procedure"
  | badLambdaArgs        -- "illegal lambda argument list"
  | cantSpliceHere       -- "can?t splice here"  (apostrophe elided)
deriving DecidableEq

/-- Error conditions: `LookupError(name)` from `Env.find`, the arity
`TypeError` of `Env.__init__`, other host `TypeError`/`ValueError`-like
failures (collapsed to `typeErr`), `SyntaxError`s, and the
`RuntimeWarning` ball raised by a `callcc` escape procedure. -/
inductive Err where
  | lookupErr (name : List Char)
  | arityErr (parms : Val) (args : List Val)
  | typeErr
  | synErr (m : ErrMsg)
  | ballErr (ball : Nat) (v : Val)

end LispyPy

namespace LispyPy

/-- Value of a nonempty all-digit character run (base 10). -/
def digitsVal : List Char → Option Nat
  | [] => Option.none
  | cs =>
    if cs.all (fun c => c.isDigit) then
      some (cs.foldl (fun a c => a * 10 + (c.toNat - 48)) 0)
    else Option.none

/-- Python `int(token)`: strips whitespace, then an optional sign and a
nonempty digit run.  (Underscore digit separators are not accepted by
the CircuitPython `int`, and are not modelled.) -/
def pyIntParse (t : List Char) : Option Int :=
  match pyStrip t with
  | '+' :: ds => (digitsVal ds).map Int.ofNat
  | '-' :: ds => (digitsVal ds).map (fun n => -(Int.ofNat n : Int))
  | ds => (digitsVal ds).map Int.ofNat

/-- Exponent part of a float literal, after `e`/`E`. -/
def expOk : List Char → Bool
  | [] => false
  | '+' :: ds => !ds.isEmpty && ds.all (fun c => c.isDigit)
  | '-' :: ds => !ds.isEmpty && ds.all (fun c => c.isDigit)
  | ds => !ds.isEmpty && ds.all (fun c => c.isDigit)

/-- Unsigned decimal float body: `digits* [. digits*] [exp]` with at
least one mantissa digit, or `digits+ exp`. -/
def mantExpOk (s : List Char) : Bool :=
  let intPart := s.takeWhile (fun c => c.isDigit)
  let rest := s.dropWhile (fun c => c.isDigit)
  match rest with
  | [] => !intPart.isEmpty
  | '.' :: r2 =>
    let frac := r2.takeWhile (fun c => c.isDigit)
    let r3 := r2.dropWhile (fun c => c.isDigit)
    (!intPart.isEmpty || !frac.isEmpty) &&
      (match r3 with
       | [] => true
       | 'e' :: r4 => expOk r4
       | 'E' :: r4 => expOk r4
       | _ => false)
  | 'e' :: r4 => !intPart.isEmpty && expOk r4
  | 'E' :: r4 => !intPart.isEmpty && expOk r4
  | _ => false

/-- The named floats accepted by `float(...)`, case-insensitively. -/
def nameFloatOk (s : List Char) : Bool :=
  let t := s.map Char.toLower
  t = ("inf").data || t = ("infinity").data || t = ("nan").data

/-- Python `float(token)` success (value abstracted away). -/
def pyFloatOk (t : List Char) : Bool :=
  match pyStrip t with
  | '+' :: s => nameFloatOk s || mantExpOk s
  | '-' :: s => nameFloatOk s || mantExpOk s
  | s => nameFloatOk s || mantExpOk s

/-- `atom(token)`: `#t`/`#f`, then string literals (quotes stripped,
escapes NOT decoded), then `int`, then `float`, else interned Symbol. -/
def atom (t : List Char) : Val :=
  if t = ("#t").data then .bool true
  else if t = ("#f").data then .bool false
  else if t.head? = some dqC then .str ((t.drop 1).dropLast)
  else
    match pyIntParse t with
    | some n => .int n
    | Option.none => if pyFloatOk t then .float t else .sym t

/-- Character of a single decimal digit. -/
def digitChar (d : Nat) : Char := Char.ofNat (48 + d)

/-- Decimal representation of a natural number. -/
def natChars (n : Nat) : List Char :=
  if n = 0 then ['0'] else (Nat.digits 10 n).reverse.map digitChar

/-- Python `str` of an int. -/
def intChars : Int → List Char
  | .ofNat n => natChars n
  | .negSucc m => '-' :: natChars (m + 1)

/-- `x.replace('"', r'\"')` used by `to_string` on strings. -/
def escQuotes : List Char → List Char
  | [] => []
  | c :: r => if c = dqC then '\\' :: dqC :: escQuotes r else c :: escQuotes r

mutual

/-- `to_string(x)`: booleans as `#t`/`#f`, Symbols bare, strings quoted
with `"` re-escaped, lists space-joined in parentheses, ints in decimal,
`None` as Python prints it.  Floats and procedure objects are rendered
abstractly (no claim depends on their text). -/
def toStr : Val → List Char
  | .bool true => ("#t").data
  | .bool false => ("#f").data
  | .sym s => s
  | .str s => dqC :: escQuotes s ++ [dqC]
  | .list xs => '(' :: toStrL xs ++ [')']
  | .int n => intChars n
  | .float tok => tok
  | .none => ("None").data
  | .closure _ _ _ => ("<Procedure>").data
  | .native _ => ("<function>").data
  | .contEsc _ => ("<function>").data
  | .eofObj => ("#<eof-object>").data

/-- `' '.join(map(to_string, xs))`. -/
def toStrL : List Val → List Char
  | [] => []
  | [x] => toStr x
  | x :: y :: r => toStr x ++ ' ' :: toStrL (y :: r)

end

/-- The `quotes` dict of the reader: quote-marker token to symbol. -/
def quoteS : Val := .sym (("quote").data)

def qqS : Val := .sym (("quasiquote").data)

def unqS : Val := .sym (("unquote").data)

def usplS : Val := .sym (("unquote-splicing").data)

def ifS : Val := .sym (("if").data)

def condS : Val := .sym (("cond").data)

def setS : Val := .sym (("set!").data)

def defineS : Val := .sym (("define").data)

def defmacS : Val := .sym (("define-macro").data)

def lambdaS : Val := .sym (("lambda").data)

def beginS : Val := .sym (("begin").data)

def appendS : Val := .sym (("append").data)

def consS : Val := .sym (("cons").data)

/-- Marker-token lookup in the `quotes` dict. -/
def quoteOf (t : List Char) : Option Val :=
  if t = [qteC] then some quoteS
  else if t = [bqC] then some qqS
  else if t = [','] then some unqS
  else if t = [',', '@'] then some usplS
  else Option.none

/-- Reader jobs: `read`, `read_ahead(token)`, and the list-accumulation
loop inside `read_ahead` for `(`. -/
inductive RJob where
  | rExpr
  | rAfter (t : Tok)
  | rList (acc : List Val)

/-- The reader (`read` / `read_ahead`).  `read` returns `eofObj` at end
of input; a bare `)` and end of file inside a list are syntax errors;
quote markers wrap the next read expression. -/
def reader : Nat → RJob → PState → Option (Except Err Val × PState)
  | 0, _, _ => Option.none
  | f + 1, .rExpr, s =>
    match nextToken (f + 1) s with
    | Option.none => Option.none
    | some (.teof, s') => some (.ok .eofObj, s')
    | some (.tk t, s') => reader f (.rAfter (.tk t)) s'
  | _ + 1, .rAfter .teof, s => some (.error (.synErr .unexpectedEofInList), s)
  | f + 1, .rAfter (.tk t), s =>
    if t = ['('] then reader f (.rList []) s
    else if t = [')'] then some (.error (.synErr .unexpectedClose), s)
    else
      match quoteOf t with
      | some q =>
        match reader f .rExpr s with
        | some (.ok v, s') => some (.ok (.list [q, v]), s')
        | other => other
      | Option.none => some (.ok (atom t), s)
  | f + 1, .rList acc, s =>
    match nextToken (f + 1) s with
    | Option.none => Option.none
    | some (t, s') =>
      if t = .tk [')'] then some (.ok (.list acc), s')
      else
        match reader f (.rAfter t) s' with
        | some (.ok v, s2) => reader f (.rList (acc ++ [v])) s2
        | other => other

/-- Read one expression from a text (given as its list of lines). -/
def readTop (fuel : Nat) (text : List (List Char)) : Option (Except Err Val) :=
  (reader fuel .rExpr ([], text)).map (fun p => p.1)

end LispyPy

namespace LispyPy

/-- An `Env`: the local `storage` dict (an association list where an
update shadows by consing in front, so lookup sees the newest binding,
matching dict update) and the optional `outer` environment as a heap
reference. -/
structure Frame where
  storage : List (List Char × Val)
  outer : Option Nat

/-- Interpreter state: the heap of environments (a reference is an index,
new frames are appended; index 0 is the global environment), the
process-wide `macro_table`, and the counter generating distinct `callcc`
balls. -/
structure IState where
  heap : List Frame
  mtab : List (List Char × Val)
  nextBall : Nat

/-- Association-list lookup (first, i.e. newest, match wins). -/
def alook : List (List Char × Val) → List Char → Option Val
  | [], _ => Option.none
  | (k, v) :: r, n => if k = n then some v else alook r n

/-- Dict update: the new pair shadows any older one. -/
def aset (l : List (List Char × Val)) (n : List Char) (v : Val) :
    List (List Char × Val) :=
  (n, v) :: l

/-- `str(p)` as used on parameter names and `set!`/`define` targets;
faithful on the cases well-formed programs reach (Symbols). -/
def pyStr : Val → List Char
  | .sym s => s
  | .str s => s
  | .int n => intChars n
  | .bool true => ("True").data
  | .bool false => ("False").data
  | .none => ("None").data
  | .eofObj => ("#<eof-object>").data
  | .float tok => tok
  | _ => ("<obj>").data

/-- `dict(zip([str(p) for p in parms], args))`: later duplicate keys win,
so the reversed pair list (with first-match lookup) is that dict. -/
def zipBind (ps : List Val) (args : List Val) : List (List Char × Val) :=
  ((ps.map pyStr).zip args).reverse

/-- `Env.__init__(parms, args, outer)`: a single-Symbol parameter
specification binds the whole argument list; a list specification
requires exactly matching lengths (else the arity `TypeError`) and binds
positionally.  A non-sequence specification would raise `TypeError` in
`len` (unreachable for expander-checked lambdas). -/
def bindFrame (parms : Val) (args : List Val) (outer : Option Nat) :
    Except Err Frame :=
  match parms with
  | .sym s => .ok ⟨[(s, .list args)], outer⟩
  | .list ps =>
    if args.length = ps.length then .ok ⟨zipBind ps args, outer⟩
    else .error (.arityErr parms args)
  | .str s =>
    -- len/zip over a plain string iterates its characters
    if args.length = s.length then
      .ok ⟨zipBind (s.map (fun c => .str [c])) args, outer⟩
    else .error (.arityErr parms args)
  | _ => .error .typeErr

/-- Allocate a frame; the reference is its index. -/
def heapPush (st : IState) (fr : Frame) : IState × Nat :=
  ({ st with heap := st.heap ++ [fr] }, st.heap.length)

/-- Overwrite the `name` binding in the frame at `r` (a dict store).
A dangling reference leaves the state unchanged (unreachable for
machine-produced states). -/
def heapSetVar (st : IState) (r : Nat) (name : List Char) (v : Val) :
    IState :=
  match st.heap.get? r with
  | some fr =>
    { st with heap := st.heap.set r { fr with storage := aset fr.storage name v } }
  | Option.none => st

/-- `Env.find(var)`: the innermost environment (self or an ancestor)
whose storage contains the name; `LookupError(name)` when the chain is
exhausted.  Fuel bounds the chain walk (machine-produced chains are
finite and acyclic). -/
def findRef (fuel : Nat) (st : IState) (r : Nat) (name : List Char) :
    Option (Except Err Nat) :=
  match fuel with
  | 0 => Option.none
  | f + 1 =>
    match st.heap.get? r with
    | Option.none => some (.error .typeErr)
    | some fr =>
      if (alook fr.storage name).isSome then some (.ok r)
      else
        match fr.outer with
        | Option.none => some (.error (.lookupErr name))
        | some o => findRef f st o name

/-- Variable reference: `env.find(str(x)).storage[str(x)]`. -/
def lookupVar (fuel : Nat) (st : IState) (r : Nat) (name : List Char) :
    Option (Except Err Val) :=
  match findRef fuel st r name with
  | Option.none => Option.none
  | some (.error e) => some (.error e)
  | some (.ok r') =>
    match st.heap.get? r' with
    | some fr =>
      match alook fr.storage name with
      | some v => some (.ok v)
      | Option.none => some (.error .typeErr)
    | Option.none => some (.error .typeErr)

/-- Python truthiness of the values the interpreter handles.  Floats are
abstracted as truthy (the falsiness of `0.0` is not modelled; no claim
evaluates a float in test position). -/
def truthy : Val → Bool
  | .none => false
  | .bool b => b
  | .int n => decide (n ≠ 0)
  | .str s => !s.isEmpty
  | .sym s => !s.isEmpty
  | .list l => !l.isEmpty
  | .float _ => true
  | .closure _ _ _ => true
  | .native _ => true
  | .contEsc _ => true
  | .eofObj => true

mutual

/-- Python `==` on interpreter values: numeric comparison identifies
`bool` with `0`/`1`; a `Symbol` is a `str` subclass so symbol and
string text compare equal; lists compare element-wise.  Floats compare
by their abstract token, and procedure objects (Python identity
equality) compare `false` — both unreachable from the claims. -/
def pyEq : Nat → Val → Val → Bool
  | _, .int a, .int b => a = b
  | _, .bool a, .bool b => a = b
  | _, .int a, .bool b => a = (if b then 1 else 0)
  | _, .bool a, .int b => (if a then 1 else 0 : Int) = b
  | _, .str a, .str b => a = b
  | _, .str a, .sym b => a = b
  | _, .sym a, .str b => a = b
  | _, .sym a, .sym b => a = b
  | _, .none, .none => true
  | _, .eofObj, .eofObj => true
  | _, .float a, .float b => a = b
  | f + 1, .list a, .list b => pyEqL f a b
  | _, _, _ => false

/-- Element-wise list equality. -/
def pyEqL : Nat → List Val → List Val → Bool
  | _, [], [] => true
  | f, a :: as, b :: bs => pyEq f a b && pyEqL f as bs
  | _, _, _ => false

end

/-- Numeric view for Python arithmetic: `bool` coerces to `0`/`1`. -/
def numOf : Val → Option Int
  | .int n => some n
  | .bool true => some 1
  | .bool false => some 0
  | _ => Option.none

/-- Text view of a `str`-family value (a `Symbol` is a `str`). -/
def strOf : Val → Option (List Char)
  | .str s => some s
  | .sym s => some s
  | _ => Option.none

/-- `op.add`: numbers, sequence concatenation for lists and strings;
other operand combinations raise `TypeError` (float arithmetic
abstracted to `typeErr`; no claim adds floats). -/
def pyAdd (a b : Val) : Except Err Val :=
  match numOf a, numOf b with
  | some x, some y => .ok (.int (x + y))
  | _, _ =>
    match a, b with
    | .list xs, .list ys => .ok (.list (xs ++ ys))
    | _, _ =>
      match strOf a, strOf b with
      | some x, some y => .ok (.str (x ++ y))
      | _, _ => .error .typeErr

end LispyPy

namespace LispyPy

/-- Application of a native procedure to already-evaluated arguments.
`operator` functions are strictly binary (extra arguments raise
`TypeError`); `list` is variadic.  `callcc` is intercepted inside the
evaluator (it re-enters `eval`), so it is a `TypeError` here. -/
def applyPrim (f : Nat) (p : Prim) (as : List Val) : Except Err Val :=
  match p, as with
  | .add, [a, b] => pyAdd a b
  | .sub, [a, b] =>
    match numOf a, numOf b with
    | some x, some y => .ok (.int (x - y))
    | _, _ => .error .typeErr
  | .mul, [a, b] =>
    match numOf a, numOf b with
    | some x, some y => .ok (.int (x * y))
    | _, _ => .error .typeErr
  | .numEq, [a, b] => .ok (.bool (pyEq f a b))
  | .equalP, [a, b] => .ok (.bool (pyEq f a b))
  | .lt, [a, b] =>
    match numOf a, numOf b with
    | some x, some y => .ok (.bool (decide (x < y)))
    | _, _ => .error .typeErr
  | .gt, [a, b] =>
    match numOf a, numOf b with
    | some x, some y => .ok (.bool (decide (y < x)))
    | _, _ => .error .typeErr
  | .notP, [a] => .ok (.bool (!truthy a))
  | .lenP, [a] =>
    match a with
    | .list l => .ok (.int l.length)
    | .str s => .ok (.int s.length)
    | .sym s => .ok (.int s.length)
    | .eofObj => .ok (.int (("#<eof-object>").data.length))
    | _ => .error .typeErr
  | .consP, [x, y] =>
    match y with
    | .list ys => .ok (.list (x :: ys))
    | _ => .error .typeErr
  | .carP, [a] =>
    match a with
    | .list (h :: _) => .ok h
    | .list [] => .error .typeErr          -- IndexError
    | .str (c :: _) => .ok (.str [c])
    | .sym (c :: _) => .ok (.str [c])
    | _ => .error .typeErr
  | .cdrP, [a] =>
    match a with
    | .list l => .ok (.list (l.drop 1))    -- x[1:] of [] is []
    | .str s => .ok (.str (s.drop 1))
    | .sym s => .ok (.str (s.drop 1))
    | _ => .error .typeErr
  | .listP, args => .ok (.list args)
  | .nullP, [a] =>
    .ok (.bool (match a with | .list [] => true | _ => false))
  | .listQ, [a] =>
    .ok (.bool (match a with | .list _ => true | _ => false))
  | .symbolQ, [a] =>
    .ok (.bool (match a with | .sym _ => true | .eofObj => true | _ => false))
  | .booleanQ, [a] =>
    .ok (.bool (match a with | .bool _ => true | _ => false))
  | .pairQ, [a] =>
    .ok (.bool (match a with | .list [] => false | .list _ => true | _ => false))
  | .callcc, _ => .error .typeErr
  | _, _ => .error .typeErr

/-- Head-symbol test (interned Symbols are identity-equal iff their
texts are equal, so `x[0] is _quote` is text equality on symbols). -/
def symIs (h : Val) (v : Val) : Bool :=
  match h, v with
  | .sym a, .sym b => a = b
  | _, _ => false

/-- Machine jobs: `one` is an invocation of the Python `eval` function
(one stack frame running the trampoline `while True` loop); `args` is
the in-frame `[eval(exp, env) for exp in x]` loop; `clauses` is the
in-frame `cond` clause loop. -/
inductive Job where
  | one (x : Val) (env : Nat)
  | args (xs : List Val) (env : Nat)
  | clauses (cs : List Val) (env : Nat)

/-- Job outcomes: a value, the collected argument values, the next form
chosen by a `cond` clause, or `cond` fall-through with no match. -/
inductive Out where
  | ov (v : Val)
  | ovs (vs : List Val)
  | onext (x : Val)
  | onomatch

/-- A `cond` clause is subscripted; a string clause subscripts to
one-character strings (Python string indexing), anything else raises.
Returns the test and the remaining elements. -/
def clauseParts : Val → Option (Val × List Val)
  | .list (t :: body) => some (t, body)
  | .str (c0 :: r0) => some (.str [c0], r0.map (fun ch => Val.str [ch]))
  | .sym (c0 :: r0) => some (.str [c0], r0.map (fun ch => Val.str [ch]))
  | _ => Option.none

/-- The evaluator: `eval` (tail recursive) of the source, as a
fuel-structural machine.  `fuel` bounds the machine's recursion tree (a
modelling artifact); `stk` is the depth budget of nested Python `eval`
frames: entering `.one` requires `stk > 0`, a nested evaluation (an
`if`/`cond` test, a `set!`/`define` right-hand side, an application or
sequence element, a `callcc` body) runs at `stk - 1`, and the tail
transitions of the `while True` loop (the `if`/`cond` branch, the last
`begin` form, a closure application) keep `stk` — the tail-call
elimination point of the source. -/
def run : Nat → Nat → Job → IState → Option (Except Err Out × IState)
  | 0, _, _, _ => Option.none
  | _ + 1, _, .args [] _, st => some (.ok (.ovs []), st)
  | f + 1, stk, .args (x :: xs) env, st =>
    match run f (stk - 1) (.one x env) st with
    | some (.ok (.ov v), st1) =>
      match run f stk (.args xs env) st1 with
      | some (.ok (.ovs vs), st2) => some (.ok (.ovs (v :: vs)), st2)
      | other => other
    | some (.error e, st1) => some (.error e, st1)
    | _ => Option.none
  | _ + 1, _, .clauses [] _, st => some (.ok .onomatch, st)
  | f + 1, stk, .clauses (c :: cs) env, st =>
    match clauseParts c with
    | Option.none => some (.error .typeErr, st)
    | some (t, body) =>
      match run f (stk - 1) (.one t env) st with
      | some (.ok (.ov tv), st1) =>
        if truthy tv then
          match run f stk (.args body.dropLast env) st1 with
          | some (.ok (.ovs _), st2) => some (.ok (.onext (body.getLastD t)), st2)
          | some (.error e, st2) => some (.error e, st2)
          | _ => Option.none
        else run f stk (.clauses cs env) st1
      | some (.error e, st1) => some (.error e, st1)
      | _ => Option.none
  | f + 1, stk, .one x env, st =>
    match stk with
    | 0 => Option.none
    | sk + 1 =>
      match x with
      | .sym s =>
        match lookupVar (f + 1) st env s with
        | some r => some (r.map .ov, st)
        | Option.none => Option.none
      | .list [] => some (.error .typeErr, st)  -- x[0]: IndexError
      | .list (h :: t) =>
        if symIs h quoteS then
          match t with
          | [e] => some (.ok (.ov e), st)
          | _ => some (.error .typeErr, st)     -- tuple unpack ValueError
        else if symIs h ifS then
          match t with
          | [tst, c, a] =>
            match run f sk (.one tst env) st with
            | some (.ok (.ov tv), st1) =>
              run f (sk + 1) (.one (if truthy tv then c else a) env) st1
            | some (.error e, st1) => some (.error e, st1)
            | _ => Option.none
          | _ => some (.error .typeErr, st)
        else if symIs h condS then
          match run f (sk + 1) (.clauses t env) st with
          | some (.ok (.onext x'), st1) => run f (sk + 1) (.one x' env) st1
          | some (.ok .onomatch, st1) => run f (sk + 1) (.one x env) st1
          | some (.error e, st1) => some (.error e, st1)
          | _ => Option.none
        else if symIs h setS then
          match t with
          | [v, e] =>
            match run f sk (.one e env) st with
            | some (.ok (.ov ev), st1) =>
              match findRef (f + 1) st1 env (pyStr v) with
              | some (.ok r') => some (.ok (.ov .none), heapSetVar st1 r' (pyStr v) ev)
              | some (.error er) => some (.error er, st1)
              | Option.none => Option.none
            | some (.error e', st1) => some (.error e', st1)
            | _ => Option.none
          | _ => some (.error .typeErr, st)
        else if symIs h defineS then
          match t with
          | [v, e] =>
            match run f sk (.one e env) st with
            | some (.ok (.ov ev), st1) =>
              some (.ok (.ov .none), heapSetVar st1 env (pyStr v) ev)
            | some (.error e', st1) => some (.error e', st1)
            | _ => Option.none
          | _ => some (.error .typeErr, st)
        else if symIs h lambdaS then
          match t with
          | [ps, b] => some (.ok (.ov (.closure ps b env)), st)
          | _ => some (.error .typeErr, st)
        else if symIs h beginS then
          match run f (sk + 1) (.args t.dropLast env) st with
          | some (.ok (.ovs _), st1) => run f (sk + 1) (.one (t.getLastD h) env) st1
          | some (.error e, st1) => some (.error e, st1)
          | _ => Option.none
        else
          match run f (sk + 1) (.args (h :: t) env) st with
          | some (.ok (.ovs (p :: as)), st1) =>
            match p with
            | .closure ps body cenv =>
              match bindFrame ps as (some cenv) with
              | .ok fr =>
                let pr := heapPush st1 fr
                run f (sk + 1) (.one body pr.2) pr.1
              | .error e => some (.error e, st1)
            | .native .callcc =>
              match as with
              | [prc] =>
                let ball := st1.nextBall
                let st2 := { st1 with nextBall := ball + 1 }
                let res :=
                  match prc with
                  | .closure ps body cenv =>
                    match bindFrame ps [Val.contEsc ball] (some cenv) with
                    | .ok fr =>
                      let pp := heapPush st2 fr
                      run f sk (.one body pp.2) pp.1
                    | .error e => some (Except.error e, st2)
                  | .native pn => some ((applyPrim f pn [Val.contEsc ball]).map .ov, st2)
                  | .contEsc j => some (.error (.ballErr j (.contEsc ball)), st2)
                  | _ => some (Except.error Err.typeErr, st2)
                match res with
                | some (.error (.ballErr i v), st3) =>
                  if i = ball then some (.ok (.ov v), st3)
                  else some (.error (.ballErr i v), st3)
                | other => other
              | _ => some (.error .typeErr, st1)
            | .native pn => some ((applyPrim f pn as).map .ov, st1)
            | .contEsc i =>
              match as with
              | [v] => some (.error (.ballErr i v), st1)
              | _ => some (.error .typeErr, st1)
            | _ => some (.error .typeErr, st1)
          | some (.ok _, _) => Option.none
          | some (.error e, st1) => some (.error e, st1)
          | _ => Option.none
      | v => some (.ok (.ov v), st)   -- non-Symbol atom: constant literal

/-- Extract the value outcome (the `one` job always yields `.ov`). -/
def outVal : Out → Val
  | .ov v => v
  | _ => .none

/-- `eval(x, env)` at the given budgets, in the given state. -/
def evalIn (fuel stk : Nat) (x : Val) (env : Nat) (st : IState) :
    Option (Except Err Val × IState) :=
  (run fuel stk (.one x env) st).map (fun p => (p.1.map outVal, p.2))

/-- `eval(x)` in the global environment. -/
def evalTop (fuel stk : Nat) (x : Val) (st : IState) :
    Option (Except Err Val × IState) :=
  evalIn fuel stk x 0 st

end LispyPy

namespace LispyPy

/-- `len` of a Python value (`None` when `len` raises `TypeError`). -/
def pyLen? : Val → Option Nat
  | .list l => some l.length
  | .str s => some s.length
  | .sym s => some s.length
  | .eofObj => some (("#<eof-object>").data.length)
  | _ => Option.none

/-- `isa(v, Symbol)` (the eof object is itself a `Symbol` instance). -/
def isSymV : Val → Bool
  | .sym _ => true
  | .eofObj => true
  | _ => false

/-- Text of a `Symbol` value, as dict key. -/
def symKey : Val → Option (List Char)
  | .sym s => some s
  | .eofObj => some (("#<eof-object>").data)
  | _ => Option.none

/-- `callable(proc)`. -/
def isCallable : Val → Bool
  | .closure _ _ _ => true
  | .native _ => true
  | .contEsc _ => true
  | _ => false

/-- The `cond` clause length prechecks of `expand` (`require(clause,
len(clause) >= 2)` for each clause, in order; `len` of a non-sequence
raises `TypeError`). -/
def condLens : List Val → Except Err Unit
  | [] => .ok ()
  | c :: cs =>
    match pyLen? c with
    | Option.none => .error .typeErr
    | some n => if 2 ≤ n then condLens cs else .error (.synErr .wrongLength)

/-- Expander jobs: `expand(x, toplevel)`, the `list(map(expand, x))`
loops, and `expand_quasiquote(x)`. -/
inductive XJob where
  | xp (tl : Bool) (x : Val)
  | xpList (tl : Bool) (xs : List Val)
  | qq (x : Val)

/-- The expander (`expand` / `expand_quasiquote`), with the macro table
threaded in the state.  Macro application evaluates the macro procedure
on the unevaluated argument forms and recursively expands its result;
`define-macro` (top level only) expands and evaluates its expression
immediately and stores the procedure in the macro table, itself
expanding to `None`. -/
def xpand : Nat → XJob → IState → Option (Except Err Out × IState)
  | 0, _, _ => Option.none
  | _ + 1, .xpList _ [], st => some (.ok (.ovs []), st)
  | f + 1, .xpList tl (x :: xs), st =>
    match xpand f (.xp tl x) st with
    | some (.ok (.ov v), st1) =>
      match xpand f (.xpList tl xs) st1 with
      | some (.ok (.ovs vs), st2) => some (.ok (.ovs (v :: vs)), st2)
      | other => other
    | some (.error e, st1) => some (.error e, st1)
    | _ => Option.none
  | f + 1, .qq x, st =>
    match x with
    | .list (a :: r) =>
      if symIs a usplS then some (.error (.synErr .cantSpliceHere), st)
      else if symIs a unqS then
        match r with
        | [e] => some (.ok (.ov e), st)
        | _ => some (.error (.synErr .wrongLength), st)
      else
        let isSpl := match a with
          | .list (u :: _) => symIs u usplS
          | _ => false
        if isSpl then
          match a with
          | .list [_, e] =>
            match xpand f (.qq (.list r)) st with
            | some (.ok (.ov rest'), st1) =>
              some (.ok (.ov (.list [appendS, e, rest'])), st1)
            | other => other
          | _ => some (.error (.synErr .wrongLength), st)
        else
          match xpand f (.qq a) st with
          | some (.ok (.ov ha), st1) =>
            match xpand f (.qq (.list r)) st1 with
            | some (.ok (.ov hr), st2) =>
              some (.ok (.ov (.list [consS, ha, hr])), st2)
            | other => other
          | some (.error e, st1) => some (.error e, st1)
          | _ => Option.none
    | _ => some (.ok (.ov (.list [quoteS, x])), st)
  | f + 1, .xp tl x, st =>
    match x with
    | .list [] => some (.error (.synErr .emptyListExpand), st)
    | .list (h :: t) =>
      if symIs h quoteS then
        if t.length = 1 then some (.ok (.ov x), st)
        else some (.error (.synErr .wrongLength), st)
      else if symIs h ifS then
        let x' := if t.length = 2 then t ++ [Val.none] else t
        if x'.length = 3 then
          match xpand f (.xpList false (h :: x')) st with
          | some (.ok (.ovs vs), st1) => some (.ok (.ov (.list vs)), st1)
          | some (.error e, st1) => some (.error e, st1)
          | _ => Option.none
        else some (.error (.synErr .wrongLength), st)
      else if symIs h condS then
        if t.isEmpty then some (.error (.synErr .wrongLength), st)
        else
          match condLens t with
          | .error e => some (.error e, st)
          | .ok _ =>
            match xpand f (.xpList false (h :: t)) st with
            | some (.ok (.ovs vs), st1) => some (.ok (.ov (.list vs)), st1)
            | some (.error e, st1) => some (.error e, st1)
            | _ => Option.none
      else if symIs h setS then
        match t with
        | [v, e] =>
          if isSymV v then
            match xpand f (.xp false e) st with
            | some (.ok (.ov e'), st1) => some (.ok (.ov (.list [setS, v, e'])), st1)
            | some (.error er, st1) => some (.error er, st1)
            | _ => Option.none
          else some (.error (.synErr .setNonSymbol), st)
        | _ => some (.error (.synErr .wrongLength), st)
      else if symIs h defineS || symIs h defmacS then
        match t with
        | [] => some (.error (.synErr .wrongLength), st)
        | v :: body =>
          if body.isEmpty then some (.error (.synErr .wrongLength), st)
          else
            match v with
            | .list (vh :: vt) =>
              -- function shorthand: (def (f args...) body...) desugars,
              -- and is re-expanded with the DEFAULT toplevel flag (False)
              xpand f
                (.xp false (.list [h, vh, .list (lambdaS :: Val.list vt :: body)])) st
            | _ =>
              match body with
              | [e0] =>
                if isSymV v then
                  match xpand f (.xp false e0) st with
                  | some (.ok (.ov e'), st1) =>
                    if symIs h defmacS then
                      if tl then
                        match run f f (.one e' 0) st1 with
                        | some (.ok (.ov pv), st2) =>
                          if isCallable pv then
                            match symKey v with
                            | some k =>
                              some (.ok (.ov .none),
                                    { st2 with mtab := aset st2.mtab k pv })
                            | Option.none => Option.none
                          else some (.error (.synErr .macroNotProcedure), st2)
                        | some (.error er, st2) => some (.error er, st2)
                        | _ => Option.none
                      else some (.error (.synErr .defmacTopLevelOnly), st1)
                    else some (.ok (.ov (.list [defineS, v, e'])), st1)
                  | some (.error er, st1) => some (.error er, st1)
                  | _ => Option.none
                else some (.error (.synErr .defineNonSymbol), st)
              | _ => some (.error (.synErr .wrongLength), st)
      else if symIs h beginS then
        if t.isEmpty then some (.ok (.ov .none), st)
        else
          match xpand f (.xpList tl (h :: t)) st with
          | some (.ok (.ovs vs), st1) => some (.ok (.ov (.list vs)), st1)
          | some (.error e, st1) => some (.error e, st1)
          | _ => Option.none
      else if symIs h lambdaS then
        match t with
        | [] => some (.error (.synErr .wrongLength), st)
        | vars :: body =>
          if body.isEmpty then some (.error (.synErr .wrongLength), st)
          else
            let varsOk :=
              (match vars with
               | .list vs => vs.all isSymV
               | _ => false) || isSymV vars
            if varsOk then
              let exp := match body with
                | [e0] => e0
                | _ => Val.list (beginS :: body)
              match xpand f (.xp false exp) st with
              | some (.ok (.ov e'), st1) =>
                some (.ok (.ov (.list [lambdaS, vars, e'])), st1)
              | some (.error er, st1) => some (.error er, st1)
              | _ => Option.none
            else some (.error (.synErr .badLambdaArgs), st)
      else if symIs h qqS then
        match t with
        | [e] => xpand f (.qq e) st
        | _ => some (.error (.synErr .wrongLength), st)
      else
        match Option.bind (symKey h) (alook st.mtab) with
        | some prc =>
          match prc with
          | .closure ps body cenv =>
            match bindFrame ps t (some cenv) with
            | .ok fr =>
              let pp := heapPush st fr
              match run f f (.one body pp.2) pp.1 with
              | some (.ok (.ov r), st1) => xpand f (.xp tl r) st1
              | some (.error er, st1) => some (.error er, st1)
              | _ => Option.none
            | .error er => some (.error er, st)
          | .native pn =>
            match applyPrim f pn t with
            | .ok r => xpand f (.xp tl r) st
            | .error er => some (.error er, st)
          | .contEsc i =>
            match t with
            | [v] => some (.error (.ballErr i v), st)
            | _ => some (.error .typeErr, st)
          | _ => some (.error .typeErr, st)
        | Option.none =>
          match xpand f (.xpList false (h :: t)) st with
          | some (.ok (.ovs vs), st1) => some (.ok (.ov (.list vs)), st1)
          | some (.error e, st1) => some (.error e, st1)
          | _ => Option.none
    | _ => some (.ok (.ov x), st)

/-- `expand(x, toplevel=True)` as the parse entry point applies it. -/
def expandTop (fuel : Nat) (x : Val) (st : IState) :
    Option (Except Err Val × IState) :=
  (xpand fuel (.xp true x) st).map (fun p => (p.1.map outVal, p.2))

/-- `eval(parse(...))` on an already-read expression tree: expand at top
level, then evaluate in the global environment. -/
def parseEvalTop (fuel : Nat) (x : Val) (st : IState) :
    Option (Except Err Val × IState) :=
  match xpand fuel (.xp true x) st with
  | some (.ok (.ov e), st1) => evalIn fuel fuel e 0 st1
  | some (.ok _, _) => Option.none
  | some (.error e, st1) => some (.error e, st1)
  | Option.none => Option.none

end LispyPy

namespace LispyPy

/-- The modelled global environment frame: the `add_globals` bindings
the claims exercise (`'+'` and `'append'` are the same `op.add`
function).  Math-module, I/O, identity-`eq?`, division and hardware
bindings are omitted — no claim's program mentions them, and theorems
about unbound names take absence as an explicit hypothesis. -/
def g0 : Frame :=
  ⟨[ ((("+").data), .native .add),
     ((("-").data), .native .sub),
     ((("*").data), .native .mul),
     ((("=").data), .native .numEq),
     ((("<").data), .native .lt),
     (((">").data), .native .gt),
     ((("not").data), .native .notP),
     ((("equal?").data), .native .equalP),
     ((("length").data), .native .lenP),
     ((("cons").data), .native .consP),
     ((("car").data), .native .carP),
     ((("cdr").data), .native .cdrP),
     ((("append").data), .native .add),
     ((("list").data), .native .listP),
     ((("list?").data), .native .listQ),
     ((("null?").data), .native .nullP),
     ((("symbol?").data), .native .symbolQ),
     ((("boolean?").data), .native .booleanQ),
     ((("pair?").data), .native .pairQ),
     ((("call/cc").data), .native .callcc) ], Option.none⟩

/-- Initial interpreter state: the global environment at reference 0.
(The host `let` helper initially present in `macro_table` is omitted —
no claim concerns `let`.) -/
def st0 : IState := ⟨[g0], [], 0⟩

/-- List-form constructor shorthand for writing reader output. -/
def L (xs : List Val) : Val := .list xs

def andS : Val := .sym (("and").data)

def orS : Val := .sym (("or").data)

def whenS : Val := .sym (("when").data)

def unlessS : Val := .sym (("unless").data)

def notS : Val := .sym (("not").data)

def argsS : Val := .sym (("args").data)

def nullQS : Val := .sym (("null?").data)

def numEqS : Val := .sym (("=").data)

def lengthS : Val := .sym (("length").data)

def carS : Val := .sym (("car").data)

def cdrS : Val := .sym (("cdr").data)

/-- Reader output of the `and` macro definition in the source's core
builtin bootstrap text. -/
def andMacroDef : Val :=
  L [defmacS, andS, L [lambdaS, argsS,
    L [ifS, L [nullQS, argsS], .bool true,
      L [ifS, L [numEqS, L [lengthS, argsS], .int 1], L [carS, argsS],
        L [qqS, L [ifS, L [unqS, L [carS, argsS]],
                      L [andS, L [usplS, L [cdrS, argsS]]],
                      .bool false]]]]]]

/-- Reader output of the `or` macro definition. -/
def orMacroDef : Val :=
  L [defmacS, orS, L [lambdaS, argsS,
    L [ifS, L [nullQS, argsS], .bool false,
      L [ifS, L [numEqS, L [lengthS, argsS], .int 1], L [carS, argsS],
        L [qqS, L [ifS, L [notS, L [unqS, L [carS, argsS]]],
                      L [orS, L [usplS, L [cdrS, argsS]]],
                      .bool true]]]]]]

/-- Reader output of the `when` macro definition. -/
def whenMacroDef : Val :=
  L [defmacS, whenS, L [lambdaS, argsS,
    L [qqS, L [ifS, L [unqS, L [carS, argsS]],
                  L [beginS, L [usplS, L [cdrS, argsS]]]]]]]

/-- Reader output of the `unless` macro definition. -/
def unlessMacroDef : Val :=
  L [defmacS, unlessS, L [lambdaS, argsS,
    L [qqS, L [ifS, L [notS, L [unqS, L [carS, argsS]]],
                  L [beginS, L [usplS, L [cdrS, argsS]]]]]]]

/-- The core builtin bootstrap `(begin (define-macro and ...) ...)`. -/
def bootForm : Val :=
  L [beginS, andMacroDef, orMacroDef, whenMacroDef, unlessMacroDef]

/-- State after the source's `eval(parse("(begin (define-macro and ...)
...)"))` bootstrap: the expansion registers the four macros (the
subsequent evaluation of the produced `(begin None None None None)`
touches no state). -/
def stBoot : IState :=
  match xpand 200 (.xp true bootForm) st0 with
  | some (_, st) => st
  | Option.none => st0

end LispyPy

namespace LispyPy

/-- Value outcome of `eval(parse(x))` (expansion at top level, then
evaluation in the global environment), state projected away. -/
def runValue (fuel : Nat) (x : Val) (st : IState) : Option (Except Err Val) :=
  (parseEvalTop fuel x st).map (fun p => p.1)

/-- Value outcome of `expand(x, toplevel=True)`, state projected away. -/
def expandValue (fuel : Nat) (x : Val) (st : IState) : Option (Except Err Val) :=
  (expandTop fuel x st).map (fun p => p.1)

def aSy : Val := .sym (("a").data)

def bSy : Val := .sym (("b").data)

def cSy : Val := .sym (("c").data)

def kSy : Val := .sym (("k").data)

def k1Sy : Val := .sym (("k1").data)

def k2Sy : Val := .sym (("k2").data)

def plusS : Val := .sym (("+").data)

def listS : Val := .sym (("list").data)

def callccS : Val := .sym (("call/cc").data)

/-- Reader output of `(call/cc (lambda (k) (+ 1 (k 42))))`. -/
def ccEscape : Val :=
  L [callccS, L [lambdaS, L [kSy], L [plusS, .int 1, L [kSy, .int 42]]]]

/-- Reader output of
`(call/cc (lambda (k1) (call/cc (lambda (k2) (k1 7)))))`: the inner
`call/cc` sees the ball of the outer escape and must re-raise it. -/
def ccNested : Val :=
  L [callccS, L [lambdaS, L [k1Sy],
    L [callccS, L [lambdaS, L [k2Sy], L [k1Sy, .int 7]]]]]

/-- Reader output of `` `(1 ,(+ 1 1) ,@(list 3 4)) ``. -/
def qqExample : Val :=
  L [qqS, L [.int 1, L [unqS, L [plusS, .int 1, .int 1]],
             L [usplS, L [listS, .int 3, .int 4]]]]

/-- C2: Evaluating `(call/cc (lambda (k) (+ 1 (k 42))))` returns `42`
(the pending `(+ 1 _)` is aborted, so not `43`), and an escape raised
by a different `call/cc` invocation is re-raised rather than caught:
in the nested program the inner `call/cc` propagates the outer escape's
ball, which the outer call site catches, yielding `7`. -/
theorem C2_callcc_escape :
    runValue 100 ccEscape st0 = some (.ok (.int 42)) ∧
    runValue 100 ccEscape st0 ≠ some (.ok (.int 43)) ∧
    runValue 100 ccNested st0 = some (.ok (.int 7)) := by
  have h1 : runValue 100 ccEscape st0 = some (.ok (.int 42)) := rfl
  refine ⟨h1, ?_, rfl⟩
  rw [h1]
  simp

/-- C3: `(quote (a b c))` evaluates to the three-symbol list with no
element evaluated; the quasiquote form `` `(1 ,(+ 1 1) ,@(list 3 4)) ``
expands to `cons`/`append`/`quote` code and evaluates to the
four-element list `(1 2 3 4)` — the unquoted subform is replaced by its
value `2` and the unquote-splicing subform is spliced in as a
sequence. -/
theorem C3_quote_quasiquote :
    runValue 100 (L [quoteS, L [aSy, bSy, cSy]]) st0 =
      some (.ok (L [aSy, bSy, cSy])) ∧
    expandValue 100 qqExample st0 =
      some (.ok (L [consS, L [quoteS, .int 1],
        L [consS, L [plusS, .int 1, .int 1],
          L [appendS, L [listS, .int 3, .int 4],
            L [quoteS, L []]]]])) ∧
    runValue 100 qqExample st0 =
      some (.ok (L [.int 1, .int 2, .int 3, .int 4])) := by
  exact ⟨rfl, rfl, rfl⟩

/-- C8: with the builtin macro definitions loaded (state `stBoot`),
`(and 1 2 3)` expands to nested `if` forms and evaluates to `3`,
`(and)` evaluates to `#t`, and `(or #f #f)` evaluates to `#f`. -/
theorem C8_builtin_macros :
    expandValue 100 (L [andS, .int 1, .int 2, .int 3]) stBoot =
      some (.ok (L [ifS, .int 1, L [ifS, .int 2, .int 3, .bool false],
                    .bool false])) ∧
    runValue 100 (L [andS, .int 1, .int 2, .int 3]) stBoot =
      some (.ok (.int 3)) ∧
    runValue 100 (L [andS]) stBoot = some (.ok (.bool true)) ∧
    runValue 100 (L [orS, .bool false, .bool false]) stBoot =
      some (.ok (.bool false)) := by
  exact ⟨rfl, rfl, rfl, rfl⟩

end LispyPy

namespace LispyPy

def pSy : Val := .sym (("p").data)

def qSy : Val := .sym (("q").data)

def rSy : Val := .sym (("r").data)

/-- C5: `Env.__init__` arity behavior.  A fixed 2-symbol parameter list
signals the arity error for every argument count other than 2 (in
particular 1 and 3, shown applied through full closure application
below); a single-symbol (variadic) parameter specification accepts any
argument count and binds that symbol to the full argument sequence. -/
theorem C5_closure_arity (p q s : List Char) (args : List Val) (o : Option Nat) :
    (args.length ≠ 2 →
      bindFrame (.list [.sym p, .sym q]) args o =
        .error (.arityErr (.list [.sym p, .sym q]) args)) ∧
    bindFrame (.sym s) args o = .ok ⟨[(s, .list args)], o⟩ ∧
    runValue 50 (L [L [lambdaS, L [pSy, qSy], .int 0], .int 1]) st0 =
      some (.error (.arityErr (L [pSy, qSy]) [.int 1])) ∧
    runValue 50 (L [L [lambdaS, L [pSy, qSy], .int 0], .int 1, .int 2, .int 3]) st0 =
      some (.error (.arityErr (L [pSy, qSy]) [.int 1, .int 2, .int 3])) ∧
    runValue 50 (L [L [lambdaS, rSy, rSy], .int 1, .int 2, .int 3]) st0 =
      some (.ok (L [.int 1, .int 2, .int 3])) := by
  refine ⟨?_, rfl, rfl, rfl, rfl⟩
  intro h
  simp [bindFrame, h]

/-- Witness for `C5_closure_arity` at argument counts 1 and 3. -/
theorem C5_closure_arity_witness :
    bindFrame (.list [.sym (("p").data), .sym (("q").data)]) [.int 1] Option.none =
      .error (.arityErr (.list [.sym (("p").data), .sym (("q").data)]) [.int 1]) ∧
    bindFrame (.list [.sym (("p").data), .sym (("q").data)])
        [.int 1, .int 2, .int 3] Option.none =
      .error (.arityErr (.list [.sym (("p").data), .sym (("q").data)])
        [.int 1, .int 2, .int 3]) ∧
    bindFrame (.sym (("r").data)) [.int 1, .int 2] Option.none =
      .ok ⟨[((("r").data), .list [.int 1, .int 2])], Option.none⟩ :=
  ⟨(C5_closure_arity (("p").data) (("q").data) (("r").data) [.int 1]
      Option.none).1 (by decide),
   (C5_closure_arity (("p").data) (("q").data) (("r").data)
      [.int 1, .int 2, .int 3] Option.none).1 (by decide),
   (C5_closure_arity (("p").data) (("q").data) (("r").data) [.int 1, .int 2]
      Option.none).2.1⟩

/-- C9: `Env.find` walks outward from the innermost scope: a name
present in the current frame's storage resolves to that frame (the
nearest enclosing environment); an absent name defers to the outer
environment; exhausting the chain signals `LookupError` carrying the
name; and evaluating a bare symbol whose lookup fails propagates
exactly that unbound-variable error. -/
theorem C9_unbound_variable (f : Nat) (st : IState) (r o : Nat)
    (s : List Char) (fr : Frame) (hfr : st.heap.get? r = some fr) :
    ((alook fr.storage s).isSome → findRef (f + 1) st r s = some (.ok r)) ∧
    (alook fr.storage s = Option.none → fr.outer = some o →
      findRef (f + 1) st r s = findRef f st o s) ∧
    (alook fr.storage s = Option.none → fr.outer = Option.none →
      findRef (f + 1) st r s = some (.error (.lookupErr s))) ∧
    (∀ e sk, lookupVar (f + 1) st r s = some (.error e) →
      run (f + 1) (sk + 1) (.one (.sym s) r) st = some (.error e, st)) := by
  have hfr' : st.heap[r]? = some fr := by simpa using hfr
  refine ⟨?_, ?_, ?_, ?_⟩
  · intro h
    simp [findRef, hfr', h]
  · intro h1 h2
    simp [findRef, hfr', h1, h2]
  · intro h1 h2
    simp [findRef, hfr', h1, h2]
  · intro e sk h
    simp [run, h, Except.map]

/-- Witness for `C9_unbound_variable`: the never-defined symbol `zzz`
in the global environment. -/
theorem C9_unbound_variable_witness :
    findRef 1 st0 0 (("zzz").data) =
      some (.error (.lookupErr (("zzz").data))) ∧
    run 1 1 (.one (.sym (("zzz").data)) 0) st0 =
      some (.error (.lookupErr (("zzz").data)), st0) := by
  have h := C9_unbound_variable 0 st0 0 0 (("zzz").data) g0 rfl
  exact ⟨h.2.2.1 rfl rfl, h.2.2.2 (.lookupErr (("zzz").data)) 0 rfl⟩

end LispyPy

namespace LispyPy

/-- C6: expanding `(define-macro var e)` when the top-level flag is
clear fails with the "define-macro only allowed at top level" syntax
error (after `e`'s own expansion, which the source performs first);
with the flag set, `e` is expanded and evaluated immediately (in the
global environment) to a callable `p`, which is stored under `var` in
the macro table, and the whole form expands to the null result `None`
(so it produces no runtime effect at evaluation time). -/
theorem C6_define_macro (f : Nat) (s : List Char) (e e' p : Val)
    (st st1 st2 : IState)
    (hx : xpand f (.xp false e) st = some (.ok (.ov e'), st1))
    (he : run f f (.one e' 0) st1 = some (.ok (.ov p), st2))
    (hc : isCallable p = true) :
    xpand (f + 1) (.xp false (L [defmacS, .sym s, e])) st =
      some (.error (.synErr .defmacTopLevelOnly), st1) ∧
    xpand (f + 1) (.xp true (L [defmacS, .sym s, e])) st =
      some (.ok (.ov .none), { st2 with mtab := aset st2.mtab s p }) ∧
    alook (aset st2.mtab s p) s = some p := by
  refine ⟨?_, ?_, by simp [alook, aset]⟩ <;>
    simp [xpand, L, isSymV, symKey, hx, he, hc,
      show symIs defmacS quoteS = false from rfl,
      show symIs defmacS ifS = false from rfl,
      show symIs defmacS condS = false from rfl,
      show symIs defmacS setS = false from rfl,
      show symIs defmacS defineS = false from rfl,
      show symIs defmacS defmacS = true from rfl]

/-- Witness for `C6_define_macro`: `(define-macro m (lambda args 5))`
in the initial state. -/
theorem C6_define_macro_witness :
    xpand 50 (.xp false (L [defmacS, .sym (("m").data),
        L [lambdaS, argsS, .int 5]])) st0 =
      some (.error (.synErr .defmacTopLevelOnly), st0) ∧
    xpand 50 (.xp true (L [defmacS, .sym (("m").data),
        L [lambdaS, argsS, .int 5]])) st0 =
      some (.ok (.ov .none),
        { st0 with mtab := aset st0.mtab (("m").data) (.closure argsS (.int 5) 0) }) ∧
    alook (aset st0.mtab (("m").data) (.closure argsS (.int 5) 0))
        (("m").data) = some (.closure argsS (.int 5) 0) :=
  C6_define_macro 49 (("m").data) (L [lambdaS, argsS, .int 5])
    (L [lambdaS, argsS, .int 5]) (.closure argsS (.int 5) 0)
    st0 st0 st0 rfl rfl rfl

end LispyPy

namespace LispyPy

lemma dropWhile_all_false (p : Char → Bool) :
    ∀ l : List Char, (∀ c ∈ l, p c = false) → l.dropWhile p = l := by
  intro l h
  cases l with
  | nil => rfl
  | cons a m => simp [List.dropWhile_cons, h a (List.mem_cons_self a m)]

lemma takeWhile_all_app (p : Char → Bool) (l1 l2 : List Char)
    (h : ∀ c ∈ l1, p c = true) :
    (l1 ++ l2).takeWhile p = l1 ++ l2.takeWhile p := by
  induction l1 with
  | nil => simp
  | cons a m ih =>
    simp only [List.cons_append, List.takeWhile_cons,
      h a (List.mem_cons_self a m), if_true]
    rw [ih (fun c hc => h c (List.mem_cons_of_mem a hc))]

lemma dropWhile_all_app (p : Char → Bool) (l1 l2 : List Char)
    (h : ∀ c ∈ l1, p c = true) :
    (l1 ++ l2).dropWhile p = l2.dropWhile p := by
  induction l1 with
  | nil => simp
  | cons a m ih =>
    simp only [List.cons_append, List.dropWhile_cons,
      h a (List.mem_cons_self a m), if_true]
    exact ih (fun c hc => h c (List.mem_cons_of_mem a hc))

lemma pyStrip_eq_self (l : List Char)
    (hh : ∀ c, l.head? = some c → pyWs c = false)
    (hl : ∀ c, l.getLast? = some c → pyWs c = false) :
    pyStrip l = l := by
  cases l with
  | nil => rfl
  | cons a m =>
    unfold pyStrip
    rw [List.dropWhile_cons, if_neg (by simp [hh a rfl])]
    cases hr : (a :: m).reverse with
    | nil => exact absurd hr (by simp)
    | cons b rb =>
      have hb : (a :: m).getLast? = some b := by
        rw [← List.head?_reverse, hr]
        rfl
      rw [List.dropWhile_cons, if_neg (by simp [hl b hb])]
      rw [show b :: rb = (a :: m).reverse from hr.symm, List.reverse_reverse]

lemma pyStrip_space_pre (t2 : List Char) (h : ∀ c ∈ t2, pyWs c = false) :
    pyStrip (' ' :: t2) = t2 := by
  unfold pyStrip
  rw [List.dropWhile_cons, if_pos (by decide), dropWhile_all_false _ t2 h,
    dropWhile_all_false _ t2.reverse
      (fun c hc => h c (List.mem_reverse.mp hc)),
    List.reverse_reverse]

lemma rawCh_ne (c : Char) (h : rawCh c = true) :
    c ≠ ' ' ∧ c ≠ '(' ∧ c ≠ qteC ∧ c ≠ dqC ∧ c ≠ bqC ∧
    c ≠ ',' ∧ c ≠ ';' ∧ c ≠ ')' := by
  have h2 := h
  simp only [rawCh, Bool.not_eq_true', Bool.or_eq_false_iff,
    decide_eq_false_iff_not] at h2
  tauto

/-- A maximal raw run followed by a non-raw remainder is matched as one
token with exactly that remainder. -/
lemma matchTok_raw (t rest' : List Char) (ht : t ≠ [])
    (hc : ∀ c ∈ t, rawCh c = true)
    (hrest : ∀ c, rest'.head? = some c → rawCh c = false) :
    matchTok (t ++ rest') = (t, rest') := by
  obtain ⟨a, m, rfl⟩ : ∃ a m, t = a :: m := by
    cases t with
    | nil => exact absurd rfl ht
    | cons a m => exact ⟨a, m, rfl⟩
  have ha := hc a (List.mem_cons_self a m)
  obtain ⟨e1, e2, e3, e4, e5, e6, e7, e8⟩ := rawCh_ne a ha
  have hdrop : ((a :: m) ++ rest').dropWhile (fun c => c = ' ') =
      a :: (m ++ rest') := by
    rw [List.cons_append, List.dropWhile_cons, if_neg (by simp [e1])]
  have htake : ((a :: m) ++ rest').takeWhile rawCh = a :: m := by
    rw [takeWhile_all_app rawCh _ _ hc]
    cases rest' with
    | nil => simp
    | cons c0 r0 =>
      rw [List.takeWhile_cons, if_neg (by simp [hrest c0 rfl])]
      simp
  have hdrop2 : ((a :: m) ++ rest').dropWhile rawCh = rest' := by
    rw [dropWhile_all_app rawCh _ _ hc]
    cases rest' with
    | nil => simp
    | cons c0 r0 =>
      rw [List.dropWhile_cons, if_neg (by simp [hrest c0 rfl])]
  simp only [matchTok, hdrop]
  rw [if_neg (by simp [e6]), if_neg (by simp [e2, e3, e5, e8]),
    if_neg (by simp [e4]), if_neg (by simp [e7])]
  rw [← List.cons_append, htake, hdrop2]

end LispyPy

namespace LispyPy

lemma nextToken_raw (f : Nat) (t rest' : List Char) (lines : List (List Char))
    (ht : t ≠ []) (hc : ∀ c ∈ t, rawCh c = true ∧ pyWs c = false)
    (hrest : ∀ c, rest'.head? = some c → rawCh c = false)
    (hlast : ∀ c, (t ++ rest').getLast? = some c → pyWs c = false) :
    nextToken (f + 1) (t ++ rest', lines) = some (.tk t, (rest', lines)) := by
  obtain ⟨a, m, rfl⟩ : ∃ a m, t = a :: m := by
    cases t with
    | nil => exact absurd rfl ht
    | cons a m => exact ⟨a, m, rfl⟩
  have hstrip : pyStrip ((a :: m) ++ rest') = (a :: m) ++ rest' := by
    refine pyStrip_eq_self _ ?_ hlast
    intro c hcEq
    simp only [List.cons_append, List.head?_cons, Option.some.injEq] at hcEq
    rw [← hcEq]
    exact (hc a (List.mem_cons_self a m)).2
  have hmatch := matchTok_raw (a :: m) rest' ht (fun c hcm => (hc c hcm).1) hrest
  have ha7 : a ≠ ';' :=
    (rawCh_ne a (hc a (List.mem_cons_self a m)).1).2.2.2.2.2.2.1
  simp only [nextToken, List.cons_append, List.isEmpty_cons, hstrip, hmatch]
  simp only [← List.cons_append, hstrip, hmatch]
  simp [ht, ha7]

lemma nextToken_space (f : Nat) (t2 : List Char) (lines : List (List Char))
    (ht : t2 ≠ []) (hc : ∀ c ∈ t2, rawCh c = true ∧ pyWs c = false) :
    nextToken (f + 1) (' ' :: t2, lines) = some (.tk t2, ([], lines)) := by
  obtain ⟨a, m, rfl⟩ : ∃ a m, t2 = a :: m := by
    cases t2 with
    | nil => exact absurd rfl ht
    | cons a m => exact ⟨a, m, rfl⟩
  have hstrip : pyStrip (' ' :: a :: m) = a :: m :=
    pyStrip_space_pre (a :: m) (fun c hcm => (hc c hcm).2)
  have hmatch : matchTok ((a :: m) ++ []) = (a :: m, []) :=
    matchTok_raw (a :: m) [] ht (fun c hcm => (hc c hcm).1)
      (fun c hcEq => by simp at hcEq)
  rw [List.append_nil] at hmatch
  have ha7 : a ≠ ';' :=
    (rawCh_ne a (hc a (List.mem_cons_self a m)).1).2.2.2.2.2.2.1
  simp only [nextToken, List.isEmpty_cons, hstrip, hmatch]
  simp [ht, ha7]

end LispyPy

namespace LispyPy

lemma getLast?_mem_list (l : List Char) (c : Char) (h : l.getLast? = some c) :
    c ∈ l := by
  obtain ⟨hne, rfl⟩ :=
    List.mem_getLast?_eq_getLast (show c ∈ l.getLast? by simp [Option.mem_def, h])
  exact List.getLast_mem hne

lemma tokenList_step (f : Nat) (s s' : PState) (t : List Char)
    (hn : nextToken (f + 1) s = some (.tk t, s')) :
    tokenList (f + 1) s =
      match tokenList f s' with
      | some ts => some (t :: ts)
      | Option.none => Option.none := by
  have h0 : tokenList (f + 1) s =
      (match nextToken (f + 1) s with
       | Option.none => Option.none
       | some (.teof, _) => some []
       | some (.tk t2, s2) =>
         match tokenList f s2 with
         | some ts => some (t2 :: ts)
         | Option.none => Option.none) := rfl
  rw [h0, hn]

lemma tokenList_eof (f : Nat) (s s' : PState)
    (hn : nextToken (f + 1) s = some (.teof, s')) :
    tokenList (f + 1) s = some [] := by
  have h0 : tokenList (f + 1) s =
      (match nextToken (f + 1) s with
       | Option.none => Option.none
       | some (.teof, _) => some []
       | some (.tk t2, s2) =>
         match tokenList f s2 with
         | some ts => some (t2 :: ts)
         | Option.none => Option.none) := rfl
  rw [h0, hn]

/-- C7, the claim as frozen, is false: the tokenizer regex skips only
SPACES between tokens (`[ ]*`, and the raw-token class `[^ ('"`,;)]`
does not exclude tabs), so two raw tokens separated by a TAB on one
line are read as a single token containing the tab, while a space or a
line break separates them. -/
theorem C7_counterexample :
    tokenList 20 (([] : List Char), [['a', '\t', 'b']]) =
      some [['a', '\t', 'b']] ∧
    tokenList 20 (([] : List Char), [['a', ' ', 'b']]) =
      some [['a'], ['b']] ∧
    tokenList 20 (([] : List Char), [['a'], ['b']]) = some [['a'], ['b']] ∧
    tokenList 20 (([] : List Char), [['a', '\t', 'b']]) ≠
      tokenList 20 (([] : List Char), [['a', ' ', 'b']]) := by
  refine ⟨rfl, rfl, rfl, ?_⟩
  intro h
  rw [show tokenList 20 (([] : List Char), [['a', '\t', 'b']]) =
        some [['a', '\t', 'b']] from rfl,
      show tokenList 20 (([] : List Char), [['a', ' ', 'b']]) =
        some [['a'], ['b']] from rfl] at h
  simp at h

/-- C7 amended: the tokenizer skips SPACES between tokens (plus the
leading/trailing whitespace `strip` of each buffered line) and skips
`;`-comments to end of line; it recognizes `(`, `)`, the four quote
markers, double-quoted strings with backslash escaping, and otherwise
maximal runs of non-delimiter characters.  Consequently two raw tokens
(nonempty, of raw non-whitespace characters) separated by a space or by
a line break are read as the same two tokens; a tab between them is NOT
a separator (see `C7_counterexample`). -/
theorem C7_amended_tokenizer (t1 t2 : List Char) (h1 : t1 ≠ []) (h2 : t2 ≠ [])
    (hc1 : ∀ c ∈ t1, rawCh c = true ∧ pyWs c = false)
    (hc2 : ∀ c ∈ t2, rawCh c = true ∧ pyWs c = false) :
    (∀ F : Nat, tokenList (F + 4) (([] : List Char), [t1 ++ ' ' :: t2]) =
        some [t1, t2]) ∧
    (∀ F : Nat, tokenList (F + 4) (([] : List Char), [t1, t2]) =
        some [t1, t2]) ∧
    tokenList 20 (([] : List Char), [['(', 'x', ')']]) =
      some [['('], ['x'], [')']] ∧
    tokenList 20 (([] : List Char), [[',', '@', 'x']]) =
      some [[',', '@'], ['x']] ∧
    tokenList 20 (([] : List Char), [[qteC, 'x']]) = some [[qteC], ['x']] ∧
    tokenList 20 (([] : List Char), [[bqC, 'x'], [',', 'y']]) =
      some [[bqC], ['x'], [','], ['y']] ∧
    tokenList 20 (([] : List Char), [[dqC, 'a', '\\', dqC, 'b', dqC, 'z']]) =
      some [[dqC, 'a', '\\', dqC, 'b', dqC], ['z']] ∧
    tokenList 20 (([] : List Char), [['a', ' ', ';', 'c', ' ', 'd'], ['b']]) =
      some [['a'], ['b']] := by
  have hlast1 : ∀ c, (t1 ++ ' ' :: t2).getLast? = some c → pyWs c = false := by
    intro c hg
    rw [List.getLast?_append] at hg
    obtain ⟨b2, m2, rfl⟩ : ∃ b2 m2, t2 = b2 :: m2 := by
      cases t2 with
      | nil => exact absurd rfl h2
      | cons b2 m2 => exact ⟨b2, m2, rfl⟩
    rw [List.getLast?_cons_cons,
      List.getLast?_eq_getLast_of_ne_nil (show b2 :: m2 ≠ [] by simp)] at hg
    simp only [Option.or] at hg
    obtain rfl : (b2 :: m2).getLast (by simp) = c := Option.some.inj hg
    exact (hc2 _ (List.getLast_mem _)).2
  have hlastSelf : ∀ (t : List Char), (∀ c ∈ t, rawCh c = true ∧ pyWs c = false) →
      ∀ c, (t ++ ([] : List Char)).getLast? = some c → pyWs c = false := by
    intro t hct c hg
    rw [List.append_nil] at hg
    exact (hct c (getLast?_mem_list _ _ hg)).2
  refine ⟨?_, ?_, rfl, rfl, rfl, rfl, rfl, rfl⟩
  · intro F
    have n1 : nextToken (F + 4) (([] : List Char), [t1 ++ ' ' :: t2]) =
        some (.tk t1, (' ' :: t2, [])) := by
      rw [show nextToken (F + 4) (([] : List Char), [t1 ++ ' ' :: t2]) =
            nextToken (F + 3) (t1 ++ ' ' :: t2, []) from rfl]
      exact nextToken_raw (F + 2) t1 (' ' :: t2) [] h1 hc1
        (fun c hcEq => by
          simp only [List.head?_cons, Option.some.injEq] at hcEq
          rw [← hcEq]
          rfl)
        hlast1
    have n2 : nextToken (F + 3) (' ' :: t2, ([] : List (List Char))) =
        some (.tk t2, ([], [])) := nextToken_space (F + 2) t2 [] h2 hc2
    have n3 : nextToken (F + 2) (([] : List Char), ([] : List (List Char))) =
        some (.teof, ([], [])) := rfl
    rw [show F + 4 = (F + 3) + 1 from rfl, tokenList_step (F + 3) _ _ t1 n1,
      show F + 3 = (F + 2) + 1 from rfl, tokenList_step (F + 2) _ _ t2 n2,
      show F + 2 = (F + 1) + 1 from rfl, tokenList_eof (F + 1) _ _ n3]
  · intro F
    have n1 : nextToken (F + 4) (([] : List Char), [t1, t2]) =
        some (.tk t1, ([], [t2])) := by
      rw [show nextToken (F + 4) (([] : List Char), [t1, t2]) =
            nextToken (F + 3) (t1, [t2]) from rfl]
      have := nextToken_raw (F + 2) t1 [] [t2] h1 hc1
        (fun c hcEq => by simp at hcEq) (hlastSelf t1 hc1)
      simpa using this
    have n2 : nextToken (F + 3) (([] : List Char), [t2]) =
        some (.tk t2, ([], [])) := by
      rw [show nextToken (F + 3) (([] : List Char), [t2]) =
            nextToken (F + 2) (t2, []) from rfl]
      have := nextToken_raw (F + 1) t2 [] [] h2 hc2
        (fun c hcEq => by simp at hcEq) (hlastSelf t2 hc2)
      simpa using this
    have n3 : nextToken (F + 2) (([] : List Char), ([] : List (List Char))) =
        some (.teof, ([], [])) := rfl
    rw [show F + 4 = (F + 3) + 1 from rfl, tokenList_step (F + 3) _ _ t1 n1,
      show F + 3 = (F + 2) + 1 from rfl, tokenList_step (F + 2) _ _ t2 n2,
      show F + 2 = (F + 1) + 1 from rfl, tokenList_eof (F + 1) _ _ n3]

/-- Witness for `C7_amended_tokenizer` at the tokens `ab` and `cd`. -/
theorem C7_amended_tokenizer_witness :
    tokenList 4 (([] : List Char), [['a', 'b', ' ', 'c', 'd']]) =
      some [['a', 'b'], ['c', 'd']] ∧
    tokenList 4 (([] : List Char), [['a', 'b'], ['c', 'd']]) =
      some [['a', 'b'], ['c', 'd']] := by
  have h := C7_amended_tokenizer ['a', 'b'] ['c', 'd'] (by decide) (by decide)
    (by decide) (by decide)
  exact ⟨h.1 0, h.2.1 0⟩

end LispyPy

namespace LispyPy

/-! Small-step equations for the `run` machine, used to execute
programs with symbolic subterms (the macro arguments of C10, the loop
counter of C1).  Each is definitional or follows by rewriting the
hypothesis results into the machine's match expressions. -/

lemma run_sym_step (f sk env : Nat) (st : IState) (s : List Char) (v : Val)
    (hv : lookupVar (f + 1) st env s = some (.ok v)) :
    run (f + 1) (sk + 1) (.one (.sym s) env) st = some (.ok (.ov v), st) := by
  have h0 : run (f + 1) (sk + 1) (.one (.sym s) env) st =
      (match lookupVar (f + 1) st env s with
       | some rr => some (rr.map .ov, st)
       | Option.none => Option.none) := rfl
  rw [h0, hv]
  rfl

lemma run_int_step (f sk env : Nat) (st : IState) (n : Int) :
    run (f + 1) (sk + 1) (.one (.int n) env) st =
      some (.ok (.ov (.int n)), st) := rfl

lemma run_bool_step (f sk env : Nat) (st : IState) (b : Bool) :
    run (f + 1) (sk + 1) (.one (.bool b) env) st =
      some (.ok (.ov (.bool b)), st) := rfl

lemma run_quote_step (f sk env : Nat) (st : IState) (e : Val) :
    run (f + 1) (sk + 1) (.one (L [quoteS, e]) env) st =
      some (.ok (.ov e), st) := rfl

lemma run_if_step (f sk env : Nat) (st : IState) (tst c alt : Val) :
    run (f + 1) (sk + 1) (.one (L [ifS, tst, c, alt]) env) st =
      (match run f sk (.one tst env) st with
       | some (.ok (.ov tv), st1) =>
         run f (sk + 1) (.one (if truthy tv then c else alt) env) st1
       | some (.error e, st1) => some (.error e, st1)
       | _ => Option.none) := rfl

lemma run_args_nil_step (f stk env : Nat) (st : IState) :
    run (f + 1) stk (.args [] env) st = some (.ok (.ovs []), st) := rfl

lemma run_args_cons_step (f stk env : Nat) (st st1 st2 : IState) (x : Val)
    (xs : List Val) (v : Val) (vs : List Val)
    (hx : run f (stk - 1) (.one x env) st = some (.ok (.ov v), st1))
    (hxs : run f stk (.args xs env) st1 = some (.ok (.ovs vs), st2)) :
    run (f + 1) stk (.args (x :: xs) env) st =
      some (.ok (.ovs (v :: vs)), st2) := by
  have h0 : run (f + 1) stk (.args (x :: xs) env) st =
      (match run f (stk - 1) (.one x env) st with
       | some (.ok (.ov v2), stA) =>
         match run f stk (.args xs env) stA with
         | some (.ok (.ovs vs2), stB) => some (.ok (.ovs (v2 :: vs2)), stB)
         | other => other
       | some (.error e, stA) => some (.error e, stA)
       | _ => Option.none) := rfl
  rw [h0]
  simp only [hx, hxs]

/-- Application whose head is none of the special-form symbols and
whose evaluated operator is a native procedure other than `call/cc`. -/
lemma run_app_prim_step (f sk env : Nat) (st st1 : IState) (h0 : Val)
    (tl : List Val) (pn : Prim) (asv : List Val)
    (hq : symIs h0 quoteS = false) (hi : symIs h0 ifS = false)
    (hc : symIs h0 condS = false) (hs : symIs h0 setS = false)
    (hd : symIs h0 defineS = false) (hl : symIs h0 lambdaS = false)
    (hb : symIs h0 beginS = false) (hpn : pn ≠ Prim.callcc)
    (hargs : run f (sk + 1) (.args (h0 :: tl) env) st =
      some (.ok (.ovs (.native pn :: asv)), st1)) :
    run (f + 1) (sk + 1) (.one (.list (h0 :: tl)) env) st =
      some ((applyPrim f pn asv).map .ov, st1) := by
  cases pn <;>
    first
      | exact absurd rfl hpn
      | (simp only [run, hq, hi, hc, hs, hd, hl, hb, Bool.false_eq_true,
          if_false, hargs]
         try rfl)

/-- Application whose evaluated operator is a closure: the tail-call
transition (same `stk`, new frame). -/
lemma run_app_closure_step (f sk env : Nat) (st st1 : IState) (h0 : Val)
    (tl : List Val) (ps body : Val) (cenv : Nat) (asv : List Val) (fr : Frame)
    (hq : symIs h0 quoteS = false) (hi : symIs h0 ifS = false)
    (hc : symIs h0 condS = false) (hs : symIs h0 setS = false)
    (hd : symIs h0 defineS = false) (hl : symIs h0 lambdaS = false)
    (hb : symIs h0 beginS = false)
    (hargs : run f (sk + 1) (.args (h0 :: tl) env) st =
      some (.ok (.ovs (.closure ps body cenv :: asv)), st1))
    (hbind : bindFrame ps asv (some cenv) = .ok fr) :
    run (f + 1) (sk + 1) (.one (.list (h0 :: tl)) env) st =
      run f (sk + 1) (.one body st1.heap.length)
        { st1 with heap := st1.heap ++ [fr] } := by
  simp only [run, hq, hi, hc, hs, hd, hl, hb, Bool.false_eq_true, if_false,
    hargs, hbind, heapPush]

/-- Variable resolution: the name is bound in the current frame. -/
lemma lv_local (u : Nat) (st : IState) (r : Nat) (fr : Frame)
    (name : List Char) (v : Val) (hr : st.heap.get? r = some fr)
    (hla : alook fr.storage name = some v) :
    lookupVar (u + 1) st r name = some (.ok v) := by
  have hr' : st.heap[r]? = some fr := by simpa using hr
  simp [lookupVar, findRef, hr', hla]

/-- Variable resolution: the name misses the current frame and resolves
in the global frame (reference 0) through `outer`. -/
lemma lv_outer_global (u : Nat) (st : IState) (r : Nat) (fr : Frame)
    (rest : List Frame) (name : List Char) (v : Val)
    (hh : st.heap = g0 :: rest) (hr : st.heap.get? r = some fr)
    (hout : fr.outer = some 0)
    (hla : alook fr.storage name = Option.none)
    (hgv : alook g0.storage name = some v) :
    lookupVar (u + 2) st r name = some (.ok v) := by
  have hr' : st.heap[r]? = some fr := by simpa using hr
  have hg' : st.heap[0]? = some g0 := by simp [hh]
  simp [lookupVar, findRef, hr', hla, hout, hg', hgv]

/-- Variable resolution directly in the global environment. -/
lemma lv_global (u : Nat) (st : IState) (rest : List Frame)
    (name : List Char) (v : Val) (hh : st.heap = g0 :: rest)
    (hgv : alook g0.storage name = some v) :
    lookupVar (u + 1) st 0 name = some (.ok v) := by
  have hg' : st.heap[0]? = some g0 := by simp [hh]
  simp [lookupVar, findRef, hg', hgv]

end LispyPy

namespace LispyPy

def argsName : List Char := ("args").data

/-- The argument frame `Env(parms='args', args, global)` a builtin macro
procedure call creates. -/
def argsFrame (es : List Val) : Frame := ⟨[(argsName, .list es)], some 0⟩

def qNil : Val := L [quoteS, L []]

def carArgs : Val := L [carS, argsS]

def cdrArgs : Val := L [cdrS, argsS]

/-- The stored body of the `or` macro procedure after bootstrap: the
lambda body with its quasiquote already expanded to `cons`/`append`/
`quote` code (checked below against `stBoot` by `rfl`). -/
def orMacBody : Val :=
  L [ifS, L [nullQS, argsS], .bool false,
    L [ifS, L [numEqS, L [lengthS, argsS], .int 1],
      carArgs,
      L [consS, L [quoteS, ifS],
        L [consS, L [consS, L [quoteS, notS], L [consS, carArgs, qNil]],
          L [consS, L [consS, L [quoteS, orS], L [appendS, cdrArgs, qNil]],
            L [consS, L [quoteS, .bool true], qNil]]]]]]

/-- The stored body of the `and` macro procedure after bootstrap. -/
def andMacBody : Val :=
  L [ifS, L [nullQS, argsS], .bool true,
    L [ifS, L [numEqS, L [lengthS, argsS], .int 1],
      carArgs,
      L [consS, L [quoteS, ifS],
        L [consS, carArgs,
          L [consS, L [consS, L [quoteS, andS], L [appendS, cdrArgs, qNil]],
            L [consS, L [quoteS, .bool false], qNil]]]]]]

lemma alook_stBoot_or :
    alook stBoot.mtab (("or").data) = some (.closure argsS orMacBody 0) := rfl

lemma alook_stBoot_and :
    alook stBoot.mtab (("and").data) = some (.closure argsS andMacBody 0) := rfl

lemma alook_stBoot_not : alook stBoot.mtab (("not").data) = Option.none := rfl

lemma stBoot_heap : stBoot.heap = [g0] := rfl

lemma pyEq_int (f : Nat) (x y : Int) :
    pyEq f (.int x) (.int y) = decide (x = y) := by
  cases f <;> rfl

section MacroBodyEval

variable (a b : Val) (t : List Val) (st1 : IState) (rest : List Frame) (r : Nat)

/-- Evaluating the `or` macro body on two-or-more unevaluated argument
forms `a :: b :: t` builds exactly the data
`(if (not a) (or b ... t) #t)` — the single-step expansion shape of the
builtin `or` — leaving the state unchanged. -/
lemma orBody_eval (hh : st1.heap = g0 :: rest)
    (hr : st1.heap.get? r = some (argsFrame (a :: b :: t))) :
    ∀ u w, run (u + 30) (w + 10) (.one orMacBody r) st1 =
      some (.ok (.ov (L [ifS, L [notS, a], .list (orS :: b :: t), .bool true])),
            st1) := by
  have h_args : ∀ u w, run (u + 1) (w + 1) (.one argsS r) st1 =
      some (.ok (.ov (.list (a :: b :: t))), st1) := fun u w =>
    run_sym_step u w r st1 argsName _ (lv_local u st1 r _ argsName _ hr rfl)
  have h_symNull : ∀ u w, run (u + 2) (w + 1) (.one nullQS r) st1 =
      some (.ok (.ov (.native .nullP)), st1) := fun u w =>
    run_sym_step (u + 1) w r st1 _ _
      (lv_outer_global u st1 r _ rest _ _ hh hr rfl rfl rfl)
  have h_symEq : ∀ u w, run (u + 2) (w + 1) (.one numEqS r) st1 =
      some (.ok (.ov (.native .numEq)), st1) := fun u w =>
    run_sym_step (u + 1) w r st1 _ _
      (lv_outer_global u st1 r _ rest _ _ hh hr rfl rfl rfl)
  have h_symLen : ∀ u w, run (u + 2) (w + 1) (.one lengthS r) st1 =
      some (.ok (.ov (.native .lenP)), st1) := fun u w =>
    run_sym_step (u + 1) w r st1 _ _
      (lv_outer_global u st1 r _ rest _ _ hh hr rfl rfl rfl)
  have h_symCar : ∀ u w, run (u + 2) (w + 1) (.one carS r) st1 =
      some (.ok (.ov (.native .carP)), st1) := fun u w =>
    run_sym_step (u + 1) w r st1 _ _
      (lv_outer_global u st1 r _ rest _ _ hh hr rfl rfl rfl)
  have h_symCdr : ∀ u w, run (u + 2) (w + 1) (.one cdrS r) st1 =
      some (.ok (.ov (.native .cdrP)), st1) := fun u w =>
    run_sym_step (u + 1) w r st1 _ _
      (lv_outer_global u st1 r _ rest _ _ hh hr rfl rfl rfl)
  have h_symCons : ∀ u w, run (u + 2) (w + 1) (.one consS r) st1 =
      some (.ok (.ov (.native .consP)), st1) := fun u w =>
    run_sym_step (u + 1) w r st1 _ _
      (lv_outer_global u st1 r _ rest _ _ hh hr rfl rfl rfl)
  have h_symApp : ∀ u w, run (u + 2) (w + 1) (.one appendS r) st1 =
      some (.ok (.ov (.native .add)), st1) := fun u w =>
    run_sym_step (u + 1) w r st1 _ _
      (lv_outer_global u st1 r _ rest _ _ hh hr rfl rfl rfl)
  have h_nullq : ∀ u w, run (u + 4) (w + 2) (.one (L [nullQS, argsS]) r) st1 =
      some (.ok (.ov (.bool false)), st1) := by
    intro u w
    exact run_app_prim_step (u + 3) (w + 1) r st1 st1 nullQS [argsS]
      Prim.nullP [.list (a :: b :: t)] rfl rfl rfl rfl rfl rfl rfl
      (by decide)
      (run_args_cons_step (u + 2) (w + 2) r st1 st1 st1 nullQS [argsS]
        (.native .nullP) [.list (a :: b :: t)] (h_symNull u w)
        (run_args_cons_step (u + 1) (w + 2) r st1 st1 st1 argsS []
          (.list (a :: b :: t)) [] (h_args u w)
          (run_args_nil_step u (w + 2) r st1)))
  have h_len : ∀ u w, run (u + 4) (w + 2) (.one (L [lengthS, argsS]) r) st1 =
      some (.ok (.ov (.int ((a :: b :: t).length))), st1) := by
    intro u w
    exact run_app_prim_step (u + 3) (w + 1) r st1 st1 lengthS [argsS]
      Prim.lenP [.list (a :: b :: t)] rfl rfl rfl rfl rfl rfl rfl
      (by decide)
      (run_args_cons_step (u + 2) (w + 2) r st1 st1 st1 lengthS [argsS]
        (.native .lenP) [.list (a :: b :: t)] (h_symLen u w)
        (run_args_cons_step (u + 1) (w + 2) r st1 st1 st1 argsS []
          (.list (a :: b :: t)) [] (h_args u w)
          (run_args_nil_step u (w + 2) r st1)))
  have h_ne1 : ∀ f' : Nat,
      pyEq f' (.int ((a :: b :: t).length : Int)) (.int 1) = false := by
    intro f'
    rw [pyEq_int]
    simp only [decide_eq_false_iff_not, List.length_cons]
    omega
  have h_numeq : ∀ u w,
      run (u + 8) (w + 3)
        (.one (L [numEqS, L [lengthS, argsS], .int 1]) r) st1 =
      some (.ok (.ov (.bool false)), st1) := by
    intro u w
    have h0 := run_app_prim_step (u + 7) (w + 2) r st1 st1 numEqS
      [L [lengthS, argsS], .int 1] Prim.numEq
      [.int ((a :: b :: t).length : Int), .int 1] rfl rfl rfl rfl rfl rfl rfl
      (by decide)
      (run_args_cons_step (u + 6) (w + 3) r st1 st1 st1 numEqS
        [L [lengthS, argsS], .int 1] (.native .numEq)
        [.int ((a :: b :: t).length : Int), .int 1] (h_symEq (u + 4) (w + 1))
        (run_args_cons_step (u + 5) (w + 3) r st1 st1 st1
          (L [lengthS, argsS]) [.int 1] (.int ((a :: b :: t).length : Int))
          [.int 1] (h_len (u + 1) w)
          (run_args_cons_step (u + 4) (w + 3) r st1 st1 st1 (.int 1) []
            (.int 1) [] (run_int_step (u + 3) (w + 1) r st1 1)
            (run_args_nil_step (u + 3) (w + 3) r st1))))
    have h1 : (some (Except.map Out.ov (applyPrim (u + 7) Prim.numEq
        [Val.int ((a :: b :: t).length : Int), Val.int 1]), st1) :
        Option (Except Err Out × IState)) =
        some (.ok (.ov (.bool false)), st1) := by
      simp [applyPrim, Except.map, pyEq_int]
      omega
    exact h0.trans h1
  have h_car : ∀ u w, run (u + 4) (w + 2) (.one carArgs r) st1 =
      some (.ok (.ov a), st1) := by
    intro u w
    exact run_app_prim_step (u + 3) (w + 1) r st1 st1 carS [argsS]
      Prim.carP [.list (a :: b :: t)] rfl rfl rfl rfl rfl rfl rfl
      (by decide)
      (run_args_cons_step (u + 2) (w + 2) r st1 st1 st1 carS [argsS]
        (.native .carP) [.list (a :: b :: t)] (h_symCar u w)
        (run_args_cons_step (u + 1) (w + 2) r st1 st1 st1 argsS []
          (.list (a :: b :: t)) [] (h_args u w)
          (run_args_nil_step u (w + 2) r st1)))
  have h_cdr : ∀ u w, run (u + 4) (w + 2) (.one cdrArgs r) st1 =
      some (.ok (.ov (.list (b :: t))), st1) := by
    intro u w
    exact run_app_prim_step (u + 3) (w + 1) r st1 st1 cdrS [argsS]
      Prim.cdrP [.list (a :: b :: t)] rfl rfl rfl rfl rfl rfl rfl
      (by decide)
      (run_args_cons_step (u + 2) (w + 2) r st1 st1 st1 cdrS [argsS]
        (.native .cdrP) [.list (a :: b :: t)] (h_symCdr u w)
        (run_args_cons_step (u + 1) (w + 2) r st1 st1 st1 argsS []
          (.list (a :: b :: t)) [] (h_args u w)
          (run_args_nil_step u (w + 2) r st1)))
  have h_qnil : ∀ u w, run (u + 1) (w + 1) (.one qNil r) st1 =
      some (.ok (.ov (.list [])), st1) := fun u w =>
    run_quote_step u w r st1 (.list [])
  have h_cons2 : ∀ u w,
      run (u + 8) (w + 3) (.one (L [consS, carArgs, qNil]) r) st1 =
      some (.ok (.ov (.list [a])), st1) := by
    intro u w
    exact run_app_prim_step (u + 7) (w + 2) r st1 st1 consS [carArgs, qNil]
      Prim.consP [a, .list []] rfl rfl rfl rfl rfl rfl rfl (by decide)
      (run_args_cons_step (u + 6) (w + 3) r st1 st1 st1 consS [carArgs, qNil]
        (.native .consP) [a, .list []] (h_symCons (u + 4) (w + 1))
        (run_args_cons_step (u + 5) (w + 3) r st1 st1 st1 carArgs [qNil]
          a [.list []] (h_car (u + 1) w)
          (run_args_cons_step (u + 4) (w + 3) r st1 st1 st1 qNil []
            (.list []) [] (h_qnil (u + 3) (w + 1))
            (run_args_nil_step (u + 3) (w + 3) r st1))))
  have h_notl : ∀ u w,
      run (u + 12) (w + 4)
        (.one (L [consS, L [quoteS, notS], L [consS, carArgs, qNil]]) r) st1 =
      some (.ok (.ov (.list [notS, a])), st1) := by
    intro u w
    exact run_app_prim_step (u + 11) (w + 3) r st1 st1 consS
      [L [quoteS, notS], L [consS, carArgs, qNil]] Prim.consP
      [notS, .list [a]] rfl rfl rfl rfl rfl rfl rfl (by decide)
      (run_args_cons_step (u + 10) (w + 4) r st1 st1 st1 consS
        [L [quoteS, notS], L [consS, carArgs, qNil]] (.native .consP)
        [notS, .list [a]] (h_symCons (u + 8) (w + 2))
        (run_args_cons_step (u + 9) (w + 4) r st1 st1 st1
          (L [quoteS, notS]) [L [consS, carArgs, qNil]] notS [.list [a]]
          (run_quote_step (u + 8) (w + 2) r st1 notS)
          (run_args_cons_step (u + 8) (w + 4) r st1 st1 st1
            (L [consS, carArgs, qNil]) [] (.list [a]) [] (h_cons2 u w)
            (run_args_nil_step (u + 7) (w + 4) r st1))))
  have h_app2 : ∀ u w,
      run (u + 8) (w + 3) (.one (L [appendS, cdrArgs, qNil]) r) st1 =
      some (.ok (.ov (.list (b :: t))), st1) := by
    intro u w
    have h0 := run_app_prim_step (u + 7) (w + 2) r st1 st1 appendS
      [cdrArgs, qNil] Prim.add [.list (b :: t), .list []]
      rfl rfl rfl rfl rfl rfl rfl (by decide)
      (run_args_cons_step (u + 6) (w + 3) r st1 st1 st1 appendS
        [cdrArgs, qNil] (.native .add) [.list (b :: t), .list []]
        (h_symApp (u + 4) (w + 1))
        (run_args_cons_step (u + 5) (w + 3) r st1 st1 st1 cdrArgs [qNil]
          (.list (b :: t)) [.list []] (h_cdr (u + 1) w)
          (run_args_cons_step (u + 4) (w + 3) r st1 st1 st1 qNil []
            (.list []) [] (h_qnil (u + 3) (w + 1))
            (run_args_nil_step (u + 3) (w + 3) r st1))))
    have h1 : (some (Except.map Out.ov (applyPrim (u + 7) Prim.add
        [Val.list (b :: t), Val.list []]), st1) :
        Option (Except Err Out × IState)) =
        some (.ok (.ov (.list (b :: t))), st1) := by
      simp [applyPrim, pyAdd, numOf, Except.map]
    exact h0.trans h1
  have h_orc : ∀ u w,
      run (u + 12) (w + 4)
        (.one (L [consS, L [quoteS, orS], L [appendS, cdrArgs, qNil]]) r) st1 =
      some (.ok (.ov (.list (orS :: b :: t))), st1) := by
    intro u w
    exact run_app_prim_step (u + 11) (w + 3) r st1 st1 consS
      [L [quoteS, orS], L [appendS, cdrArgs, qNil]] Prim.consP
      [orS, .list (b :: t)] rfl rfl rfl rfl rfl rfl rfl (by decide)
      (run_args_cons_step (u + 10) (w + 4) r st1 st1 st1 consS
        [L [quoteS, orS], L [appendS, cdrArgs, qNil]] (.native .consP)
        [orS, .list (b :: t)] (h_symCons (u + 8) (w + 2))
        (run_args_cons_step (u + 9) (w + 4) r st1 st1 st1
          (L [quoteS, orS]) [L [appendS, cdrArgs, qNil]] orS
          [.list (b :: t)] (run_quote_step (u + 8) (w + 2) r st1 orS)
          (run_args_cons_step (u + 8) (w + 4) r st1 st1 st1
            (L [appendS, cdrArgs, qNil]) [] (.list (b :: t)) [] (h_app2 u w)
            (run_args_nil_step (u + 7) (w + 4) r st1))))
  have h_tc : ∀ u w,
      run (u + 5) (w + 2)
        (.one (L [consS, L [quoteS, .bool true], qNil]) r) st1 =
      some (.ok (.ov (.list [.bool true])), st1) := by
    intro u w
    exact run_app_prim_step (u + 4) (w + 1) r st1 st1 consS
      [L [quoteS, .bool true], qNil] Prim.consP [.bool true, .list []]
      rfl rfl rfl rfl rfl rfl rfl (by decide)
      (run_args_cons_step (u + 3) (w + 2) r st1 st1 st1 consS
        [L [quoteS, .bool true], qNil] (.native .consP)
        [.bool true, .list []] (h_symCons (u + 1) w)
        (run_args_cons_step (u + 2) (w + 2) r st1 st1 st1
          (L [quoteS, .bool true]) [qNil] (.bool true) [.list []]
          (run_quote_step (u + 1) w r st1 (.bool true))
          (run_args_cons_step (u + 1) (w + 2) r st1 st1 st1 qNil []
            (.list []) [] (h_qnil u w)
            (run_args_nil_step u (w + 2) r st1))))
  have h_c3 : ∀ u w,
      run (u + 16) (w + 5)
        (.one (L [consS, L [consS, L [quoteS, orS], L [appendS, cdrArgs, qNil]],
                  L [consS, L [quoteS, .bool true], qNil]]) r) st1 =
      some (.ok (.ov (.list [.list (orS :: b :: t), .bool true])), st1) := by
    intro u w
    exact run_app_prim_step (u + 15) (w + 4) r st1 st1 consS
      [L [consS, L [quoteS, orS], L [appendS, cdrArgs, qNil]],
       L [consS, L [quoteS, .bool true], qNil]] Prim.consP
      [.list (orS :: b :: t), .list [.bool true]]
      rfl rfl rfl rfl rfl rfl rfl (by decide)
      (run_args_cons_step (u + 14) (w + 5) r st1 st1 st1 consS
        [L [consS, L [quoteS, orS], L [appendS, cdrArgs, qNil]],
         L [consS, L [quoteS, .bool true], qNil]] (.native .consP)
        [.list (orS :: b :: t), .list [.bool true]]
        (h_symCons (u + 12) (w + 3))
        (run_args_cons_step (u + 13) (w + 5) r st1 st1 st1
          (L [consS, L [quoteS, orS], L [appendS, cdrArgs, qNil]])
          [L [consS, L [quoteS, .bool true], qNil]] (.list (orS :: b :: t))
          [.list [.bool true]] (h_orc (u + 1) w)
          (run_args_cons_step (u + 12) (w + 5) r st1 st1 st1
            (L [consS, L [quoteS, .bool true], qNil]) []
            (.list [.bool true]) [] (h_tc (u + 7) (w + 2))
            (run_args_nil_step (u + 11) (w + 5) r st1))))
  have h_c2 : ∀ u w,
      run (u + 20) (w + 6)
        (.one (L [consS, L [consS, L [quoteS, notS], L [consS, carArgs, qNil]],
                  L [consS, L [consS, L [quoteS, orS],
                               L [appendS, cdrArgs, qNil]],
                    L [consS, L [quoteS, .bool true], qNil]]]) r) st1 =
      some (.ok (.ov (.list [.list [notS, a], .list (orS :: b :: t),
                             .bool true])), st1) := by
    intro u w
    exact run_app_prim_step (u + 19) (w + 5) r st1 st1 consS
      [L [consS, L [quoteS, notS], L [consS, carArgs, qNil]],
       L [consS, L [consS, L [quoteS, orS], L [appendS, cdrArgs, qNil]],
         L [consS, L [quoteS, .bool true], qNil]]] Prim.consP
      [.list [notS, a], .list [.list (orS :: b :: t), .bool true]]
      rfl rfl rfl rfl rfl rfl rfl (by decide)
      (run_args_cons_step (u + 18) (w + 6) r st1 st1 st1 consS
        [L [consS, L [quoteS, notS], L [consS, carArgs, qNil]],
         L [consS, L [consS, L [quoteS, orS], L [appendS, cdrArgs, qNil]],
           L [consS, L [quoteS, .bool true], qNil]]] (.native .consP)
        [.list [notS, a], .list [.list (orS :: b :: t), .bool true]]
        (h_symCons (u + 16) (w + 4))
        (run_args_cons_step (u + 17) (w + 6) r st1 st1 st1
          (L [consS, L [quoteS, notS], L [consS, carArgs, qNil]])
          [L [consS, L [consS, L [quoteS, orS], L [appendS, cdrArgs, qNil]],
            L [consS, L [quoteS, .bool true], qNil]]] (.list [notS, a])
          [.list [.list (orS :: b :: t), .bool true]] (h_notl (u + 5) (w + 1))
          (run_args_cons_step (u + 16) (w + 6) r st1 st1 st1
            (L [consS, L [consS, L [quoteS, orS],
                          L [appendS, cdrArgs, qNil]],
                L [consS, L [quoteS, .bool true], qNil]]) []
            (.list [.list (orS :: b :: t), .bool true]) [] (h_c3 u w)
            (run_args_nil_step (u + 15) (w + 6) r st1))))
  have h_top : ∀ u w,
      run (u + 24) (w + 7)
        (.one (L [consS, L [quoteS, ifS],
                  L [consS, L [consS, L [quoteS, notS],
                               L [consS, carArgs, qNil]],
                    L [consS, L [consS, L [quoteS, orS],
                                 L [appendS, cdrArgs, qNil]],
                      L [consS, L [quoteS, .bool true], qNil]]]]) r) st1 =
      some (.ok (.ov (L [ifS, L [notS, a], .list (orS :: b :: t),
                         .bool true])), st1) := by
    intro u w
    exact run_app_prim_step (u + 23) (w + 6) r st1 st1 consS
      [L [quoteS, ifS],
       L [consS, L [consS, L [quoteS, notS], L [consS, carArgs, qNil]],
         L [consS, L [consS, L [quoteS, orS], L [appendS, cdrArgs, qNil]],
           L [consS, L [quoteS, .bool true], qNil]]]] Prim.consP
      [ifS, .list [.list [notS, a], .list (orS :: b :: t), .bool true]]
      rfl rfl rfl rfl rfl rfl rfl (by decide)
      (run_args_cons_step (u + 22) (w + 7) r st1 st1 st1 consS
        [L [quoteS, ifS],
         L [consS, L [consS, L [quoteS, notS], L [consS, carArgs, qNil]],
           L [consS, L [consS, L [quoteS, orS], L [appendS, cdrArgs, qNil]],
             L [consS, L [quoteS, .bool true], qNil]]]] (.native .consP)
        [ifS, .list [.list [notS, a], .list (orS :: b :: t), .bool true]]
        (h_symCons (u + 20) (w + 5))
        (run_args_cons_step (u + 21) (w + 7) r st1 st1 st1
          (L [quoteS, ifS])
          [L [consS, L [consS, L [quoteS, notS], L [consS, carArgs, qNil]],
            L [consS, L [consS, L [quoteS, orS], L [appendS, cdrArgs, qNil]],
              L [consS, L [quoteS, .bool true], qNil]]]] ifS
          [.list [.list [notS, a], .list (orS :: b :: t), .bool true]]
          (run_quote_step (u + 20) (w + 5) r st1 ifS)
          (run_args_cons_step (u + 20) (w + 7) r st1 st1 st1
            (L [consS, L [consS, L [quoteS, notS], L [consS, carArgs, qNil]],
              L [consS, L [consS, L [quoteS, orS],
                           L [appendS, cdrArgs, qNil]],
                L [consS, L [quoteS, .bool true], qNil]]]) []
            (.list [.list [notS, a], .list (orS :: b :: t), .bool true]) []
            (h_c2 u w) (run_args_nil_step (u + 19) (w + 7) r st1))))
  intro u w
  rw [show orMacBody = L [ifS, L [nullQS, argsS], .bool false,
        L [ifS, L [numEqS, L [lengthS, argsS], .int 1], carArgs,
          L [consS, L [quoteS, ifS],
            L [consS, L [consS, L [quoteS, notS], L [consS, carArgs, qNil]],
              L [consS, L [consS, L [quoteS, orS],
                           L [appendS, cdrArgs, qNil]],
                L [consS, L [quoteS, .bool true], qNil]]]]]] from rfl,
      show u + 30 = (u + 29) + 1 from rfl,
      show w + 10 = (w + 9) + 1 from rfl,
      run_if_step]
  simp only [h_nullq, truthy, Bool.false_eq_true, if_false]
  rw [show u + 29 = (u + 28) + 1 from rfl, run_if_step]
  simp only [h_numeq, truthy, Bool.false_eq_true, if_false]
  exact h_top (u + 4) (w + 3)

end MacroBodyEval

end LispyPy

namespace LispyPy

section MacroBodyEval2

variable (a b : Val) (t : List Val) (st1 : IState) (rest : List Frame) (r : Nat)

/-- Evaluating the `and` macro body on two-or-more unevaluated argument
forms `a :: b :: t` builds exactly the data `(if a (and b ... t) #f)`,
leaving the state unchanged. -/
lemma andBody_eval (hh : st1.heap = g0 :: rest)
    (hr : st1.heap.get? r = some (argsFrame (a :: b :: t))) :
    ∀ u w, run (u + 30) (w + 10) (.one andMacBody r) st1 =
      some (.ok (.ov (L [ifS, a, .list (andS :: b :: t), .bool false])),
            st1) := by
  have h_args : ∀ u w, run (u + 1) (w + 1) (.one argsS r) st1 =
      some (.ok (.ov (.list (a :: b :: t))), st1) := fun u w =>
    run_sym_step u w r st1 argsName _ (lv_local u st1 r _ argsName _ hr rfl)
  have h_symNull : ∀ u w, run (u + 2) (w + 1) (.one nullQS r) st1 =
      some (.ok (.ov (.native .nullP)), st1) := fun u w =>
    run_sym_step (u + 1) w r st1 _ _
      (lv_outer_global u st1 r _ rest _ _ hh hr rfl rfl rfl)
  have h_symEq : ∀ u w, run (u + 2) (w + 1) (.one numEqS r) st1 =
      some (.ok (.ov (.native .numEq)), st1) := fun u w =>
    run_sym_step (u + 1) w r st1 _ _
      (lv_outer_global u st1 r _ rest _ _ hh hr rfl rfl rfl)
  have h_symLen : ∀ u w, run (u + 2) (w + 1) (.one lengthS r) st1 =
      some (.ok (.ov (.native .lenP)), st1) := fun u w =>
    run_sym_step (u + 1) w r st1 _ _
      (lv_outer_global u st1 r _ rest _ _ hh hr rfl rfl rfl)
  have h_symCar : ∀ u w, run (u + 2) (w + 1) (.one carS r) st1 =
      some (.ok (.ov (.native .carP)), st1) := fun u w =>
    run_sym_step (u + 1) w r st1 _ _
      (lv_outer_global u st1 r _ rest _ _ hh hr rfl rfl rfl)
  have h_symCdr : ∀ u w, run (u + 2) (w + 1) (.one cdrS r) st1 =
      some (.ok (.ov (.native .cdrP)), st1) := fun u w =>
    run_sym_step (u + 1) w r st1 _ _
      (lv_outer_global u st1 r _ rest _ _ hh hr rfl rfl rfl)
  have h_symCons : ∀ u w, run (u + 2) (w + 1) (.one consS r) st1 =
      some (.ok (.ov (.native .consP)), st1) := fun u w =>
    run_sym_step (u + 1) w r st1 _ _
      (lv_outer_global u st1 r _ rest _ _ hh hr rfl rfl rfl)
  have h_symApp : ∀ u w, run (u + 2) (w + 1) (.one appendS r) st1 =
      some (.ok (.ov (.native .add)), st1) := fun u w =>
    run_sym_step (u + 1) w r st1 _ _
      (lv_outer_global u st1 r _ rest _ _ hh hr rfl rfl rfl)
  have h_nullq : ∀ u w, run (u + 4) (w + 2) (.one (L [nullQS, argsS]) r) st1 =
      some (.ok (.ov (.bool false)), st1) := by
    intro u w
    exact run_app_prim_step (u + 3) (w + 1) r st1 st1 nullQS [argsS]
      Prim.nullP [.list (a :: b :: t)] rfl rfl rfl rfl rfl rfl rfl
      (by decide)
      (run_args_cons_step (u + 2) (w + 2) r st1 st1 st1 nullQS [argsS]
        (.native .nullP) [.list (a :: b :: t)] (h_symNull u w)
        (run_args_cons_step (u + 1) (w + 2) r st1 st1 st1 argsS []
          (.list (a :: b :: t)) [] (h_args u w)
          (run_args_nil_step u (w + 2) r st1)))
  have h_len : ∀ u w, run (u + 4) (w + 2) (.one (L [lengthS, argsS]) r) st1 =
      some (.ok (.ov (.int ((a :: b :: t).length))), st1) := by
    intro u w
    exact run_app_prim_step (u + 3) (w + 1) r st1 st1 lengthS [argsS]
      Prim.lenP [.list (a :: b :: t)] rfl rfl rfl rfl rfl rfl rfl
      (by decide)
      (run_args_cons_step (u + 2) (w + 2) r st1 st1 st1 lengthS [argsS]
        (.native .lenP) [.list (a :: b :: t)] (h_symLen u w)
        (run_args_cons_step (u + 1) (w + 2) r st1 st1 st1 argsS []
          (.list (a :: b :: t)) [] (h_args u w)
          (run_args_nil_step u (w + 2) r st1)))
  have h_ne1 : ∀ f' : Nat,
      pyEq f' (.int ((a :: b :: t).length : Int)) (.int 1) = false := by
    intro f'
    rw [pyEq_int]
    simp only [decide_eq_false_iff_not, List.length_cons]
    omega
  have h_numeq : ∀ u w,
      run (u + 8) (w + 3)
        (.one (L [numEqS, L [lengthS, argsS], .int 1]) r) st1 =
      some (.ok (.ov (.bool false)), st1) := by
    intro u w
    have h0 := run_app_prim_step (u + 7) (w + 2) r st1 st1 numEqS
      [L [lengthS, argsS], .int 1] Prim.numEq
      [.int ((a :: b :: t).length : Int), .int 1] rfl rfl rfl rfl rfl rfl rfl
      (by decide)
      (run_args_cons_step (u + 6) (w + 3) r st1 st1 st1 numEqS
        [L [lengthS, argsS], .int 1] (.native .numEq)
        [.int ((a :: b :: t).length : Int), .int 1] (h_symEq (u + 4) (w + 1))
        (run_args_cons_step (u + 5) (w + 3) r st1 st1 st1
          (L [lengthS, argsS]) [.int 1] (.int ((a :: b :: t).length : Int))
          [.int 1] (h_len (u + 1) w)
          (run_args_cons_step (u + 4) (w + 3) r st1 st1 st1 (.int 1) []
            (.int 1) [] (run_int_step (u + 3) (w + 1) r st1 1)
            (run_args_nil_step (u + 3) (w + 3) r st1))))
    have h1 : (some (Except.map Out.ov (applyPrim (u + 7) Prim.numEq
        [Val.int ((a :: b :: t).length : Int), Val.int 1]), st1) :
        Option (Except Err Out × IState)) =
        some (.ok (.ov (.bool false)), st1) := by
      simp [applyPrim, Except.map, pyEq_int]
      omega
    exact h0.trans h1
  have h_car : ∀ u w, run (u + 4) (w + 2) (.one carArgs r) st1 =
      some (.ok (.ov a), st1) := by
    intro u w
    exact run_app_prim_step (u + 3) (w + 1) r st1 st1 carS [argsS]
      Prim.carP [.list (a :: b :: t)] rfl rfl rfl rfl rfl rfl rfl
      (by decide)
      (run_args_cons_step (u + 2) (w + 2) r st1 st1 st1 carS [argsS]
        (.native .carP) [.list (a :: b :: t)] (h_symCar u w)
        (run_args_cons_step (u + 1) (w + 2) r st1 st1 st1 argsS []
          (.list (a :: b :: t)) [] (h_args u w)
          (run_args_nil_step u (w + 2) r st1)))
  have h_cdr : ∀ u w, run (u + 4) (w + 2) (.one cdrArgs r) st1 =
      some (.ok (.ov (.list (b :: t))), st1) := by
    intro u w
    exact run_app_prim_step (u + 3) (w + 1) r st1 st1 cdrS [argsS]
      Prim.cdrP [.list (a :: b :: t)] rfl rfl rfl rfl rfl rfl rfl
      (by decide)
      (run_args_cons_step (u + 2) (w + 2) r st1 st1 st1 cdrS [argsS]
        (.native .cdrP) [.list (a :: b :: t)] (h_symCdr u w)
        (run_args_cons_step (u + 1) (w + 2) r st1 st1 st1 argsS []
          (.list (a :: b :: t)) [] (h_args u w)
          (run_args_nil_step u (w + 2) r st1)))
  have h_qnil : ∀ u w, run (u + 1) (w + 1) (.one qNil r) st1 =
      some (.ok (.ov (.list [])), st1) := fun u w =>
    run_quote_step u w r st1 (.list [])
  have h_app2 : ∀ u w,
      run (u + 8) (w + 3) (.one (L [appendS, cdrArgs, qNil]) r) st1 =
      some (.ok (.ov (.list (b :: t))), st1) := by
    intro u w
    have h0 := run_app_prim_step (u + 7) (w + 2) r st1 st1 appendS
      [cdrArgs, qNil] Prim.add [.list (b :: t), .list []]
      rfl rfl rfl rfl rfl rfl rfl (by decide)
      (run_args_cons_step (u + 6) (w + 3) r st1 st1 st1 appendS
        [cdrArgs, qNil] (.native .add) [.list (b :: t), .list []]
        (h_symApp (u + 4) (w + 1))
        (run_args_cons_step (u + 5) (w + 3) r st1 st1 st1 cdrArgs [qNil]
          (.list (b :: t)) [.list []] (h_cdr (u + 1) w)
          (run_args_cons_step (u + 4) (w + 3) r st1 st1 st1 qNil []
            (.list []) [] (h_qnil (u + 3) (w + 1))
            (run_args_nil_step (u + 3) (w + 3) r st1))))
    have h1 : (some (Except.map Out.ov (applyPrim (u + 7) Prim.add
        [Val.list (b :: t), Val.list []]), st1) :
        Option (Except Err Out × IState)) =
        some (.ok (.ov (.list (b :: t))), st1) := by
      simp [applyPrim, pyAdd, numOf, Except.map]
    exact h0.trans h1
  have h_anc : ∀ u w,
      run (u + 12) (w + 4)
        (.one (L [consS, L [quoteS, andS], L [appendS, cdrArgs, qNil]]) r) st1 =
      some (.ok (.ov (.list (andS :: b :: t))), st1) := by
    intro u w
    exact run_app_prim_step (u + 11) (w + 3) r st1 st1 consS
      [L [quoteS, andS], L [appendS, cdrArgs, qNil]] Prim.consP
      [andS, .list (b :: t)] rfl rfl rfl rfl rfl rfl rfl (by decide)
      (run_args_cons_step (u + 10) (w + 4) r st1 st1 st1 consS
        [L [quoteS, andS], L [appendS, cdrArgs, qNil]] (.native .consP)
        [andS, .list (b :: t)] (h_symCons (u + 8) (w + 2))
        (run_args_cons_step (u + 9) (w + 4) r st1 st1 st1
          (L [quoteS, andS]) [L [appendS, cdrArgs, qNil]] andS
          [.list (b :: t)] (run_quote_step (u + 8) (w + 2) r st1 andS)
          (run_args_cons_step (u + 8) (w + 4) r st1 st1 st1
            (L [appendS, cdrArgs, qNil]) [] (.list (b :: t)) [] (h_app2 u w)
            (run_args_nil_step (u + 7) (w + 4) r st1))))
  have h_fc : ∀ u w,
      run (u + 5) (w + 2)
        (.one (L [consS, L [quoteS, .bool false], qNil]) r) st1 =
      some (.ok (.ov (.list [.bool false])), st1) := by
    intro u w
    exact run_app_prim_step (u + 4) (w + 1) r st1 st1 consS
      [L [quoteS, .bool false], qNil] Prim.consP [.bool false, .list []]
      rfl rfl rfl rfl rfl rfl rfl (by decide)
      (run_args_cons_step (u + 3) (w + 2) r st1 st1 st1 consS
        [L [quoteS, .bool false], qNil] (.native .consP)
        [.bool false, .list []] (h_symCons (u + 1) w)
        (run_args_cons_step (u + 2) (w + 2) r st1 st1 st1
          (L [quoteS, .bool false]) [qNil] (.bool false) [.list []]
          (run_quote_step (u + 1) w r st1 (.bool false))
          (run_args_cons_step (u + 1) (w + 2) r st1 st1 st1 qNil []
            (.list []) [] (h_qnil u w)
            (run_args_nil_step u (w + 2) r st1))))
  have h_c3 : ∀ u w,
      run (u + 16) (w + 5)
        (.one (L [consS, L [consS, L [quoteS, andS], L [appendS, cdrArgs, qNil]],
                  L [consS, L [quoteS, .bool false], qNil]]) r) st1 =
      some (.ok (.ov (.list [.list (andS :: b :: t), .bool false])), st1) := by
    intro u w
    exact run_app_prim_step (u + 15) (w + 4) r st1 st1 consS
      [L [consS, L [quoteS, andS], L [appendS, cdrArgs, qNil]],
       L [consS, L [quoteS, .bool false], qNil]] Prim.consP
      [.list (andS :: b :: t), .list [.bool false]]
      rfl rfl rfl rfl rfl rfl rfl (by decide)
      (run_args_cons_step (u + 14) (w + 5) r st1 st1 st1 consS
        [L [consS, L [quoteS, andS], L [appendS, cdrArgs, qNil]],
         L [consS, L [quoteS, .bool false], qNil]] (.native .consP)
        [.list (andS :: b :: t), .list [.bool false]]
        (h_symCons (u + 12) (w + 3))
        (run_args_cons_step (u + 13) (w + 5) r st1 st1 st1
          (L [consS, L [quoteS, andS], L [appendS, cdrArgs, qNil]])
          [L [consS, L [quoteS, .bool false], qNil]] (.list (andS :: b :: t))
          [.list [.bool false]] (h_anc (u + 1) w)
          (run_args_cons_step (u + 12) (w + 5) r st1 st1 st1
            (L [consS, L [quoteS, .bool false], qNil]) []
            (.list [.bool false]) [] (h_fc (u + 7) (w + 2))
            (run_args_nil_step (u + 11) (w + 5) r st1))))
  have h_c2 : ∀ u w,
      run (u + 20) (w + 6)
        (.one (L [consS, carArgs,
                  L [consS, L [consS, L [quoteS, andS],
                               L [appendS, cdrArgs, qNil]],
                    L [consS, L [quoteS, .bool false], qNil]]]) r) st1 =
      some (.ok (.ov (.list [a, .list (andS :: b :: t), .bool false])),
            st1) := by
    intro u w
    exact run_app_prim_step (u + 19) (w + 5) r st1 st1 consS
      [carArgs,
       L [consS, L [consS, L [quoteS, andS], L [appendS, cdrArgs, qNil]],
         L [consS, L [quoteS, .bool false], qNil]]] Prim.consP
      [a, .list [.list (andS :: b :: t), .bool false]]
      rfl rfl rfl rfl rfl rfl rfl (by decide)
      (run_args_cons_step (u + 18) (w + 6) r st1 st1 st1 consS
        [carArgs,
         L [consS, L [consS, L [quoteS, andS], L [appendS, cdrArgs, qNil]],
           L [consS, L [quoteS, .bool false], qNil]]] (.native .consP)
        [a, .list [.list (andS :: b :: t), .bool false]]
        (h_symCons (u + 16) (w + 4))
        (run_args_cons_step (u + 17) (w + 6) r st1 st1 st1 carArgs
          [L [consS, L [consS, L [quoteS, andS], L [appendS, cdrArgs, qNil]],
            L [consS, L [quoteS, .bool false], qNil]]] a
          [.list [.list (andS :: b :: t), .bool false]] (h_car (u + 13) (w + 3))
          (run_args_cons_step (u + 16) (w + 6) r st1 st1 st1
            (L [consS, L [consS, L [quoteS, andS],
                          L [appendS, cdrArgs, qNil]],
                L [consS, L [quoteS, .bool false], qNil]]) []
            (.list [.list (andS :: b :: t), .bool false]) [] (h_c3 u w)
            (run_args_nil_step (u + 15) (w + 6) r st1))))
  have h_top : ∀ u w,
      run (u + 24) (w + 7)
        (.one (L [consS, L [quoteS, ifS],
                  L [consS, carArgs,
                    L [consS, L [consS, L [quoteS, andS],
                                 L [appendS, cdrArgs, qNil]],
                      L [consS, L [quoteS, .bool false], qNil]]]]) r) st1 =
      some (.ok (.ov (L [ifS, a, .list (andS :: b :: t), .bool false])),
            st1) := by
    intro u w
    exact run_app_prim_step (u + 23) (w + 6) r st1 st1 consS
      [L [quoteS, ifS],
       L [consS, carArgs,
         L [consS, L [consS, L [quoteS, andS], L [appendS, cdrArgs, qNil]],
           L [consS, L [quoteS, .bool false], qNil]]]] Prim.consP
      [ifS, .list [a, .list (andS :: b :: t), .bool false]]
      rfl rfl rfl rfl rfl rfl rfl (by decide)
      (run_args_cons_step (u + 22) (w + 7) r st1 st1 st1 consS
        [L [quoteS, ifS],
         L [consS, carArgs,
           L [consS, L [consS, L [quoteS, andS], L [appendS, cdrArgs, qNil]],
             L [consS, L [quoteS, .bool false], qNil]]]] (.native .consP)
        [ifS, .list [a, .list (andS :: b :: t), .bool false]]
        (h_symCons (u + 20) (w + 5))
        (run_args_cons_step (u + 21) (w + 7) r st1 st1 st1
          (L [quoteS, ifS])
          [L [consS, carArgs,
            L [consS, L [consS, L [quoteS, andS], L [appendS, cdrArgs, qNil]],
              L [consS, L [quoteS, .bool false], qNil]]]] ifS
          [.list [a, .list (andS :: b :: t), .bool false]]
          (run_quote_step (u + 20) (w + 5) r st1 ifS)
          (run_args_cons_step (u + 20) (w + 7) r st1 st1 st1
            (L [consS, carArgs,
              L [consS, L [consS, L [quoteS, andS],
                           L [appendS, cdrArgs, qNil]],
                L [consS, L [quoteS, .bool false], qNil]]]) []
            (.list [a, .list (andS :: b :: t), .bool false]) []
            (h_c2 u w) (run_args_nil_step (u + 19) (w + 7) r st1))))
  intro u w
  rw [show andMacBody = L [ifS, L [nullQS, argsS], .bool true,
        L [ifS, L [numEqS, L [lengthS, argsS], .int 1], carArgs,
          L [consS, L [quoteS, ifS],
            L [consS, carArgs,
              L [consS, L [consS, L [quoteS, andS],
                           L [appendS, cdrArgs, qNil]],
                L [consS, L [quoteS, .bool false], qNil]]]]]] from rfl,
      show u + 30 = (u + 29) + 1 from rfl,
      show w + 10 = (w + 9) + 1 from rfl,
      run_if_step]
  simp only [h_nullq, truthy, Bool.false_eq_true, if_false]
  rw [show u + 29 = (u + 28) + 1 from rfl, run_if_step]
  simp only [h_numeq, truthy, Bool.false_eq_true, if_false]
  exact h_top (u + 4) (w + 3)

end MacroBodyEval2

end LispyPy

namespace LispyPy

section MacroBodyEval1

variable (cBase anyElse e : Val) (st1 : IState) (rest : List Frame) (r : Nat)

/-- Evaluating either builtin macro body on a single unevaluated
argument form takes the `(= (length args) 1)` branch and returns
`(car args)`, i.e. the form itself, unchanged state. -/
lemma macroBody_eval1 (hh : st1.heap = g0 :: rest)
    (hr : st1.heap.get? r = some (argsFrame [e])) :
    ∀ u w, run (u + 30) (w + 10)
      (.one (L [ifS, L [nullQS, argsS], cBase,
        L [ifS, L [numEqS, L [lengthS, argsS], .int 1], carArgs,
          anyElse]]) r) st1 =
      some (.ok (.ov e), st1) := by
  have h_args : ∀ u w, run (u + 1) (w + 1) (.one argsS r) st1 =
      some (.ok (.ov (.list [e])), st1) := fun u w =>
    run_sym_step u w r st1 argsName _ (lv_local u st1 r _ argsName _ hr rfl)
  have h_symNull : ∀ u w, run (u + 2) (w + 1) (.one nullQS r) st1 =
      some (.ok (.ov (.native .nullP)), st1) := fun u w =>
    run_sym_step (u + 1) w r st1 _ _
      (lv_outer_global u st1 r _ rest _ _ hh hr rfl rfl rfl)
  have h_symEq : ∀ u w, run (u + 2) (w + 1) (.one numEqS r) st1 =
      some (.ok (.ov (.native .numEq)), st1) := fun u w =>
    run_sym_step (u + 1) w r st1 _ _
      (lv_outer_global u st1 r _ rest _ _ hh hr rfl rfl rfl)
  have h_symLen : ∀ u w, run (u + 2) (w + 1) (.one lengthS r) st1 =
      some (.ok (.ov (.native .lenP)), st1) := fun u w =>
    run_sym_step (u + 1) w r st1 _ _
      (lv_outer_global u st1 r _ rest _ _ hh hr rfl rfl rfl)
  have h_symCar : ∀ u w, run (u + 2) (w + 1) (.one carS r) st1 =
      some (.ok (.ov (.native .carP)), st1) := fun u w =>
    run_sym_step (u + 1) w r st1 _ _
      (lv_outer_global u st1 r _ rest _ _ hh hr rfl rfl rfl)
  have h_nullq : ∀ u w, run (u + 4) (w + 2) (.one (L [nullQS, argsS]) r) st1 =
      some (.ok (.ov (.bool false)), st1) := by
    intro u w
    exact run_app_prim_step (u + 3) (w + 1) r st1 st1 nullQS [argsS]
      Prim.nullP [.list [e]] rfl rfl rfl rfl rfl rfl rfl (by decide)
      (run_args_cons_step (u + 2) (w + 2) r st1 st1 st1 nullQS [argsS]
        (.native .nullP) [.list [e]] (h_symNull u w)
        (run_args_cons_step (u + 1) (w + 2) r st1 st1 st1 argsS []
          (.list [e]) [] (h_args u w)
          (run_args_nil_step u (w + 2) r st1)))
  have h_len : ∀ u w, run (u + 4) (w + 2) (.one (L [lengthS, argsS]) r) st1 =
      some (.ok (.ov (.int 1)), st1) := by
    intro u w
    exact run_app_prim_step (u + 3) (w + 1) r st1 st1 lengthS [argsS]
      Prim.lenP [.list [e]] rfl rfl rfl rfl rfl rfl rfl (by decide)
      (run_args_cons_step (u + 2) (w + 2) r st1 st1 st1 lengthS [argsS]
        (.native .lenP) [.list [e]] (h_symLen u w)
        (run_args_cons_step (u + 1) (w + 2) r st1 st1 st1 argsS []
          (.list [e]) [] (h_args u w)
          (run_args_nil_step u (w + 2) r st1)))
  have h_numeq : ∀ u w,
      run (u + 8) (w + 3)
        (.one (L [numEqS, L [lengthS, argsS], .int 1]) r) st1 =
      some (.ok (.ov (.bool true)), st1) := by
    intro u w
    have h0 := run_app_prim_step (u + 7) (w + 2) r st1 st1 numEqS
      [L [lengthS, argsS], .int 1] Prim.numEq [.int 1, .int 1]
      rfl rfl rfl rfl rfl rfl rfl (by decide)
      (run_args_cons_step (u + 6) (w + 3) r st1 st1 st1 numEqS
        [L [lengthS, argsS], .int 1] (.native .numEq) [.int 1, .int 1]
        (h_symEq (u + 4) (w + 1))
        (run_args_cons_step (u + 5) (w + 3) r st1 st1 st1
          (L [lengthS, argsS]) [.int 1] (.int 1) [.int 1] (h_len (u + 1) w)
          (run_args_cons_step (u + 4) (w + 3) r st1 st1 st1 (.int 1) []
            (.int 1) [] (run_int_step (u + 3) (w + 1) r st1 1)
            (run_args_nil_step (u + 3) (w + 3) r st1))))
    have h1 : (some (Except.map Out.ov
        (applyPrim (u + 7) Prim.numEq [Val.int 1, Val.int 1]), st1) :
        Option (Except Err Out × IState)) =
        some (.ok (.ov (.bool true)), st1) := by
      simp [applyPrim, Except.map, pyEq_int]
    exact h0.trans h1
  have h_car : ∀ u w, run (u + 4) (w + 2) (.one carArgs r) st1 =
      some (.ok (.ov e), st1) := by
    intro u w
    exact run_app_prim_step (u + 3) (w + 1) r st1 st1 carS [argsS]
      Prim.carP [.list [e]] rfl rfl rfl rfl rfl rfl rfl (by decide)
      (run_args_cons_step (u + 2) (w + 2) r st1 st1 st1 carS [argsS]
        (.native .carP) [.list [e]] (h_symCar u w)
        (run_args_cons_step (u + 1) (w + 2) r st1 st1 st1 argsS []
          (.list [e]) [] (h_args u w)
          (run_args_nil_step u (w + 2) r st1)))
  intro u w
  rw [show u + 30 = (u + 29) + 1 from rfl,
      show w + 10 = (w + 9) + 1 from rfl,
      run_if_step]
  simp only [h_nullq, truthy, Bool.false_eq_true, if_false]
  rw [show u + 29 = (u + 28) + 1 from rfl, run_if_step]
  simp only [h_numeq, truthy, if_true]
  exact h_car (u + 24) (w + 8)

end MacroBodyEval1

/-! Small-step equations for the `xpand` machine. -/

lemma xp_atom_int (f : Nat) (tl : Bool) (st : IState) (n : Int) :
    xpand (f + 1) (.xp tl (.int n)) st = some (.ok (.ov (.int n)), st) := rfl

lemma xp_atom_bool (f : Nat) (tl : Bool) (st : IState) (b : Bool) :
    xpand (f + 1) (.xp tl (.bool b)) st = some (.ok (.ov (.bool b)), st) := rfl

lemma xp_sym (f : Nat) (tl : Bool) (st : IState) (s : List Char) :
    xpand (f + 1) (.xp tl (.sym s)) st = some (.ok (.ov (.sym s)), st) := rfl

lemma xpList_nil_step (f : Nat) (tl : Bool) (st : IState) :
    xpand (f + 1) (.xpList tl []) st = some (.ok (.ovs []), st) := rfl

lemma xpList_cons_step (f : Nat) (tl : Bool) (st st1 st2 : IState)
    (x v : Val) (xs vs : List Val)
    (hx : xpand f (.xp tl x) st = some (.ok (.ov v), st1))
    (hxs : xpand f (.xpList tl xs) st1 = some (.ok (.ovs vs), st2)) :
    xpand (f + 1) (.xpList tl (x :: xs)) st =
      some (.ok (.ovs (v :: vs)), st2) := by
  have h0 : xpand (f + 1) (.xpList tl (x :: xs)) st =
      (match xpand f (.xp tl x) st with
       | some (.ok (.ov v2), stA) =>
         match xpand f (.xpList tl xs) stA with
         | some (.ok (.ovs vs2), stB) => some (.ok (.ovs (v2 :: vs2)), stB)
         | other => other
       | some (.error e2, stA) => some (.error e2, stA)
       | _ => Option.none) := rfl
  rw [h0]
  simp only [hx, hxs]

lemma xp_if_step (f : Nat) (tl : Bool) (st : IState) (t1 t2 t3 : Val) :
    xpand (f + 1) (.xp tl (L [ifS, t1, t2, t3])) st =
      (match xpand f (.xpList false [ifS, t1, t2, t3]) st with
       | some (.ok (.ovs vs), st1) => some (.ok (.ov (.list vs)), st1)
       | some (.error e2, st1) => some (.error e2, st1)
       | _ => Option.none) := rfl

/-- Expansion step for a macro call whose table entry is a closure:
bind the unevaluated argument forms, evaluate the macro body, and
recursively expand the result. -/
lemma xp_macro_step (f : Nat) (tl : Bool) (st st1 : IState) (h0 : Val)
    (targs : List Val) (ps pbody rres : Val) (cenv : Nat) (fr : Frame)
    (hq : symIs h0 quoteS = false) (hi : symIs h0 ifS = false)
    (hcd : symIs h0 condS = false) (hs : symIs h0 setS = false)
    (hd : symIs h0 defineS = false) (hdm : symIs h0 defmacS = false)
    (hbg : symIs h0 beginS = false) (hlm : symIs h0 lambdaS = false)
    (hqq : symIs h0 qqS = false)
    (hm : Option.bind (symKey h0) (alook st.mtab) =
      some (.closure ps pbody cenv))
    (hbind : bindFrame ps targs (some cenv) = .ok fr)
    (hrun : run f f (.one pbody st.heap.length)
        { st with heap := st.heap ++ [fr] } = some (.ok (.ov rres), st1)) :
    xpand (f + 1) (.xp tl (.list (h0 :: targs))) st =
      xpand f (.xp tl rres) st1 := by
  simp only [xpand, hq, hi, hcd, hs, hd, hdm, hbg, hlm, hqq,
    Bool.false_eq_true, if_false, Bool.or_self, hm, hbind, heapPush, hrun]

/-- Expansion step for an ordinary application (head not special, not a
macro): every element is expanded. -/
lemma xp_app_default_step (f : Nat) (tl : Bool) (st st1 : IState) (h0 : Val)
    (targs : List Val) (vs : List Val)
    (hq : symIs h0 quoteS = false) (hi : symIs h0 ifS = false)
    (hcd : symIs h0 condS = false) (hs : symIs h0 setS = false)
    (hd : symIs h0 defineS = false) (hdm : symIs h0 defmacS = false)
    (hbg : symIs h0 beginS = false) (hlm : symIs h0 lambdaS = false)
    (hqq : symIs h0 qqS = false)
    (hm : Option.bind (symKey h0) (alook st.mtab) = Option.none)
    (hlist : xpand f (.xpList false (h0 :: targs)) st =
      some (.ok (.ovs vs), st1)) :
    xpand (f + 1) (.xp tl (.list (h0 :: targs))) st =
      some (.ok (.ov (.list vs)), st1) := by
  simp only [xpand, hq, hi, hcd, hs, hd, hdm, hbg, hlm, hqq,
    Bool.false_eq_true, if_false, Bool.or_self, hm, hlist]

end LispyPy

namespace LispyPy

/-- Fully expanded form of `(or e1 ... en)` over integer literals. -/
def orExpand : List Int → Val
  | [] => .bool false
  | [e] => .int e
  | e :: rest => L [ifS, L [notS, .int e], orExpand rest, .bool true]

/-- Fully expanded form of `(and e1 ... en)` over integer literals. -/
def andExpand : List Int → Val
  | [] => .bool true
  | [e] => .int e
  | e :: rest => L [ifS, .int e, andExpand rest, .bool false]

lemma hm_or (st : IState) (hmt : st.mtab = stBoot.mtab) :
    Option.bind (symKey orS) (alook st.mtab) =
      some (.closure argsS orMacBody 0) := by
  rw [show Option.bind (symKey orS) (alook st.mtab) =
        alook st.mtab (("or").data) from rfl, hmt]
  exact alook_stBoot_or

lemma hm_and (st : IState) (hmt : st.mtab = stBoot.mtab) :
    Option.bind (symKey andS) (alook st.mtab) =
      some (.closure argsS andMacBody 0) := by
  rw [show Option.bind (symKey andS) (alook st.mtab) =
        alook st.mtab (("and").data) from rfl, hmt]
  exact alook_stBoot_and

lemma hm_not (st : IState) (hmt : st.mtab = stBoot.mtab) :
    Option.bind (symKey notS) (alook st.mtab) = Option.none := by
  rw [show Option.bind (symKey notS) (alook st.mtab) =
        alook st.mtab (("not").data) from rfl, hmt]
  exact alook_stBoot_not

/-- Full (recursive) expansion of an `or` form over integer literals:
each macro step produces `(if (not e1) (or rest) #t)` and the embedded
`or` form expands recursively, giving the nested-`if` chain
`orExpand`. -/
lemma orExpand_ok (es : List Int) : es ≠ [] →
    ∃ K, ∀ (tl : Bool) (st : IState) (rest0 : List Frame),
      st.heap = g0 :: rest0 → st.mtab = stBoot.mtab → ∀ f,
      ∃ (st' : IState) (rest' : List Frame),
        xpand (f + K) (.xp tl (.list (orS :: es.map .int))) st =
          some (.ok (.ov (orExpand es)), st') ∧
        st'.heap = g0 :: rest' ∧ st'.mtab = stBoot.mtab := by
  induction es with
  | nil => intro h; exact absurd rfl h
  | cons e1 rest ih =>
    intro _
    cases rest with
    | nil =>
      refine ⟨33, ?_⟩
      intro tl st rest0 hh hmt f
      refine ⟨{ st with heap := st.heap ++ [argsFrame [Val.int e1]] },
        rest0 ++ [argsFrame [Val.int e1]], ?_, by simp [hh], by simp [hmt]⟩
      have hh2 : ({ st with heap := st.heap ++ [argsFrame [Val.int e1]] }
          : IState).heap = g0 :: (rest0 ++ [argsFrame [Val.int e1]]) := by
        simp [hh]
      have hr2 : ({ st with heap := st.heap ++ [argsFrame [Val.int e1]] }
          : IState).heap.get? st.heap.length =
          some (argsFrame [Val.int e1]) :=
        List.get?_concat_length st.heap (argsFrame [Val.int e1])
      have hrun := macroBody_eval1 (.bool false)
        (L [consS, L [quoteS, ifS],
          L [consS, L [consS, L [quoteS, notS], L [consS, carArgs, qNil]],
            L [consS, L [consS, L [quoteS, orS], L [appendS, cdrArgs, qNil]],
              L [consS, L [quoteS, .bool true], qNil]]]])
        (.int e1) _ _ st.heap.length hh2 hr2 (f + 2) (f + 22)
      have hstep := xp_macro_step (f + 32) tl st _ orS [Val.int e1]
        argsS orMacBody (.int e1) 0 (argsFrame [Val.int e1])
        rfl rfl rfl rfl rfl rfl rfl rfl rfl (hm_or st hmt) rfl hrun
      exact hstep.trans
        (xp_atom_int (f + 31) tl { st with heap := st.heap ++ [argsFrame [Val.int e1]] } e1)
    | cons e2 t =>
      obtain ⟨K', hK'⟩ := ih (by simp)
      refine ⟨K' + 40, ?_⟩
      intro tl st rest0 hh hmt f
      rw [show f + (K' + 40) = f + K' + 40 from by omega]
      set fr := argsFrame (Val.int e1 :: Val.int e2 :: t.map Val.int) with hfr
      set st2 := { st with heap := st.heap ++ [fr] } with hst2
      have hh2 : st2.heap = g0 :: (rest0 ++ [fr]) := by
        simp [hst2, hh]
      have hmt2 : st2.mtab = stBoot.mtab := by simp [hst2, hmt]
      have hr2 : st2.heap.get? st.heap.length = some fr :=
        List.get?_concat_length st.heap fr
      obtain ⟨st3, rest3, hx3, hh3, hmt3⟩ :=
        hK' false st2 (rest0 ++ [fr]) hh2 hmt2 (f + 35)
      rw [show f + 35 + K' = f + K' + 35 from by omega] at hx3
      have hrun := orBody_eval (.int e1) (.int e2) (t.map Val.int) st2
        (rest0 ++ [fr]) st.heap.length hh2 hr2 (f + K' + 9) (f + K' + 29)
      have h1 := xp_macro_step (f + K' + 39) tl st st2 orS
        (Val.int e1 :: Val.int e2 :: t.map Val.int) argsS orMacBody
        (L [ifS, L [notS, .int e1],
          .list (orS :: Val.int e2 :: t.map Val.int), .bool true]) 0 fr
        rfl rfl rfl rfl rfl rfl rfl rfl rfl (hm_or st hmt) rfl hrun
      have hNotE1 : xpand (f + K' + 36)
          (.xp false (L [notS, .int e1])) st2 =
          some (.ok (.ov (L [notS, .int e1])), st2) :=
        xp_app_default_step (f + K' + 35) false st2 st2 notS [.int e1]
          [notS, .int e1] rfl rfl rfl rfl rfl rfl rfl rfl rfl
          (hm_not st2 hmt2)
          (xpList_cons_step (f + K' + 34) false st2 st2 st2 notS notS
            [.int e1] [.int e1]
            (xp_sym (f + K' + 33) false st2 (("not").data))
            (xpList_cons_step (f + K' + 33) false st2 st2 st2 (.int e1)
              (.int e1) [] [] (xp_atom_int (f + K' + 32) false st2 e1)
              (xpList_nil_step (f + K' + 32) false st2)))
      have hlist : xpand (f + K' + 38)
          (.xpList false [ifS, L [notS, .int e1],
            .list (orS :: Val.int e2 :: t.map Val.int), .bool true]) st2 =
          some (.ok (.ovs [ifS, L [notS, .int e1], orExpand (e2 :: t),
            .bool true]), st3) :=
        xpList_cons_step (f + K' + 37) false st2 st2 st3 ifS ifS _ _
          (xp_sym (f + K' + 36) false st2 (("if").data))
          (xpList_cons_step (f + K' + 36) false st2 st2 st3
            (L [notS, .int e1]) (L [notS, .int e1]) _ _ hNotE1
            (xpList_cons_step (f + K' + 35) false st2 st3 st3
              (.list (orS :: Val.int e2 :: t.map Val.int))
              (orExpand (e2 :: t)) _ _ hx3
              (xpList_cons_step (f + K' + 34) false st3 st3 st3
                (.bool true) (.bool true) [] []
                (xp_atom_bool (f + K' + 33) false st3 true)
                (xpList_nil_step (f + K' + 33) false st3))))
      have h2 := xp_if_step (f + K' + 38) tl st2 (L [notS, .int e1])
        (.list (orS :: Val.int e2 :: t.map Val.int)) (.bool true)
      rw [hlist] at h2
      exact ⟨st3, rest3, h1.trans h2, hh3, hmt3⟩

end LispyPy

namespace LispyPy

/-- Full (recursive) expansion of an `and` form over integer literals:
each macro step produces `(if e1 (and rest) #f)` and the embedded
`and` form expands recursively, giving the nested-`if` chain
`andExpand`. -/
lemma andExpand_ok (es : List Int) : es ≠ [] →
    ∃ K, ∀ (tl : Bool) (st : IState) (rest0 : List Frame),
      st.heap = g0 :: rest0 → st.mtab = stBoot.mtab → ∀ f,
      ∃ (st' : IState) (rest' : List Frame),
        xpand (f + K) (.xp tl (.list (andS :: es.map .int))) st =
          some (.ok (.ov (andExpand es)), st') ∧
        st'.heap = g0 :: rest' ∧ st'.mtab = stBoot.mtab := by
  induction es with
  | nil => intro h; exact absurd rfl h
  | cons e1 rest ih =>
    intro _
    cases rest with
    | nil =>
      refine ⟨33, ?_⟩
      intro tl st rest0 hh hmt f
      refine ⟨{ st with heap := st.heap ++ [argsFrame [Val.int e1]] },
        rest0 ++ [argsFrame [Val.int e1]], ?_, by simp [hh], by simp [hmt]⟩
      have hh2 : ({ st with heap := st.heap ++ [argsFrame [Val.int e1]] }
          : IState).heap = g0 :: (rest0 ++ [argsFrame [Val.int e1]]) := by
        simp [hh]
      have hr2 : ({ st with heap := st.heap ++ [argsFrame [Val.int e1]] }
          : IState).heap.get? st.heap.length =
          some (argsFrame [Val.int e1]) :=
        List.get?_concat_length st.heap (argsFrame [Val.int e1])
      have hrun := macroBody_eval1 (.bool true)
        (L [consS, L [quoteS, ifS],
          L [consS, carArgs,
            L [consS, L [consS, L [quoteS, andS], L [appendS, cdrArgs, qNil]],
              L [consS, L [quoteS, .bool false], qNil]]]])
        (.int e1) _ _ st.heap.length hh2 hr2 (f + 2) (f + 22)
      have hstep := xp_macro_step (f + 32) tl st _ andS [Val.int e1]
        argsS andMacBody (.int e1) 0 (argsFrame [Val.int e1])
        rfl rfl rfl rfl rfl rfl rfl rfl rfl (hm_and st hmt) rfl hrun
      exact hstep.trans
        (xp_atom_int (f + 31) tl { st with heap := st.heap ++ [argsFrame [Val.int e1]] } e1)
    | cons e2 t =>
      obtain ⟨K', hK'⟩ := ih (by simp)
      refine ⟨K' + 40, ?_⟩
      intro tl st rest0 hh hmt f
      rw [show f + (K' + 40) = f + K' + 40 from by omega]
      set fr := argsFrame (Val.int e1 :: Val.int e2 :: t.map Val.int) with hfr
      set st2 := { st with heap := st.heap ++ [fr] } with hst2
      have hh2 : st2.heap = g0 :: (rest0 ++ [fr]) := by
        simp [hst2, hh]
      have hmt2 : st2.mtab = stBoot.mtab := by simp [hst2, hmt]
      have hr2 : st2.heap.get? st.heap.length = some fr :=
        List.get?_concat_length st.heap fr
      obtain ⟨st3, rest3, hx3, hh3, hmt3⟩ :=
        hK' false st2 (rest0 ++ [fr]) hh2 hmt2 (f + 35)
      rw [show f + 35 + K' = f + K' + 35 from by omega] at hx3
      have hrun := andBody_eval (.int e1) (.int e2) (t.map Val.int) st2
        (rest0 ++ [fr]) st.heap.length hh2 hr2 (f + K' + 9) (f + K' + 29)
      have h1 := xp_macro_step (f + K' + 39) tl st st2 andS
        (Val.int e1 :: Val.int e2 :: t.map Val.int) argsS andMacBody
        (L [ifS, .int e1,
          .list (andS :: Val.int e2 :: t.map Val.int), .bool false]) 0 fr
        rfl rfl rfl rfl rfl rfl rfl rfl rfl (hm_and st hmt) rfl hrun
      have hlist : xpand (f + K' + 38)
          (.xpList false [ifS, .int e1,
            .list (andS :: Val.int e2 :: t.map Val.int), .bool false]) st2 =
          some (.ok (.ovs [ifS, .int e1, andExpand (e2 :: t),
            .bool false]), st3) :=
        xpList_cons_step (f + K' + 37) false st2 st2 st3 ifS ifS _ _
          (xp_sym (f + K' + 36) false st2 (("if").data))
          (xpList_cons_step (f + K' + 36) false st2 st2 st3
            (.int e1) (.int e1) _ _
            (xp_atom_int (f + K' + 35) false st2 e1)
            (xpList_cons_step (f + K' + 35) false st2 st3 st3
              (.list (andS :: Val.int e2 :: t.map Val.int))
              (andExpand (e2 :: t)) _ _ hx3
              (xpList_cons_step (f + K' + 34) false st3 st3 st3
                (.bool false) (.bool false) [] []
                (xp_atom_bool (f + K' + 33) false st3 false)
                (xpList_nil_step (f + K' + 33) false st3))))
      have h2 := xp_if_step (f + K' + 38) tl st2 (.int e1)
        (.list (andS :: Val.int e2 :: t.map Val.int)) (.bool false)
      rw [hlist] at h2
      exact ⟨st3, rest3, h1.trans h2, hh3, hmt3⟩

end LispyPy

namespace LispyPy

/-- Evaluating the expanded `or` chain over integer literals when some
non-final literal is nonzero (truthy) yields the boolean `#t` — not the
literal itself — at a constant stack depth, leaving the state
unchanged. -/
lemma orExpand_eval (es : List Int) : 2 ≤ es.length →
    (∃ x ∈ es.dropLast, x ≠ 0) →
    ∃ K, ∀ (st : IState) (rest0 : List Frame), st.heap = g0 :: rest0 →
      ∀ u w, run (u + K) (w + 3) (.one (orExpand es) 0) st =
        some (.ok (.ov (.bool true)), st) := by
  induction es with
  | nil => intro h _; simp at h
  | cons e1 rest ih =>
    intro hlen hwit
    cases rest with
    | nil => simp at hlen
    | cons e2 t =>
      by_cases he1 : e1 = 0
      · obtain ⟨x, hx, hxne⟩ := hwit
        rw [show (e1 :: e2 :: t).dropLast = e1 :: (e2 :: t).dropLast
          from rfl] at hx
        rcases List.mem_cons.mp hx with hx1 | hx2
        · exact absurd (hx1 ▸ hxne) (by simp [he1])
        · cases t with
          | nil => simp at hx2
          | cons t1 t2 =>
            obtain ⟨K', hK'⟩ := ih (by simp) ⟨x, hx2, hxne⟩
            refine ⟨K' + 7, ?_⟩
            intro st rest0 hh u w
            rw [show u + (K' + 7) = u + K' + 7 from by omega]
            have hargs : run (u + K' + 5) ((w + 1) + 1)
                (.args [notS, .int e1] 0) st =
                some (.ok (.ovs [.native .notP, .int e1]), st) :=
              run_args_cons_step (u + K' + 4) (w + 2) 0 st st st notS
                [.int e1] (.native .notP) [.int e1]
                (run_sym_step (u + K' + 3) w 0 st (("not").data)
                  (.native .notP)
                  (lv_global (u + K' + 3) st rest0 (("not").data)
                    (.native .notP) hh rfl))
                (run_args_cons_step (u + K' + 3) (w + 2) 0 st st st
                  (.int e1) [] (.int e1) []
                  (run_int_step (u + K' + 2) (w + 1) 0 st e1)
                  (run_args_nil_step (u + K' + 2) (w + 2) 0 st))
            have h_not : run (u + K' + 6) (w + 2)
                (.one (L [notS, .int e1]) 0) st =
                some (.ok (.ov (.bool true)), st) :=
              (run_app_prim_step (u + K' + 5) (w + 1) 0 st st notS
                [.int e1] Prim.notP [.int e1] rfl rfl rfl rfl rfl rfl rfl
                (by decide) hargs).trans
                (by simp [applyPrim, Except.map, truthy, he1])
            have hIf := run_if_step (u + K' + 6) (w + 2) 0 st
              (L [notS, .int e1]) (orExpand (e2 :: t1 :: t2)) (.bool true)
            rw [h_not] at hIf
            have hTail := hK' st rest0 hh (u + 6) w
            rw [show u + 6 + K' = u + K' + 6 from by omega] at hTail
            exact hIf.trans hTail
      · refine ⟨7, ?_⟩
        intro st rest0 hh u w
        have hargs : run (u + 5) ((w + 1) + 1)
            (.args [notS, .int e1] 0) st =
            some (.ok (.ovs [.native .notP, .int e1]), st) :=
          run_args_cons_step (u + 4) (w + 2) 0 st st st notS
            [.int e1] (.native .notP) [.int e1]
            (run_sym_step (u + 3) w 0 st (("not").data) (.native .notP)
              (lv_global (u + 3) st rest0 (("not").data)
                (.native .notP) hh rfl))
            (run_args_cons_step (u + 3) (w + 2) 0 st st st
              (.int e1) [] (.int e1) []
              (run_int_step (u + 2) (w + 1) 0 st e1)
              (run_args_nil_step (u + 2) (w + 2) 0 st))
        have h_not : run (u + 6) (w + 2)
            (.one (L [notS, .int e1]) 0) st =
            some (.ok (.ov (.bool false)), st) :=
          (run_app_prim_step (u + 5) (w + 1) 0 st st notS
            [.int e1] Prim.notP [.int e1] rfl rfl rfl rfl rfl rfl rfl
            (by decide) hargs).trans
            (by simp [applyPrim, Except.map, truthy, he1])
        have hIf := run_if_step (u + 6) (w + 2) 0 st
          (L [notS, .int e1]) (orExpand (e2 :: t)) (.bool true)
        rw [h_not] at hIf
        exact hIf.trans (run_bool_step (u + 5) (w + 2) 0 st true)

/-- Evaluating the expanded `and` chain over integer literals when some
non-final literal is zero (falsy) yields the boolean `#f` — not the
literal itself — at a constant stack depth, leaving the state
unchanged. -/
lemma andExpand_eval (es : List Int) : 2 ≤ es.length →
    (∃ x ∈ es.dropLast, x = 0) →
    ∃ K, ∀ (st : IState) (rest0 : List Frame), st.heap = g0 :: rest0 →
      ∀ u w, run (u + K) (w + 3) (.one (andExpand es) 0) st =
        some (.ok (.ov (.bool false)), st) := by
  induction es with
  | nil => intro h _; simp at h
  | cons e1 rest ih =>
    intro hlen hwit
    cases rest with
    | nil => simp at hlen
    | cons e2 t =>
      by_cases he1 : e1 = 0
      · refine ⟨3, ?_⟩
        intro st rest0 hh u w
        have hIf := run_if_step (u + 2) (w + 2) 0 st
          (.int e1) (andExpand (e2 :: t)) (.bool false)
        rw [run_int_step (u + 1) (w + 1) 0 st e1] at hIf
        have hAlt : run (u + 2) ((w + 2) + 1)
            (.one (if truthy (.int e1) then andExpand (e2 :: t)
              else .bool false) 0) st =
            some (.ok (.ov (.bool false)), st) := by
          rw [show truthy (.int e1) = decide (e1 ≠ 0) from rfl, he1]
          exact run_bool_step (u + 1) (w + 2) 0 st false
        exact hIf.trans hAlt
      · obtain ⟨x, hx, hxz⟩ := hwit
        rw [show (e1 :: e2 :: t).dropLast = e1 :: (e2 :: t).dropLast
          from rfl] at hx
        rcases List.mem_cons.mp hx with hx1 | hx2
        · exact absurd (hx1 ▸ hxz) he1
        · cases t with
          | nil => simp at hx2
          | cons t1 t2 =>
            obtain ⟨K', hK'⟩ := ih (by simp) ⟨x, hx2, hxz⟩
            refine ⟨K' + 3, ?_⟩
            intro st rest0 hh u w
            rw [show u + (K' + 3) = u + K' + 3 from by omega]
            have hIf := run_if_step (u + K' + 2) (w + 2) 0 st
              (.int e1) (andExpand (e2 :: t1 :: t2)) (.bool false)
            rw [run_int_step (u + K' + 1) (w + 1) 0 st e1] at hIf
            have hTail := hK' st rest0 hh (u + 2) w
            rw [show u + 2 + K' = u + K' + 2 from by omega] at hTail
            have hCons : run (u + K' + 2) ((w + 2) + 1)
                (.one (if truthy (.int e1) then andExpand (e2 :: t1 :: t2)
                  else .bool false) 0) st =
                some (.ok (.ov (.bool false)), st) := by
              rw [show truthy (.int e1) = decide (e1 ≠ 0) from rfl,
                decide_eq_true (by exact he1)]
              exact hTail
            exact hIf.trans hCons

end LispyPy

namespace LispyPy

/-- C10: the builtin `or` macro expands a call with two or more
arguments to `(if (not e1) (or e2 ...) #t)`, so when some argument
before the last evaluates truthy the whole form yields the boolean
`#t` rather than that argument's own value (shown for all integer
literal arguments with a nonzero non-final literal); symmetrically,
the `and` macro expands to `(if e1 (and e2 ...) #f)`, so a falsy
non-final argument makes the form yield `#f` rather than that
argument's value (shown for all integer literal arguments with a
zero non-final literal). -/
theorem C10_or_and_boolean_results :
    (∀ (a b : Val) (t : List Val) (st1 : IState) (rest : List Frame)
      (r : Nat), st1.heap = g0 :: rest →
      st1.heap.get? r = some (argsFrame (a :: b :: t)) →
      ∀ u w, run (u + 30) (w + 10) (.one orMacBody r) st1 =
        some (.ok (.ov (L [ifS, L [notS, a], .list (orS :: b :: t),
          .bool true])), st1)) ∧
    (∀ es : List Int, 2 ≤ es.length → (∃ x ∈ es.dropLast, x ≠ 0) →
      ∃ F, runValue F (.list (orS :: es.map .int)) stBoot =
        some (.ok (.bool true))) ∧
    (∀ (a b : Val) (t : List Val) (st1 : IState) (rest : List Frame)
      (r : Nat), st1.heap = g0 :: rest →
      st1.heap.get? r = some (argsFrame (a :: b :: t)) →
      ∀ u w, run (u + 30) (w + 10) (.one andMacBody r) st1 =
        some (.ok (.ov (L [ifS, a, .list (andS :: b :: t),
          .bool false])), st1)) ∧
    (∀ es : List Int, 2 ≤ es.length → (∃ x ∈ es.dropLast, x = 0) →
      ∃ F, runValue F (.list (andS :: es.map .int)) stBoot =
        some (.ok (.bool false))) := by
  refine ⟨fun a b t st1 rest r hh hr => orBody_eval a b t st1 rest r hh hr,
    ?_, fun a b t st1 rest r hh hr => andBody_eval a b t st1 rest r hh hr,
    ?_⟩
  · intro es hlen hwit
    obtain ⟨K, hK⟩ := orExpand_ok es (by intro h; subst h; simp at hlen)
    obtain ⟨K2, hK2⟩ := orExpand_eval es hlen hwit
    obtain ⟨st', rest', hxp, hh', hmt'⟩ :=
      hK true stBoot [] stBoot_heap rfl (K2 + 3)
    refine ⟨K2 + 3 + K, ?_⟩
    have hrun := hK2 st' rest' hh' (K + 3) (K + K2)
    rw [show K + 3 + K2 = K2 + 3 + K from by omega,
        show K + K2 + 3 = K2 + 3 + K from by omega] at hrun
    simp [runValue, parseEvalTop, hxp, evalIn, hrun, outVal, Except.map]
  · intro es hlen hwit
    obtain ⟨K, hK⟩ := andExpand_ok es (by intro h; subst h; simp at hlen)
    obtain ⟨K2, hK2⟩ := andExpand_eval es hlen hwit
    obtain ⟨st', rest', hxp, hh', hmt'⟩ :=
      hK true stBoot [] stBoot_heap rfl (K2 + 3)
    refine ⟨K2 + 3 + K, ?_⟩
    have hrun := hK2 st' rest' hh' (K + 3) (K + K2)
    rw [show K + 3 + K2 = K2 + 3 + K from by omega,
        show K + K2 + 3 = K2 + 3 + K from by omega] at hrun
    simp [runValue, parseEvalTop, hxp, evalIn, hrun, outVal, Except.map]

/-- Concrete instances of C10: `(or 1 2)` yields `#t` (not `1`) and
`(and 0 5)` yields `#f` (not `0`). -/
theorem C10_or_and_boolean_results_witness :
    (∃ F, runValue F (.list (orS :: ([1, 2] : List Int).map .int)) stBoot =
      some (.ok (.bool true))) ∧
    (∃ F, runValue F (.list (andS :: ([0, 5] : List Int).map .int)) stBoot =
      some (.ok (.bool false))) :=
  ⟨C10_or_and_boolean_results.2.1 [1, 2] (by decide) (by decide),
   C10_or_and_boolean_results.2.2.2 [0, 5] (by decide) (by decide)⟩

end LispyPy

namespace LispyPy

def loopName : List Char := ("loop").data

def nName : List Char := ("n").data

def loopSy : Val := .sym loopName

def nSy : Val := .sym nName

def subS : Val := .sym (("-").data)

/-- Body of the counting loop:
`(if (= n 0) 42 (loop (- n 1)))` — the self-application is in tail
position. -/
def loopBody : Val :=
  L [ifS, L [numEqS, nSy, .int 0], .int 42, L [loopSy, L [subS, nSy, .int 1]]]

/-- `(define loop (lambda (n) (if (= n 0) 42 (loop (- n 1)))))`. -/
def defLoop : Val := L [defineS, loopSy, L [lambdaS, .list [nSy], loopBody]]

def loopClosure : Val := .closure (.list [nSy]) loopBody 0

/-- The global frame after defining `loop`. -/
def gLoop : Frame := ⟨aset g0.storage loopName loopClosure, Option.none⟩

/-- The interpreter state after evaluating `defLoop` in `st0`. -/
def stLoop : IState := ⟨[gLoop], [], 0⟩

/-- The call frame of one `loop` iteration: `n` bound to `k`. -/
def loopFrame (k : Int) : Frame := ⟨[(nName, .int k)], some 0⟩

/-- Variable resolution through `outer` into an arbitrary frame at
reference 0 (generalizes the `g0` case). -/
lemma lv_outer_frame (u : Nat) (st : IState) (r : Nat) (fr g : Frame)
    (rest : List Frame) (name : List Char) (v : Val)
    (hh : st.heap = g :: rest) (hr : st.heap.get? r = some fr)
    (hout : fr.outer = some 0)
    (hla : alook fr.storage name = Option.none)
    (hgv : alook g.storage name = some v) :
    lookupVar (u + 2) st r name = some (.ok v) := by
  have hr' : st.heap[r]? = some fr := by simpa using hr
  have hg' : st.heap[0]? = some g := by simp [hh]
  simp [lookupVar, findRef, hr', hla, hout, hg', hgv]

/-- Evaluating the body of `loop` with `n = k` terminates with `42` at
stack depth `w + 3` for EVERY `w` — the bound is independent of the
iteration count `k`; only the fuel (a totality artifact of the
embedding, not a Python resource) grows with `k`. -/
lemma loopBody_eval (k : Nat) :
    ∃ K, ∀ (st : IState) (rest : List Frame) (r : Nat) (w u : Nat),
      st.heap = gLoop :: rest →
      st.heap.get? r = some (loopFrame (k : Int)) →
      ∃ st', run (u + K) (w + 3) (.one loopBody r) st =
        some (.ok (.ov (.int 42)), st') := by
  induction k with
  | zero =>
    refine ⟨7, ?_⟩
    intro st rest r w u hh hr
    refine ⟨st, ?_⟩
    have hargs : run (u + 5) ((w + 1) + 1)
        (.args [numEqS, nSy, .int 0] r) st =
        some (.ok (.ovs [.native .numEq, .int 0, .int 0]), st) :=
      run_args_cons_step (u + 4) (w + 2) r st st st numEqS [nSy, .int 0]
        (.native .numEq) [.int 0, .int 0]
        (run_sym_step (u + 3) w r st (("=").data) (.native .numEq)
          (lv_outer_frame (u + 2) st r (loopFrame 0) gLoop rest
            (("=").data) (.native .numEq) hh hr rfl rfl rfl))
        (run_args_cons_step (u + 3) (w + 2) r st st st nSy [.int 0]
          (.int 0) [.int 0]
          (run_sym_step (u + 2) w r st nName (.int 0)
            (lv_local (u + 2) st r (loopFrame 0) nName (.int 0) hr rfl))
          (run_args_cons_step (u + 2) (w + 2) r st st st (.int 0) []
            (.int 0) []
            (run_int_step (u + 1) w r st 0)
            (run_args_nil_step (u + 1) (w + 2) r st)))
    have h_test : run (u + 6) (w + 2)
        (.one (L [numEqS, nSy, .int 0]) r) st =
        some (.ok (.ov (.bool true)), st) :=
      (run_app_prim_step (u + 5) (w + 1) r st st numEqS [nSy, .int 0]
        Prim.numEq [.int 0, .int 0] rfl rfl rfl rfl rfl rfl rfl
        (by decide) hargs).trans
        (by simp [applyPrim, Except.map, pyEq_int])
    have hIf := run_if_step (u + 6) (w + 2) r st
      (L [numEqS, nSy, .int 0]) (.int 42) (L [loopSy, L [subS, nSy, .int 1]])
    rw [h_test] at hIf
    exact hIf.trans (run_int_step (u + 5) (w + 2) r st 42)
  | succ k ih =>
    obtain ⟨K', hK'⟩ := ih
    refine ⟨K' + 9, ?_⟩
    intro st rest r w u hh hr
    rw [show u + (K' + 9) = u + K' + 9 from by omega]
    have hargsT : run (u + K' + 7) ((w + 1) + 1)
        (.args [numEqS, nSy, .int 0] r) st =
        some (.ok (.ovs [.native .numEq, .int ((k : Int) + 1), .int 0]), st) :=
      run_args_cons_step (u + K' + 6) (w + 2) r st st st numEqS [nSy, .int 0]
        (.native .numEq) [.int ((k : Int) + 1), .int 0]
        (run_sym_step (u + K' + 5) w r st (("=").data) (.native .numEq)
          (lv_outer_frame (u + K' + 4) st r (loopFrame ((k : Int) + 1)) gLoop
            rest (("=").data) (.native .numEq) hh (by simpa using hr)
            rfl rfl rfl))
        (run_args_cons_step (u + K' + 5) (w + 2) r st st st nSy [.int 0]
          (.int ((k : Int) + 1)) [.int 0]
          (run_sym_step (u + K' + 4) w r st nName (.int ((k : Int) + 1))
            (lv_local (u + K' + 4) st r (loopFrame ((k : Int) + 1)) nName
              (.int ((k : Int) + 1)) (by simpa using hr) rfl))
          (run_args_cons_step (u + K' + 4) (w + 2) r st st st (.int 0) []
            (.int 0) []
            (run_int_step (u + K' + 3) w r st 0)
            (run_args_nil_step (u + K' + 3) (w + 2) r st)))
    have h_test : run (u + K' + 8) (w + 2)
        (.one (L [numEqS, nSy, .int 0]) r) st =
        some (.ok (.ov (.bool false)), st) :=
      (run_app_prim_step (u + K' + 7) (w + 1) r st st numEqS [nSy, .int 0]
        Prim.numEq [.int ((k : Int) + 1), .int 0] rfl rfl rfl rfl rfl rfl rfl
        (by decide) hargsT).trans
        (by simp [applyPrim, Except.map, pyEq_int]; omega)
    have hIf := run_if_step (u + K' + 8) (w + 2) r st
      (L [numEqS, nSy, .int 0]) (.int 42) (L [loopSy, L [subS, nSy, .int 1]])
    rw [h_test] at hIf
    have hSub : run (u + K' + 5) (w + 2)
        (.one (L [subS, nSy, .int 1]) r) st =
        some (.ok (.ov (.int (k : Int))), st) :=
      (run_app_prim_step (u + K' + 4) (w + 1) r st st subS [nSy, .int 1]
        Prim.sub [.int ((k : Int) + 1), .int 1] rfl rfl rfl rfl rfl rfl rfl
        (by decide)
        (run_args_cons_step (u + K' + 3) (w + 2) r st st st subS [nSy, .int 1]
          (.native .sub) [.int ((k : Int) + 1), .int 1]
          (run_sym_step (u + K' + 2) w r st (("-").data) (.native .sub)
            (lv_outer_frame (u + K' + 1) st r (loopFrame ((k : Int) + 1)) gLoop
              rest (("-").data) (.native .sub) hh (by simpa using hr)
              rfl rfl rfl))
          (run_args_cons_step (u + K' + 2) (w + 2) r st st st nSy [.int 1]
            (.int ((k : Int) + 1)) [.int 1]
            (run_sym_step (u + K' + 1) w r st nName (.int ((k : Int) + 1))
              (lv_local (u + K' + 1) st r (loopFrame ((k : Int) + 1)) nName
                (.int ((k : Int) + 1)) (by simpa using hr) rfl))
            (run_args_cons_step (u + K' + 1) (w + 2) r st st st (.int 1) []
              (.int 1) []
              (run_int_step (u + K') w r st 1)
              (run_args_nil_step (u + K') (w + 2) r st))))).trans
        (by simp [applyPrim, numOf, Except.map])
    have hargsA : run (u + K' + 7) ((w + 2) + 1)
        (.args [loopSy, L [subS, nSy, .int 1]] r) st =
        some (.ok (.ovs [loopClosure, .int (k : Int)]), st) :=
      run_args_cons_step (u + K' + 6) (w + 3) r st st st loopSy
        [L [subS, nSy, .int 1]] loopClosure [.int (k : Int)]
        (run_sym_step (u + K' + 5) (w + 1) r st loopName loopClosure
          (lv_outer_frame (u + K' + 4) st r (loopFrame ((k : Int) + 1)) gLoop
            rest loopName loopClosure hh (by simpa using hr) rfl rfl rfl))
        (run_args_cons_step (u + K' + 5) (w + 3) r st st st
          (L [subS, nSy, .int 1]) [] (.int (k : Int)) []
          hSub
          (run_args_nil_step (u + K' + 5) (w + 3) r st))
    have happ := run_app_closure_step (u + K' + 7) (w + 2) r st st loopSy
      [L [subS, nSy, .int 1]] (.list [nSy]) loopBody 0 [.int (k : Int)]
      (loopFrame (k : Int)) rfl rfl rfl rfl rfl rfl rfl hargsA rfl
    obtain ⟨st', hbody⟩ := hK' { st with heap := st.heap ++ [loopFrame (k : Int)] }
      (rest ++ [loopFrame (k : Int)]) st.heap.length w (u + 7)
      (by simp [hh])
      (List.get?_concat_length st.heap (loopFrame (k : Int)))
    rw [show u + 7 + K' = u + K' + 7 from by omega] at hbody
    exact ⟨st', hIf.trans (happ.trans hbody)⟩

end LispyPy

namespace LispyPy

/-- C1: tail-call boundedness for a self-recursive closure.  First,
defining the counting loop yields state `stLoop`.  Second, applying any
closure transitions the machine from the application form at eval
nesting depth `sk + 1` to the closure's body at the SAME depth
`sk + 1` with only the current form and environment replaced — the
trampoline's tail-call elimination point (a nested `eval` call would
drop to depth `sk`).  Third, calling `(loop n)` therefore terminates
with `42` within eval nesting depth `w + 3` for EVERY `w`, a constant
bound independent of the iteration count `n`; only the fuel (a
totality artifact of the embedding) depends on `n`. -/
theorem C1_tail_call_constant_stack :
    (∀ u w, run (u + 2) (w + 2) (.one defLoop 0) st0 =
      some (.ok (.ov .none), stLoop)) ∧
    (∀ (f sk env : Nat) (st st1 : IState) (h0 : Val) (tl : List Val)
      (ps body : Val) (cenv : Nat) (asv : List Val) (fr : Frame),
      symIs h0 quoteS = false → symIs h0 ifS = false →
      symIs h0 condS = false → symIs h0 setS = false →
      symIs h0 defineS = false → symIs h0 lambdaS = false →
      symIs h0 beginS = false →
      run f (sk + 1) (.args (h0 :: tl) env) st =
        some (.ok (.ovs (.closure ps body cenv :: asv)), st1) →
      bindFrame ps asv (some cenv) = .ok fr →
      run (f + 1) (sk + 1) (.one (.list (h0 :: tl)) env) st =
        run f (sk + 1) (.one body st1.heap.length)
          { st1 with heap := st1.heap ++ [fr] }) ∧
    (∀ (n : Nat) (w : Nat), ∃ (K : Nat) (st' : IState),
      run K (w + 3) (.one (L [loopSy, .int (n : Int)]) 0) stLoop =
        some (.ok (.ov (.int 42)), st')) := by
  refine ⟨fun u w => rfl,
    fun f sk env st st1 h0 tl ps body cenv asv fr hq hi hc hs hd hl hb
      hargs hbind =>
      run_app_closure_step f sk env st st1 h0 tl ps body cenv asv fr
        hq hi hc hs hd hl hb hargs hbind, ?_⟩
  intro n w
  obtain ⟨K', hK'⟩ := loopBody_eval n
  have hargs : run (K' + 4) ((w + 2) + 1)
      (.args [loopSy, .int (n : Int)] 0) stLoop =
      some (.ok (.ovs [loopClosure, .int (n : Int)]), stLoop) :=
    run_args_cons_step (K' + 3) (w + 3) 0 stLoop stLoop stLoop loopSy
      [.int (n : Int)] loopClosure [.int (n : Int)]
      (run_sym_step (K' + 2) (w + 1) 0 stLoop loopName loopClosure
        (lv_local (K' + 2) stLoop 0 gLoop loopName loopClosure rfl rfl))
      (run_args_cons_step (K' + 2) (w + 3) 0 stLoop stLoop stLoop
        (.int (n : Int)) [] (.int (n : Int)) []
        (run_int_step (K' + 1) (w + 1) 0 stLoop (n : Int))
        (run_args_nil_step (K' + 1) (w + 3) 0 stLoop))
  have happ := run_app_closure_step (K' + 4) (w + 2) 0 stLoop stLoop loopSy
    [.int (n : Int)] (.list [nSy]) loopBody 0 [.int (n : Int)]
    (loopFrame (n : Int)) rfl rfl rfl rfl rfl rfl rfl hargs rfl
  obtain ⟨st', hbody⟩ := hK'
    { stLoop with heap := stLoop.heap ++ [loopFrame (n : Int)] }
    [loopFrame (n : Int)] stLoop.heap.length w 4 rfl rfl
  rw [show 4 + K' = K' + 4 from by omega] at hbody
  exact ⟨K' + 5, st', happ.trans hbody⟩

/-- Concrete instance of the tail-transition shape of C1: applying
`loop` to `5` at depth 3 continues in the body at the SAME depth 3
with the new frame pushed. -/
theorem C1_tail_call_constant_stack_witness :
    run 6 3 (.one (.list [loopSy, .int 5]) 0) stLoop =
      run 5 3 (.one loopBody 1)
        { stLoop with heap := stLoop.heap ++ [loopFrame 5] } :=
  C1_tail_call_constant_stack.2.1 5 2 0 stLoop stLoop loopSy [.int 5]
    (.list [nSy]) loopBody 0 [.int 5] (loopFrame 5)
    rfl rfl rfl rfl rfl rfl rfl rfl rfl

end LispyPy

namespace LispyPy

/-- C4 counterexample: the Reader produces the two-character string
value `\"` from the four-character text `"\""` (atom strips only the
outer quotes and does NOT decode the backslash escape), but
`to_string` re-escapes the bare `"`, so the printed text re-reads as
the two-character string `\\` — a different value.  Round-trip fails
for a Reader-producible value. -/
theorem C4_counterexample :
    readTop 9 [[dqC, '\\', dqC, dqC]] =
      some (.ok (.str ['\\', dqC])) ∧
    readTop 9 [toStr (.str ['\\', dqC])] =
      some (.ok (.str ['\\', '\\'])) ∧
    Val.str ['\\', dqC] ≠ Val.str ['\\', '\\'] := by
  refine ⟨rfl, rfl, ?_⟩
  intro h
  injection h with h1
  exact absurd h1 (by decide)

end LispyPy

namespace LispyPy

/-- String contents that survive the print/read round trip: every
backslash starts a two-character escape unit (as in Reader-produced
strings) and the double-quote character does not occur at all (since
`atom` does not decode the `\"` that `to_string` would produce). -/
def strOk : List Char → Bool
  | [] => true
  | c :: r =>
    if c = dqC then false
    else if c = '\\' then
      match r with
      | [] => false
      | d :: r2 => !(d = dqC) && strOk r2
    else strOk r

/-- Symbol names that survive the round trip: nonempty runs of
non-delimiter, non-whitespace characters that `atom` classifies back
as a Symbol (not `#t`/`#f`, not an `int`, not a `float`). -/
def symOk (t : List Char) : Bool :=
  !t.isEmpty && t.all (fun c => rawCh c && !pyWs c) &&
    !(t = ("#t").data) && !(t = ("#f").data) &&
    (pyIntParse t).isNone && !pyFloatOk t

/-- Float tokens that survive the round trip (floats are abstracted by
their token, so the trip is exact for them). -/
def ftOk (t : List Char) : Bool :=
  !t.isEmpty && t.all (fun c => rawCh c && !pyWs c) &&
    !(t = ("#t").data) && !(t = ("#f").data) &&
    (pyIntParse t).isNone && pyFloatOk t

mutual

/-- The amended round-trip family: Reader-producible values excluding
strings that contain the double-quote character and symbols that
contain whitespace or delimiter characters. -/
def rt : Val → Bool
  | .bool _ => true
  | .int _ => true
  | .float tok => ftOk tok
  | .str s => strOk s
  | .sym s => symOk s
  | .list xs => rtL xs
  | _ => false

def rtL : List Val → Bool
  | [] => true
  | x :: r => rt x && rtL r

end

mutual

/-- Structural size used for the round-trip induction. -/
def vsize : Val → Nat
  | .list xs => vsizeL xs + 1
  | _ => 1

def vsizeL : List Val → Nat
  | [] => 0
  | x :: r => vsize x + vsizeL r

end

/-- Remainders at which a token may legally end: end of line, or a
close paren or space (the separators `to_string` emits). -/
def stopOk (rest : List Char) : Prop :=
  rest = [] ∨ ((rest.head? = some ')' ∨ rest.head? = some ' ') ∧
    ∀ c, rest.getLast? = some c → pyWs c = false)

lemma vsize_pos : ∀ v, 1 ≤ vsize v := by
  intro v
  cases v <;> simp [vsize]

lemma vsize_le_of_mem : ∀ (xs : List Val) (x : Val), x ∈ xs →
    vsize x ≤ vsizeL xs := by
  intro xs
  induction xs with
  | nil => intro x hx; simp at hx
  | cons a m ih =>
    intro x hx
    rcases List.mem_cons.mp hx with h | h
    · subst h; simp [vsizeL]
    · have := ih x h
      simp [vsizeL]
      omega

lemma rtL_mem : ∀ (xs : List Val) (x : Val), rtL xs = true → x ∈ xs →
    rt x = true := by
  intro xs
  induction xs with
  | nil => intro x _ hx; simp at hx
  | cons a m ih =>
    intro x hall hx
    simp only [rtL, Bool.and_eq_true] at hall
    rcases List.mem_cons.mp hx with h | h
    · subst h; exact hall.1
    · exact ih x hall.2 h

/-- `to_string` leaves round-trip-safe string contents unchanged (no
double quote to escape). -/
lemma escQuotes_of_strOk : ∀ s, strOk s = true → escQuotes s = s := by
  intro s
  induction s using strOk.induct with
  | case1 => intro _; rfl
  | case2 r2 =>
    intro h
    rw [strOk.eq_def] at h
    simp at h
  | case3 h1 =>
    intro h
    rw [strOk.eq_def] at h
    simp [dqC] at h
  | case4 d r2 h1 ih =>
    intro h
    rw [strOk.eq_def] at h
    simp [dqC] at h
    simp [escQuotes, dqC, h.1, ih h.2]
  | case5 d r2 h1 h2 ih =>
    intro h
    rw [strOk.eq_def] at h
    simp [h1, h2] at h
    simp [escQuotes, h1, ih h]

/-- The string-alternative scanner recovers exactly a round-trip-safe
content before the closing quote. -/
lemma scanStr_of_strOk : ∀ s, strOk s = true → ∀ rest,
    scanStr (s ++ dqC :: rest) = some (s, rest) := by
  intro s
  induction s using strOk.induct with
  | case1 =>
    intro _ rest
    rw [List.nil_append, scanStr.eq_def]
    simp
  | case2 r2 =>
    intro h
    rw [strOk.eq_def] at h
    simp at h
  | case3 h1 =>
    intro h
    rw [strOk.eq_def] at h
    simp [dqC] at h
  | case4 d r2 h1 ih =>
    intro h rest
    rw [strOk.eq_def] at h
    simp [dqC] at h
    rw [show ('\\' :: d :: r2) ++ dqC :: rest =
      '\\' :: d :: (r2 ++ dqC :: rest) from rfl, scanStr.eq_def]
    have ih2 : scanStr (r2 ++ '"' :: rest) = some (r2, rest) := ih h.2 rest
    simp [dqC, h.1, ih2]
  | case5 d r2 h1 h2 ih =>
    intro h rest
    rw [strOk.eq_def] at h
    simp [h1, h2] at h
    rw [show (d :: r2) ++ dqC :: rest = d :: (r2 ++ dqC :: rest) from rfl,
      scanStr.eq_def]
    have ih2 : scanStr (r2 ++ '"' :: rest) = some (r2, rest) := ih h rest
    have h1b : ¬d = '"' := h1
    simp [dqC, h1b, h2, ih2]

end LispyPy

namespace LispyPy

lemma matchTok_open (tail : List Char) :
    matchTok ('(' :: tail) = (['('], tail) := by
  have hdrop : ('(' :: tail).dropWhile (fun c => c = ' ') = '(' :: tail := by
    rw [List.dropWhile_cons, if_neg (by decide)]
  simp only [matchTok, hdrop]
  rw [if_neg (by decide), if_pos (by decide)]

lemma matchTok_close (tail : List Char) :
    matchTok (')' :: tail) = ([')'], tail) := by
  have hdrop : (')' :: tail).dropWhile (fun c => c = ' ') = ')' :: tail := by
    rw [List.dropWhile_cons, if_neg (by decide)]
  simp only [matchTok, hdrop]
  rw [if_neg (by decide), if_pos (by decide)]

lemma matchTok_str (s rest' : List Char) (hs : strOk s = true) :
    matchTok ((dqC :: s ++ [dqC]) ++ rest') =
      (dqC :: s ++ [dqC], rest') := by
  have hdrop : ((dqC :: s ++ [dqC]) ++ rest').dropWhile (fun c => c = ' ') =
      dqC :: (s ++ [dqC] ++ rest') := by
    rw [show (dqC :: s ++ [dqC]) ++ rest' =
      dqC :: (s ++ [dqC] ++ rest') from by simp, List.dropWhile_cons,
      if_neg (by decide)]
  have hscan : scanStr (s ++ [dqC] ++ rest') = some (s, rest') := by
    rw [List.append_assoc, List.singleton_append]
    exact scanStr_of_strOk s hs rest'
  simp only [matchTok, hdrop, hscan]
  simp [dqC, qteC, bqC]

lemma nextToken_open (f : Nat) (tail : List Char) (lines : List (List Char))
    (hlast : ∀ c, ('(' :: tail).getLast? = some c → pyWs c = false) :
    nextToken (f + 1) ('(' :: tail, lines) =
      some (.tk ['('], (tail, lines)) := by
  have hstrip : pyStrip ('(' :: tail) = '(' :: tail := by
    refine pyStrip_eq_self _ ?_ hlast
    intro c hc
    simp only [List.head?_cons, Option.some.injEq] at hc
    rw [← hc]
    rfl
  simp only [nextToken, List.isEmpty_cons, hstrip, matchTok_open]
  simp

lemma nextToken_close (f : Nat) (tail : List Char) (lines : List (List Char))
    (hlast : ∀ c, (')' :: tail).getLast? = some c → pyWs c = false) :
    nextToken (f + 1) (')' :: tail, lines) =
      some (.tk [')'], (tail, lines)) := by
  have hstrip : pyStrip (')' :: tail) = ')' :: tail := by
    refine pyStrip_eq_self _ ?_ hlast
    intro c hc
    simp only [List.head?_cons, Option.some.injEq] at hc
    rw [← hc]
    rfl
  simp only [nextToken, List.isEmpty_cons, hstrip, matchTok_close]
  simp

lemma nextToken_str (f : Nat) (s rest' : List Char) (lines : List (List Char))
    (hs : strOk s = true)
    (hlast : ∀ c, ((dqC :: s ++ [dqC]) ++ rest').getLast? = some c →
      pyWs c = false) :
    nextToken (f + 1) ((dqC :: s ++ [dqC]) ++ rest', lines) =
      some (.tk (dqC :: s ++ [dqC]), (rest', lines)) := by
  have hstrip : pyStrip ((dqC :: s ++ [dqC]) ++ rest') =
      (dqC :: s ++ [dqC]) ++ rest' := by
    refine pyStrip_eq_self _ ?_ hlast
    intro c hc
    simp only [List.cons_append, List.head?_cons, Option.some.injEq] at hc
    rw [← hc]
    rfl
  have hmatch := matchTok_str s rest' hs
  simp only [nextToken, List.cons_append, List.isEmpty_cons, List.append_ne_nil_of_left_ne_nil]
  simp only [← List.cons_append] at hstrip ⊢
  rw [hstrip, hmatch]
  simp [show dqC ≠ ';' from by decide]

lemma pyStrip_cons_space (l : List Char) : pyStrip (' ' :: l) = pyStrip l := by
  unfold pyStrip
  rw [List.dropWhile_cons, if_pos (by decide)]

lemma nextToken_drop_space (f : Nat) (l : List Char)
    (lines : List (List Char)) (hl : l ≠ []) :
    nextToken (f + 1) (' ' :: l, lines) = nextToken (f + 1) (l, lines) := by
  have hne : l.isEmpty = false := by simp [hl]
  simp only [nextToken, List.isEmpty_cons, hne, pyStrip_cons_space]

lemma last_not_ws_app (a b : List Char)
    (ha : ∀ c, a.getLast? = some c → pyWs c = false)
    (hb : ∀ c, b.getLast? = some c → pyWs c = false) :
    ∀ c, (a ++ b).getLast? = some c → pyWs c = false := by
  intro c hc
  cases b with
  | nil => rw [List.append_nil] at hc; exact ha c hc
  | cons x y =>
    rw [List.getLast?_append_of_ne_nil a (List.cons_ne_nil x y)] at hc
    exact hb c hc

end LispyPy

namespace LispyPy

lemma digitChar_toNat (d : Nat) (h : d < 10) :
    (digitChar d).toNat - 48 = d := by
  interval_cases d <;> decide

lemma digitChar_isDigit (d : Nat) (h : d < 10) :
    (digitChar d).isDigit = true := by
  interval_cases d <;> decide

lemma digit_not_ws (c : Char) (h : c.isDigit = true) : pyWs c = false := by
  cases hpw : pyWs c with
  | false => rfl
  | true =>
    exfalso
    simp only [pyWs, Bool.or_eq_true, decide_eq_true_eq] at hpw
    rcases hpw with ((((h1 | h1) | h1) | h1) | h1) | h1 <;> subst h1 <;>
      exact absurd h (by decide)

lemma digit_rawCh (c : Char) (h : c.isDigit = true) : rawCh c = true := by
  simp only [rawCh, Bool.not_eq_true', Bool.or_eq_false_iff,
    decide_eq_false_iff_not]
  refine ⟨⟨⟨⟨⟨⟨⟨?_, ?_⟩, ?_⟩, ?_⟩, ?_⟩, ?_⟩, ?_⟩, ?_⟩ <;>
    · intro heq
      rw [heq] at h
      exact absurd h (by decide)

lemma natChars_ne_nil (n : Nat) : natChars n ≠ [] := by
  by_cases hn : n = 0
  · subst hn; decide
  · rw [natChars, if_neg hn]
    simp [Nat.digits_ne_nil_iff_ne_zero.mpr hn]

lemma natChars_all_digits (n : Nat) :
    ∀ c ∈ natChars n, c.isDigit = true := by
  by_cases hn : n = 0
  · subst hn; intro c hc; simp [natChars] at hc; subst hc; decide
  · rw [natChars, if_neg hn]
    intro c hc
    simp only [List.mem_map, List.mem_reverse] at hc
    obtain ⟨d, hd, rfl⟩ := hc
    exact digitChar_isDigit d (Nat.digits_lt_base (by norm_num) hd)

lemma foldl_digits (ds : List Nat) (h : ∀ d ∈ ds, d < 10) (a : Nat) :
    ((ds.reverse.map digitChar).foldl
      (fun a c => a * 10 + (c.toNat - 48)) a) =
      a * 10 ^ ds.length + Nat.ofDigits 10 ds := by
  induction ds generalizing a with
  | nil => simp [Nat.ofDigits]
  | cons d t ih =>
    have hd := h d (List.mem_cons_self d t)
    rw [List.reverse_cons, List.map_append, List.foldl_append,
      ih (fun x hx => h x (List.mem_cons_of_mem d hx)) a]
    simp only [List.map_cons, List.map_nil, List.foldl_cons, List.foldl_nil,
      digitChar_toNat d hd, Nat.ofDigits_cons, List.length_cons]
    ring

lemma digitsVal_cons (c : Char) (t : List Char) :
    digitsVal (c :: t) =
      if (c :: t).all (fun c => c.isDigit) then
        some ((c :: t).foldl (fun a c => a * 10 + (c.toNat - 48)) 0)
      else Option.none := rfl

lemma digitsVal_natChars (n : Nat) : digitsVal (natChars n) = some n := by
  by_cases hn : n = 0
  · subst hn; decide
  · have hd : natChars n = (Nat.digits 10 n).reverse.map digitChar := by
      rw [natChars, if_neg hn]
    have hlt : ∀ d ∈ Nat.digits 10 n, d < 10 := fun d hd' =>
      Nat.digits_lt_base (by norm_num) hd'
    cases hnc : natChars n with
    | nil => exact absurd hnc (natChars_ne_nil n)
    | cons c t =>
      rw [digitsVal_cons,
        if_pos (List.all_eq_true.mpr (fun c hc =>
          natChars_all_digits n c (hnc ▸ hc))), ← hnc, hd,
        foldl_digits (Nat.digits 10 n) hlt 0]
      simp [Nat.ofDigits_digits]

lemma pyIntParse_digits (l : List Char) (hne : l ≠ [])
    (hall : ∀ c ∈ l, c.isDigit = true) :
    pyIntParse l = (digitsVal l).map Int.ofNat := by
  have hstrip : pyStrip l = l :=
    pyStrip_eq_self l
      (fun c hc => digit_not_ws c (hall c (List.mem_of_mem_head? hc)))
      (fun c hc => digit_not_ws c (hall c (getLast?_mem_list l c hc)))
  unfold pyIntParse
  rw [hstrip]
  split
  · rename_i ds
    exact absurd (hall '+' (List.mem_cons_self _ _)) (by decide)
  · rename_i ds
    exact absurd (hall '-' (List.mem_cons_self _ _)) (by decide)
  · rfl

lemma pyIntParse_intChars : ∀ n : Int, pyIntParse (intChars n) = some n := by
  intro n
  cases n with
  | ofNat m =>
    rw [show intChars (.ofNat m) = natChars m from rfl,
      pyIntParse_digits (natChars m) (natChars_ne_nil m)
        (natChars_all_digits m), digitsVal_natChars m]
    rfl
  | negSucc m =>
    have hstrip : pyStrip ('-' :: natChars (m + 1)) =
        '-' :: natChars (m + 1) := by
      refine pyStrip_eq_self _ ?_ ?_
      · intro c hc
        simp only [List.head?_cons, Option.some.injEq] at hc
        rw [← hc]
        rfl
      · exact last_not_ws_app ['-'] (natChars (m + 1))
          (fun c hc => by simp at hc; rw [← hc]; rfl)
          (fun c hc => digit_not_ws c
            (natChars_all_digits (m + 1) c (getLast?_mem_list _ c hc)))
    rw [show intChars (.negSucc m) = '-' :: natChars (m + 1) from rfl]
    unfold pyIntParse
    rw [hstrip]
    split
    · rename_i ds heq
      exact absurd (List.head_eq_of_cons_eq heq) (by decide)
    · rename_i ds heq
      rw [← List.tail_eq_of_cons_eq heq, digitsVal_natChars (m + 1)]
      simp [Int.negSucc_eq]
    · rename_i h1
      exact absurd rfl (h1 (natChars (m + 1)))

end LispyPy

namespace LispyPy

lemma raw_token_props (t : List Char) (ht : t ≠ [])
    (hc : ∀ c ∈ t, rawCh c = true) :
    t ≠ ['('] ∧ t ≠ [')'] ∧ quoteOf t = Option.none := by
  obtain ⟨a, m, rfl⟩ : ∃ a m, t = a :: m := by
    cases t with
    | nil => exact absurd rfl ht
    | cons a m => exact ⟨a, m, rfl⟩
  obtain ⟨e1, e2, e3, e4, e5, e6, e7, e8⟩ :=
    rawCh_ne a (hc a (List.mem_cons_self a m))
  refine ⟨fun hh => e2 (List.head_eq_of_cons_eq hh),
    fun hh => e8 (List.head_eq_of_cons_eq hh), ?_⟩
  unfold quoteOf
  rw [if_neg (fun hh => e3 (List.head_eq_of_cons_eq hh)),
    if_neg (fun hh => e5 (List.head_eq_of_cons_eq hh)),
    if_neg (fun hh => e6 (List.head_eq_of_cons_eq hh)),
    if_neg (fun hh => e6 (List.head_eq_of_cons_eq hh))]

lemma dq_token_props (inner : List Char) :
    dqC :: inner ≠ ['('] ∧ dqC :: inner ≠ [')'] ∧
      quoteOf (dqC :: inner) = Option.none := by
  refine ⟨fun hh => absurd (List.head_eq_of_cons_eq hh) (by decide),
    fun hh => absurd (List.head_eq_of_cons_eq hh) (by decide), ?_⟩
  unfold quoteOf
  rw [if_neg (fun hh => absurd (List.head_eq_of_cons_eq hh) (by decide)),
    if_neg (fun hh => absurd (List.head_eq_of_cons_eq hh) (by decide)),
    if_neg (fun hh => absurd (List.head_eq_of_cons_eq hh) (by decide)),
    if_neg (fun hh => absurd (List.head_eq_of_cons_eq hh) (by decide))]


lemma symOk_parts (t : List Char) (h : symOk t = true) :
    t ≠ [] ∧ (∀ c ∈ t, rawCh c = true ∧ pyWs c = false) ∧
      t ≠ ("#t").data ∧ t ≠ ("#f").data ∧
      pyIntParse t = Option.none ∧ pyFloatOk t = false := by
  simp only [symOk, Bool.and_eq_true, Bool.not_eq_true',
    decide_eq_false_iff_not, List.all_eq_true,
    Option.isNone_iff_eq_none] at h
  obtain ⟨⟨⟨⟨⟨h1, h2⟩, h3⟩, h4⟩, h5⟩, h6⟩ := h
  refine ⟨?_, ?_, h3, h4, h5, h6⟩
  · intro hh
    rw [hh] at h1
    exact absurd h1 (by decide)
  · intro c hc
    have h7 := h2 c hc
    simp only [Bool.and_eq_true, Bool.not_eq_true'] at h7
    exact h7

lemma ftOk_parts (t : List Char) (h : ftOk t = true) :
    t ≠ [] ∧ (∀ c ∈ t, rawCh c = true ∧ pyWs c = false) ∧
      t ≠ ("#t").data ∧ t ≠ ("#f").data ∧
      pyIntParse t = Option.none ∧ pyFloatOk t = true := by
  simp only [ftOk, Bool.and_eq_true, Bool.not_eq_true',
    decide_eq_false_iff_not, List.all_eq_true,
    Option.isNone_iff_eq_none] at h
  obtain ⟨⟨⟨⟨⟨h1, h2⟩, h3⟩, h4⟩, h5⟩, h6⟩ := h
  refine ⟨?_, ?_, h3, h4, h5, h6⟩
  · intro hh
    rw [hh] at h1
    exact absurd h1 (by decide)
  · intro c hc
    have h7 := h2 c hc
    simp only [Bool.and_eq_true, Bool.not_eq_true'] at h7
    exact h7

lemma atom_sym (t : List Char) (h : symOk t = true) : atom t = .sym t := by
  obtain ⟨h1, h2, h3, h4, h5, h6⟩ := symOk_parts t h
  have hhd : t.head? ≠ some dqC := by
    intro hh
    obtain ⟨a, m, rfl⟩ : ∃ a m, t = a :: m := by
      cases t with
      | nil => exact absurd rfl h1
      | cons a m => exact ⟨a, m, rfl⟩
    simp only [List.head?_cons, Option.some.injEq] at hh
    exact (rawCh_ne a (h2 a (List.mem_cons_self a m)).1).2.2.2.1 hh
  unfold atom
  rw [if_neg h3, if_neg h4, if_neg hhd, h5, if_neg (by simp [h6])]

lemma atom_float (t : List Char) (h : ftOk t = true) : atom t = .float t := by
  obtain ⟨h1, h2, h3, h4, h5, h6⟩ := ftOk_parts t h
  have hhd : t.head? ≠ some dqC := by
    intro hh
    obtain ⟨a, m, rfl⟩ : ∃ a m, t = a :: m := by
      cases t with
      | nil => exact absurd rfl h1
      | cons a m => exact ⟨a, m, rfl⟩
    simp only [List.head?_cons, Option.some.injEq] at hh
    exact (rawCh_ne a (h2 a (List.mem_cons_self a m)).1).2.2.2.1 hh
  unfold atom
  rw [if_neg h3, if_neg h4, if_neg hhd, h5, if_pos h6]

lemma intChars_shape : ∀ n : Int, ∃ c t, intChars n = c :: t ∧
    (c = '-' ∨ c.isDigit = true) ∧ ∀ x ∈ t, x.isDigit = true := by
  intro n
  cases n with
  | ofNat m =>
    obtain ⟨c, t, hct⟩ : ∃ c t, natChars m = c :: t := by
      cases hnc : natChars m with
      | nil => exact absurd hnc (natChars_ne_nil m)
      | cons c t => exact ⟨c, t, rfl⟩
    refine ⟨c, t, hct, Or.inr ?_, fun x hx => ?_⟩
    · exact natChars_all_digits m c (hct ▸ List.mem_cons_self c t)
    · exact natChars_all_digits m x (hct ▸ List.mem_cons_of_mem c hx)
  | negSucc m =>
    exact ⟨'-', natChars (m + 1), rfl, Or.inl rfl,
      fun x hx => natChars_all_digits (m + 1) x hx⟩

lemma intChars_all (n : Int) :
    ∀ c ∈ intChars n, rawCh c = true ∧ pyWs c = false := by
  obtain ⟨c0, t0, hct, hc0, ht0⟩ := intChars_shape n
  intro c hc
  rw [hct] at hc
  rcases List.mem_cons.mp hc with h | h
  · subst h
    rcases hc0 with h1 | h1
    · subst h1; exact ⟨by decide, by decide⟩
    · exact ⟨digit_rawCh c h1, digit_not_ws c h1⟩
  · have := ht0 c h
    exact ⟨digit_rawCh c this, digit_not_ws c this⟩

lemma intChars_ne_nil (n : Int) : intChars n ≠ [] := by
  obtain ⟨c0, t0, hct, _, _⟩ := intChars_shape n
  rw [hct]
  simp

lemma atom_int (n : Int) : atom (intChars n) = .int n := by
  obtain ⟨c0, t0, hct, hc0, ht0⟩ := intChars_shape n
  have hc0ne : c0 ≠ '#' ∧ c0 ≠ dqC := by
    rcases hc0 with h1 | h1
    · subst h1; exact ⟨by decide, by decide⟩
    · constructor <;> intro hh <;> rw [hh] at h1 <;>
        exact absurd h1 (by decide)
  have h1 : intChars n ≠ ("#t").data := by
    rw [hct]
    intro hh
    exact hc0ne.1 (List.head_eq_of_cons_eq hh)
  have h2 : intChars n ≠ ("#f").data := by
    rw [hct]
    intro hh
    exact hc0ne.1 (List.head_eq_of_cons_eq hh)
  have h3 : (intChars n).head? ≠ some dqC := by
    rw [hct]
    intro hh
    simp only [List.head?_cons, Option.some.injEq] at hh
    exact hc0ne.2 hh
  unfold atom
  rw [if_neg h1, if_neg h2, if_neg h3, pyIntParse_intChars n]

lemma atom_str (s : List Char) : atom (dqC :: s ++ [dqC]) = .str s := by
  have h1 : dqC :: s ++ [dqC] ≠ ("#t").data := by
    intro hh
    exact absurd (List.head_eq_of_cons_eq hh) (by decide)
  have h2 : dqC :: s ++ [dqC] ≠ ("#f").data := by
    intro hh
    exact absurd (List.head_eq_of_cons_eq hh) (by decide)
  unfold atom
  rw [if_neg h1, if_neg h2, if_pos (by simp)]
  rw [show (dqC :: s ++ [dqC]).drop 1 = s ++ [dqC] from rfl,
    List.dropLast_concat]

lemma reader_rAfter_atom (f : Nat) (t : List Char) (s : PState)
    (h1 : t ≠ ['(']) (h2 : t ≠ [')']) (h3 : quoteOf t = Option.none) :
    reader (f + 1) (.rAfter (.tk t)) s = some (.ok (atom t), s) := by
  have h0 : reader (f + 1) (.rAfter (.tk t)) s =
      (if t = ['('] then reader f (.rList []) s
       else if t = [')'] then some (.error (.synErr .unexpectedClose), s)
       else
         match quoteOf t with
         | some q =>
           match reader f .rExpr s with
           | some (.ok v, s2) => some (.ok (.list [q, v]), s2)
           | other => other
         | Option.none => some (.ok (atom t), s)) := rfl
  rw [h0, if_neg h1, if_neg h2, h3]

end LispyPy

namespace LispyPy

lemma last_not_ws_app2 (a : List Char) (x : Char) (y : List Char)
    (hb : ∀ c, (x :: y).getLast? = some c → pyWs c = false) :
    ∀ c, (a ++ x :: y).getLast? = some c → pyWs c = false := by
  intro c hc
  rw [List.getLast?_append_of_ne_nil a (List.cons_ne_nil x y)] at hc
  exact hb c hc

/-- One reader step consuming a single raw (non-delimiter) token that
`atom` classifies as `v`. -/
lemma read_atom_tok (t rest : List Char) (v : Val) (ht : t ≠ [])
    (hc : ∀ c ∈ t, rawCh c = true ∧ pyWs c = false)
    (hatom : atom t = v)
    (hrestRaw : ∀ c, rest.head? = some c → rawCh c = false)
    (hrestLast : ∀ c, rest.getLast? = some c → pyWs c = false) :
    (∀ g, nextToken (g + 1) (t ++ rest, ([] : List (List Char))) =
      some (.tk t, (rest, []))) ∧
    t ≠ [')'] ∧
    (∀ f, reader (f + 1) (.rAfter (.tk t)) (rest, []) =
      some (.ok v, (rest, []))) := by
  have hlastTok : ∀ c, t.getLast? = some c → pyWs c = false :=
    fun c hcc => (hc c (getLast?_mem_list t c hcc)).2
  obtain ⟨p1, p2, p3⟩ := raw_token_props t ht (fun c hcc => (hc c hcc).1)
  refine ⟨?_, p2, ?_⟩
  · intro g
    exact nextToken_raw g t rest [] ht hc hrestRaw
      (last_not_ws_app t rest hlastTok hrestLast)
  · intro f
    rw [reader_rAfter_atom f t (rest, []) p1 p2 p3, hatom]

lemma toStr_last (v : Val) (hv : rt v = true) :
    ∀ c, (toStr v).getLast? = some c → pyWs c = false := by
  cases v with
  | bool b => cases b <;> (intro c hc; simp [toStr] at hc; subst hc; decide)
  | int n =>
    intro c hc
    exact (intChars_all n c (getLast?_mem_list _ c hc)).2
  | float tok =>
    intro c hc
    exact ((ftOk_parts tok hv).2.1 c (getLast?_mem_list _ c hc)).2
  | str s =>
    intro c hc
    rw [show toStr (.str s) = (dqC :: escQuotes s) ++ [dqC] from rfl,
      List.getLast?_concat] at hc
    rw [← Option.some.inj hc]
    rfl
  | sym s =>
    intro c hc
    exact ((symOk_parts s hv).2.1 c (getLast?_mem_list _ c hc)).2
  | list xs =>
    intro c hc
    rw [show toStr (.list xs) = ('(' :: toStrL xs) ++ [')'] from rfl,
      List.getLast?_concat] at hc
    rw [← Option.some.inj hc]
    rfl
  | none => exact absurd hv (by decide)
  | closure p b e =>
    rw [show rt (.closure p b e) = false from rfl] at hv
    exact absurd hv (by decide)
  | native p =>
    rw [show rt (.native p) = false from rfl] at hv
    exact absurd hv (by decide)
  | contEsc i =>
    rw [show rt (.contEsc i) = false from rfl] at hv
    exact absurd hv (by decide)
  | eofObj => exact absurd hv (by decide)

lemma toStr_ne_nil (v : Val) (hv : rt v = true) : toStr v ≠ [] := by
  cases v with
  | bool b => cases b <;> decide
  | int n =>
    rw [show toStr (.int n) = intChars n from rfl]
    exact intChars_ne_nil n
  | float tok =>
    rw [show toStr (.float tok) = tok from rfl]
    exact (ftOk_parts tok hv).1
  | str s => simp [show toStr (.str s) = dqC :: escQuotes s ++ [dqC] from rfl]
  | sym s =>
    rw [show toStr (.sym s) = s from rfl]
    exact (symOk_parts s hv).1
  | list xs => simp [show toStr (.list xs) = '(' :: toStrL xs ++ [')'] from rfl]
  | none => exact absurd hv (by decide)
  | closure p b e =>
    rw [show rt (.closure p b e) = false from rfl] at hv
    exact absurd hv (by decide)
  | native p =>
    rw [show rt (.native p) = false from rfl] at hv
    exact absurd hv (by decide)
  | contEsc i =>
    rw [show rt (.contEsc i) = false from rfl] at hv
    exact absurd hv (by decide)
  | eofObj => exact absurd hv (by decide)

end LispyPy

namespace LispyPy

lemma reader_rExpr_step (f : Nat) (s s1 : PState) (t : List Char)
    (hnt : nextToken (f + 1) s = some (.tk t, s1)) :
    reader (f + 1) .rExpr s = reader f (.rAfter (.tk t)) s1 := by
  have h0 : reader (f + 1) .rExpr s =
      (match nextToken (f + 1) s with
       | Option.none => Option.none
       | some (.teof, s2) => some (.ok .eofObj, s2)
       | some (.tk t2, s2) => reader f (.rAfter (.tk t2)) s2) := rfl
  rw [h0]
  simp only [hnt]

lemma reader_rAfter_open (f : Nat) (s : PState) :
    reader (f + 1) (.rAfter (.tk ['('])) s = reader f (.rList []) s := by
  have h0 : reader (f + 1) (.rAfter (.tk ['('])) s =
      (if ['('] = ['('] then reader f (.rList []) s
       else if ['('] = [')'] then
         some (.error (.synErr .unexpectedClose), s)
       else
         match quoteOf ['('] with
         | some q =>
           match reader f .rExpr s with
           | some (.ok v, s2) => some (.ok (.list [q, v]), s2)
           | other => other
         | Option.none => some (.ok (atom ['(']), s)) := rfl
  rw [h0, if_pos rfl]

lemma reader_rList_close (f : Nat) (acc : List Val) (s s1 : PState)
    (hnt : nextToken (f + 1) s = some (.tk [')'], s1)) :
    reader (f + 1) (.rList acc) s = some (.ok (.list acc), s1) := by
  have h0 : reader (f + 1) (.rList acc) s =
      (match nextToken (f + 1) s with
       | Option.none => Option.none
       | some (tok, s2) =>
         if tok = .tk [')'] then some (.ok (.list acc), s2)
         else
           match reader f (.rAfter tok) s2 with
           | some (.ok v, s3) => reader f (.rList (acc ++ [v])) s3
           | other => other) := rfl
  rw [h0]
  simp only [hnt]
  simp

lemma reader_rList_step (f : Nat) (acc : List Val) (s s1 s2 : PState)
    (t : List Char) (v : Val)
    (hnt : nextToken (f + 1) s = some (.tk t, s1))
    (htne : t ≠ [')'])
    (hrd : reader f (.rAfter (.tk t)) s1 = some (.ok v, s2)) :
    reader (f + 1) (.rList acc) s = reader f (.rList (acc ++ [v])) s2 := by
  have h0 : reader (f + 1) (.rList acc) s =
      (match nextToken (f + 1) s with
       | Option.none => Option.none
       | some (tok, s3) =>
         if tok = .tk [')'] then some (.ok (.list acc), s3)
         else
           match reader f (.rAfter tok) s3 with
           | some (.ok v2, s4) => reader f (.rList (acc ++ [v2])) s4
           | other => other) := rfl
  have hne : (Tok.tk t = Tok.tk [')']) = False := by
    simp [htne]
  rw [h0]
  simp only [hnt, hne, if_false, hrd]

lemma lastOk_close (rest : List Char) (h : stopOk rest) :
    ∀ c, (')' :: rest).getLast? = some c → pyWs c = false := by
  rcases h with rfl | ⟨_, hl⟩
  · intro c hc
    simp only [List.getLast?_singleton, Option.some.injEq] at hc
    rw [← hc]
    rfl
  · cases rest with
    | nil => intro c hc; simp at hc; rw [← hc]; rfl
    | cons x y => exact last_not_ws_app2 [')'] x y hl

lemma stopOk_raw (rest : List Char) (h : stopOk rest) :
    ∀ c, rest.head? = some c → rawCh c = false := by
  intro c hc
  rcases h with rfl | ⟨hh, _⟩
  · simp at hc
  · rcases hh with h1 | h1 <;>
      (rw [h1] at hc; rw [← Option.some.inj hc]; rfl)

lemma stopOk_last (rest : List Char) (h : stopOk rest) :
    ∀ c, rest.getLast? = some c → pyWs c = false := by
  rcases h with rfl | ⟨_, hl⟩
  · intro c hc; simp at hc
  · exact hl

end LispyPy

namespace LispyPy

/-- Main round-trip induction: the printed text of a round-trip-safe
value, followed by any legal stopper, tokenizes to a first token and is
read back as exactly that value with exactly the stopper left over. -/
lemma read_main : ∀ (n : Nat) (v : Val), vsize v ≤ n → rt v = true →
    ∀ (rest : List Char), stopOk rest →
    ∃ (K : Nat) (t rem : List Char),
      (∀ g, nextToken (g + 1) (toStr v ++ rest, ([] : List (List Char))) =
        some (.tk t, (rem, []))) ∧
      t ≠ [')'] ∧
      (∀ f, reader (f + K) (.rAfter (.tk t)) (rem, []) =
        some (.ok v, (rest, []))) := by
  intro n
  induction n with
  | zero =>
    intro v hv
    have := vsize_pos v
    omega
  | succ n ih =>
    intro v hsize hrt rest hstop
    have hrestRaw := stopOk_raw rest hstop
    have hrestLast := stopOk_last rest hstop
    cases v with
    | bool b =>
      cases b
      · obtain ⟨c1, c2, c3⟩ := read_atom_tok (toStr (.bool false)) rest
          (.bool false) (by decide) (by decide) rfl hrestRaw hrestLast
        exact ⟨1, toStr (.bool false), rest, c1, c2, c3⟩
      · obtain ⟨c1, c2, c3⟩ := read_atom_tok (toStr (.bool true)) rest
          (.bool true) (by decide) (by decide) rfl hrestRaw hrestLast
        exact ⟨1, toStr (.bool true), rest, c1, c2, c3⟩
    | int m =>
      obtain ⟨c1, c2, c3⟩ := read_atom_tok (intChars m) rest (.int m)
        (intChars_ne_nil m) (intChars_all m) (atom_int m) hrestRaw hrestLast
      exact ⟨1, intChars m, rest, c1, c2, c3⟩
    | float tok =>
      obtain ⟨c1, c2, c3⟩ := read_atom_tok tok rest (.float tok)
        (ftOk_parts tok hrt).1 (ftOk_parts tok hrt).2.1
        (atom_float tok hrt) hrestRaw hrestLast
      exact ⟨1, tok, rest, c1, c2, c3⟩
    | sym s =>
      obtain ⟨c1, c2, c3⟩ := read_atom_tok s rest (.sym s)
        (symOk_parts s hrt).1 (symOk_parts s hrt).2.1
        (atom_sym s hrt) hrestRaw hrestLast
      exact ⟨1, s, rest, c1, c2, c3⟩
    | str s =>
      have hs : strOk s = true := hrt
      have htox : toStr (.str s) = dqC :: s ++ [dqC] := by
        rw [show toStr (.str s) = dqC :: escQuotes s ++ [dqC] from rfl,
          escQuotes_of_strOk s hs]
      have hlastTok : ∀ c, (dqC :: s ++ [dqC]).getLast? = some c →
          pyWs c = false := by
        intro c hc
        rw [show dqC :: s ++ [dqC] = (dqC :: s) ++ [dqC] from rfl,
          List.getLast?_concat] at hc
        rw [← Option.some.inj hc]
        rfl
      obtain ⟨p1, p2, p3⟩ := dq_token_props (s ++ [dqC])
      refine ⟨1, dqC :: s ++ [dqC], rest, ?_, p2, ?_⟩
      · intro g
        rw [htox]
        exact nextToken_str g s rest [] hs
          (last_not_ws_app (dqC :: s ++ [dqC]) rest hlastTok hrestLast)
      · intro f
        rw [reader_rAfter_atom f (dqC :: s ++ [dqC]) (rest, []) p1 p2 p3,
          atom_str s]
    | list xs =>
      have hrtL : rtL xs = true := hrt
      have hsizeL : vsizeL xs ≤ n := by
        have : vsize (.list xs) = vsizeL xs + 1 := rfl
        omega
      have LL : ∀ (ys : List Val), (∀ x ∈ ys, vsize x ≤ n) →
          (∀ x ∈ ys, rt x = true) →
          ∀ (rest0 : List Char), stopOk rest0 →
          ∃ K, ∀ f (acc : List Val),
            (reader (f + K) (.rList acc) (toStrL ys ++ ')' :: rest0, []) =
              some (.ok (.list (acc ++ ys)), (rest0, []))) ∧
            (reader (f + K) (.rList acc)
                (' ' :: (toStrL ys ++ ')' :: rest0), []) =
              some (.ok (.list (acc ++ ys)), (rest0, []))) := by
        intro ys
        induction ys with
        | nil =>
          intro _ _ rest0 hstop0
          have hcl : ∀ g, nextToken (g + 1) ((')' : Char) :: rest0, ([] : List (List Char))) =
              some (.tk [')'], (rest0, [])) :=
            fun g => nextToken_close g rest0 [] (lastOk_close rest0 hstop0)
          refine ⟨1, ?_⟩
          intro f acc
          constructor
          · rw [show toStrL [] ++ ')' :: rest0 = ')' :: rest0 from rfl]
            exact (reader_rList_close f acc _ (rest0, []) (hcl f)).trans
              (by rw [List.append_nil])
          · rw [show toStrL [] ++ ')' :: rest0 = ')' :: rest0 from rfl]
            have hsp : nextToken (f + 1) (' ' :: ')' :: rest0, ([] : List (List Char))) =
                some (.tk [')'], (rest0, [])) :=
              (nextToken_drop_space f (')' :: rest0) [] (by simp)).trans
                (hcl f)
            exact (reader_rList_close f acc _ (rest0, []) hsp).trans
              (by rw [List.append_nil])
        | cons y zs ihz =>
          intro hsz hrtz rest0 hstop0
          have hy_size : vsize y ≤ n := hsz y (List.mem_cons_self y zs)
          have hy_rt : rt y = true := hrtz y (List.mem_cons_self y zs)
          cases zs with
          | nil =>
            have hstopy : stopOk (')' :: rest0) :=
              Or.inr ⟨Or.inl rfl, lastOk_close rest0 hstop0⟩
            obtain ⟨Ky, t, rem, hnt, htne, hrd⟩ :=
              ih y hy_size hy_rt (')' :: rest0) hstopy
            refine ⟨Ky + 2, ?_⟩
            intro f acc
            have hline : toStrL [y] ++ ')' :: rest0 = toStr y ++ ')' :: rest0 :=
              rfl
            have hrd2 := hrd (f + 1)
            rw [show f + 1 + Ky = f + Ky + 1 from by omega] at hrd2
            have hclose : reader (f + Ky + 1) (.rList (acc ++ [y]))
                ((')' : Char) :: rest0, []) =
                some (.ok (.list (acc ++ [y])), (rest0, [])) :=
              (reader_rList_close (f + Ky) (acc ++ [y]) _ (rest0, [])
                (nextToken_close (f + Ky) rest0 []
                  (lastOk_close rest0 hstop0)))
            have hstep := reader_rList_step (f + Ky + 1) acc
              (toStr y ++ ')' :: rest0, []) (rem, []) (')' :: rest0, [])
              t y (hnt (f + Ky + 1)) htne hrd2
            constructor
            · rw [show f + (Ky + 2) = f + Ky + 1 + 1 from by omega, hline]
              exact hstep.trans hclose
            · rw [show f + (Ky + 2) = f + Ky + 1 + 1 from by omega, hline]
              have hntSp : nextToken (f + Ky + 1 + 1)
                  (' ' :: (toStr y ++ ')' :: rest0), ([] : List (List Char))) =
                  some (.tk t, (rem, [])) :=
                (nextToken_drop_space (f + Ky + 1) (toStr y ++ ')' :: rest0)
                  [] (by simp [toStr_ne_nil y hy_rt])).trans
                  (hnt (f + Ky + 1))
              exact (reader_rList_step (f + Ky + 1) acc
                (' ' :: (toStr y ++ ')' :: rest0), []) (rem, [])
                (')' :: rest0, []) t y hntSp htne hrd2).trans hclose
          | cons z1 z2 =>
            have hstopy : stopOk (' ' :: (toStrL (z1 :: z2) ++ ')' :: rest0)) :=
              Or.inr ⟨Or.inr rfl,
                fun c hc => last_not_ws_app2 (' ' :: toStrL (z1 :: z2)) ')'
                  rest0 (lastOk_close rest0 hstop0) c hc⟩
            obtain ⟨Ky, t, rem, hnt, htne, hrd⟩ :=
              ih y hy_size hy_rt (' ' :: (toStrL (z1 :: z2) ++ ')' :: rest0))
                hstopy
            obtain ⟨Kz, hKz⟩ := ihz
              (fun x hx => hsz x (List.mem_cons_of_mem y hx))
              (fun x hx => hrtz x (List.mem_cons_of_mem y hx)) rest0 hstop0
            refine ⟨Ky + Kz + 1, ?_⟩
            intro f acc
            have hline : toStrL (y :: z1 :: z2) ++ ')' :: rest0 =
                toStr y ++ (' ' :: (toStrL (z1 :: z2) ++ ')' :: rest0)) := by
              rw [show toStrL (y :: z1 :: z2) =
                toStr y ++ ' ' :: toStrL (z1 :: z2) from rfl]
              simp
            have hrd2 := hrd (f + Kz)
            rw [show f + Kz + Ky = f + Ky + Kz from by omega] at hrd2
            have hcont := (hKz (f + Ky) (acc ++ [y])).2
            rw [show f + Ky + Kz = f + Ky + Kz from rfl] at hcont
            rw [List.append_assoc, List.singleton_append] at hcont
            have hcont2 : reader (f + Ky + Kz) (.rList (acc ++ [y]))
                (' ' :: (toStrL (z1 :: z2) ++ ')' :: rest0), []) =
                some (.ok (.list (acc ++ y :: z1 :: z2)), (rest0, [])) := by
              have h := (hKz (f + Ky) (acc ++ [y])).2
              rw [show f + Ky + Kz = f + Ky + Kz from rfl] at h
              rw [List.append_assoc, List.singleton_append] at h
              exact h
            have hstep := reader_rList_step (f + Ky + Kz) acc
              (toStr y ++ (' ' :: (toStrL (z1 :: z2) ++ ')' :: rest0)), [])
              (rem, []) (' ' :: (toStrL (z1 :: z2) ++ ')' :: rest0), [])
              t y (hnt (f + Ky + Kz)) htne hrd2
            constructor
            · rw [show f + (Ky + Kz + 1) = f + Ky + Kz + 1 from by omega,
                hline]
              exact hstep.trans hcont2
            · rw [show f + (Ky + Kz + 1) = f + Ky + Kz + 1 from by omega,
                hline]
              have hntSp : nextToken (f + Ky + Kz + 1)
                  (' ' :: (toStr y ++
                    (' ' :: (toStrL (z1 :: z2) ++ ')' :: rest0))),
                    ([] : List (List Char))) =
                  some (.tk t, (rem, [])) :=
                (nextToken_drop_space (f + Ky + Kz)
                  (toStr y ++ (' ' :: (toStrL (z1 :: z2) ++ ')' :: rest0)))
                  [] (by simp [toStr_ne_nil y hy_rt])).trans
                  (hnt (f + Ky + Kz))
              exact (reader_rList_step (f + Ky + Kz) acc
                (' ' :: (toStr y ++
                  (' ' :: (toStrL (z1 :: z2) ++ ')' :: rest0))), [])
                (rem, [])
                (' ' :: (toStrL (z1 :: z2) ++ ')' :: rest0), [])
                t y hntSp htne hrd2).trans hcont2
      obtain ⟨KL, hKL⟩ := LL xs
        (fun x hx => le_trans (vsize_le_of_mem xs x hx) hsizeL)
        (fun x hx => rtL_mem xs x hrtL hx) rest hstop
      have hb : ∀ c, (')' :: rest).getLast? = some c → pyWs c = false :=
        lastOk_close rest hstop
      refine ⟨KL + 1, ['('], toStrL xs ++ ')' :: rest, ?_, by decide, ?_⟩
      · intro g
        have hline : toStr (.list xs) ++ rest =
            '(' :: (toStrL xs ++ ')' :: rest) := by
          rw [show toStr (.list xs) = '(' :: toStrL xs ++ [')'] from rfl]
          simp
        rw [hline]
        exact nextToken_open g (toStrL xs ++ ')' :: rest) []
          (fun c hc => last_not_ws_app2 ('(' :: toStrL xs) ')' rest hb c hc)
      · intro f
        rw [show f + (KL + 1) = f + KL + 1 from by omega,
          reader_rAfter_open (f + KL) (toStrL xs ++ ')' :: rest, [])]
        have hcont := (hKL f []).1
        rw [List.nil_append] at hcont
        exact hcont
    | none => exact absurd hrt (by decide)
    | closure p b e =>
      rw [show rt (.closure p b e) = false from rfl] at hrt
      exact absurd hrt (by decide)
    | native p =>
      rw [show rt (.native p) = false from rfl] at hrt
      exact absurd hrt (by decide)
    | contEsc i =>
      rw [show rt (.contEsc i) = false from rfl] at hrt
      exact absurd hrt (by decide)
    | eofObj => exact absurd hrt (by decide)

end LispyPy

namespace LispyPy

/-- C4 (amended): for every Reader-producible value in the amended
family `rt` — booleans, integers, float tokens, strings whose contents
contain no double quote, symbols free of whitespace and delimiter
characters, and nested lists of such values — re-reading `to_string`'s
output yields exactly the original value.  (The counterexample shows
the unamended claim fails for a producible string containing `"`.) -/
theorem C4_amended_roundtrip : ∀ v : Val, rt v = true →
    ∃ F, readTop F [toStr v] = some (.ok v) := by
  intro v hv
  obtain ⟨K, t, rem, hnt, _, hrd⟩ :=
    read_main (vsize v) v le_rfl hv [] (Or.inl rfl)
  refine ⟨K + 2, ?_⟩
  have hnt1 : nextToken (K + 2) (([] : List Char), [toStr v]) =
      some (.tk t, (rem, [])) := by
    rw [show nextToken (K + 2) (([] : List Char), [toStr v]) =
      nextToken (K + 1) (toStr v, []) from rfl]
    have h := hnt K
    rw [List.append_nil] at h
    exact h
  have hrd2 := hrd 1
  rw [show 1 + K = K + 1 from by omega] at hrd2
  unfold readTop
  rw [reader_rExpr_step (K + 1) (([] : List Char), [toStr v]) (rem, []) t
    hnt1, hrd2]
  rfl

/-- Concrete round-trip instance for the amended claim:
`(a 42 "hi" (#t))` re-reads to itself. -/
theorem C4_amended_roundtrip_witness :
    ∃ F, readTop F [toStr (.list [.sym (("a").data), .int 42,
      .str (("hi").data), .list [.bool true]])] =
      some (.ok (.list [.sym (("a").data), .int 42,
        .str (("hi").data), .list [.bool true]])) :=
  C4_amended_roundtrip
    (.list [.sym (("a").data), .int 42, .str (("hi").data),
      .list [.bool true]]) (by decide)

end LispyPy
